import Mathlib

/-!
# Beacon: verification of the alignment, webadmin, DSN and connection-id code

A shallow embedding of parts of the beacon mail server:

* `smtpserver/alignment.go`  : `alignment`
* `webadmin/admin.go`        : `handle`, `Admin.SetPassword`
* `smtpserver/dsn.go`        : `queueDSN`
* `cid.go` (package beacon) : `Cid`

Calls into packages outside these files (public suffix lookup, web
authentication, the account store, DKIM signing, the queue) are taken as
parameters of the embedded function.  Effects are recorded as a list of
events in program order.
-/

namespace Beacon

/-! ## Data model -/

namespace dns

/-- Go `dns.Domain`: a comparable struct of the ASCII (A-label) form and the
optional Unicode form of a domain name. -/
structure Domain where
  ASCII : String
  Unicode : String
deriving DecidableEq, Repr

end dns

namespace dkim

/-- Modelled from the spec: the values of `dkim.Status` (the type is declared
outside the embedded files); only `pass` is inspected by the code here. -/
inductive Status where
  | none | pass | fail | policy | neutral | temperror | permerror
deriving DecidableEq, Repr

/-- The constant `dkim.StatusPass`. -/
def StatusPass : Status := Status.pass

/-- Go `dkim.Sig`, restricted to the field that `alignment` reads: the `d=`
domain of the signature. -/
structure Sig where
  Domain : dns.Domain
deriving DecidableEq, Repr

/-- Go `dkim.Result`, restricted to the fields that `alignment` reads.  `Sig`
is a pointer in Go, `none` is the nil pointer. -/
structure Result where
  Status : Status
  Sig : Option Sig
deriving DecidableEq, Repr

end dkim

namespace spf

/-- Modelled from the spec: the values of `spf.Status`, "{pass, fail, softfail,
neutral, none, permerror, temperror}" (the type is declared outside the embedded
files). -/
inductive Status where
  | none | neutral | pass | fail | softfail | temperror | permerror
deriving DecidableEq, Repr

/-- The constant `spf.StatusPass`. -/
def StatusPass : Status := Status.pass

end spf

namespace store

/-- Modelled from the spec: the values of `store.Validation` (declared outside
the embedded files).  The spec names `Strict`, `Relaxed` and `None` as the values of
an alignment; the type has further values, for SPF and DMARC verdicts, so the range
of `alignment` is a proper part of it. -/
inductive Validation where
  | Unknown | Strict | DMARC | Relaxed | Pass | Neutral | Temperror | Permerror
  | Fail | Softfail | None
deriving DecidableEq, Repr

end store

/-! ## `smtpserver/alignment.go` -/

namespace smtpserver

open store

/-- The `for _, dr := range dkimResults` loop of `alignment`.  The argument
`relaxed` is the value of the variable `relaxed` on entry of the iteration; the
result is the pair `(strict, relaxed)` after the loop.  `strict` is false on
entry of every iteration, because setting it leaves the loop (`break`). -/
def alignmentLoop (Lookup : dns.Domain → dns.Domain) (msgFromDomain msgFromOrgDomain : dns.Domain) :
    List dkim.Result → Bool → Bool × Bool
  | [], relaxed => (false, relaxed)
  | dr :: rest, relaxed =>
    if dr.Status ≠ dkim.StatusPass ∨ dr.Sig = none then
      -- continue
      alignmentLoop Lookup msgFromDomain msgFromOrgDomain rest relaxed
    else
      match dr.Sig with
      | none => alignmentLoop Lookup msgFromDomain msgFromOrgDomain rest relaxed
      | some sig =>
        if sig.Domain = msgFromDomain then
          -- strict = true; break
          (true, relaxed)
        else
          alignmentLoop Lookup msgFromDomain msgFromOrgDomain rest
            (relaxed || decide (msgFromOrgDomain = Lookup sig.Domain))

/-- The three `return` statements that end `alignment`. -/
def alignmentResult (strict relaxed : Bool) : Validation :=
  if strict then Validation.Strict
  else if relaxed then Validation.Relaxed
  else Validation.None

/-- Go `alignment`.  `Lookup` is `publicsuffix.Lookup` (with the context and
logger fixed).  `spfIdentity` is a pointer in Go: `none` is nil, and the result
`none` is the run-time panic of dereferencing it. -/
def alignment (Lookup : dns.Domain → dns.Domain) (msgFromDomain : dns.Domain)
    (dkimResults : List dkim.Result) (spfStatus : spf.Status)
    (spfIdentity : Option dns.Domain) : Option Validation :=
  let msgFromOrgDomain := Lookup msgFromDomain
  let sr := alignmentLoop Lookup msgFromDomain msgFromOrgDomain dkimResults false
  if sr.1 = false ∧ spfStatus = spf.StatusPass then
    match spfIdentity with
    | none => none
    | some ident =>
      some (alignmentResult (decide (msgFromDomain = ident))
        (sr.2 || decide (msgFromOrgDomain = Lookup ident)))
  else
    some (alignmentResult sr.1 sr.2)

/-- Some DKIM result is a pass with a signature whose domain is `d` exactly. -/
def dkimStrict (d : dns.Domain) (rs : List dkim.Result) : Prop :=
  ∃ r ∈ rs, r.Status = dkim.StatusPass ∧ ∃ sig, r.Sig = some sig ∧ sig.Domain = d

/-- Some DKIM result is a pass with a signature whose domain has the same
organizational domain as `d`. -/
def dkimOrg (Lookup : dns.Domain → dns.Domain) (d : dns.Domain) (rs : List dkim.Result) : Prop :=
  ∃ r ∈ rs, r.Status = dkim.StatusPass ∧
    ∃ sig, r.Sig = some sig ∧ Lookup sig.Domain = Lookup d

/-- The precondition on the SPF arguments: the identity pointer is not nil when the
SPF status is pass. -/
def spfIdentityOK (spfStatus : spf.Status) (spfIdentity : Option dns.Domain) : Prop :=
  spfStatus = spf.StatusPass → spfIdentity ≠ none

/-- The SPF outcome is a pass whose identity has the same organizational domain as
`d`. -/
def spfOrg (Lookup : dns.Domain → dns.Domain) (d : dns.Domain) (spfStatus : spf.Status)
    (spfIdentity : Option dns.Domain) : Prop :=
  spfStatus = spf.StatusPass ∧ ∃ ident, spfIdentity = some ident ∧ Lookup ident = Lookup d

/-- The lookup of the package example (`publicsuffix/examples_test.go`):
`sub.example.org` has organizational domain `example.org`; every other domain is
taken as its own organizational domain.  Used for concrete evaluations only. -/
def exampleLookup (d : dns.Domain) : dns.Domain :=
  if d.ASCII = "sub.example.org" then ⟨"example.org", ""⟩ else d

end smtpserver

/-! ## Package beacon, `cid.go` -/

namespace beacon

/-- Two's complement wrap-around of a mathematical integer into the range of Go
`int64`. -/
def wrapInt64 (x : Int) : Int :=
  (x + 2 ^ 63) % 2 ^ 64 - 2 ^ 63

/-- The range of Go `int64`. -/
def isInt64 (x : Int) : Prop :=
  -(2 : Int) ^ 63 ≤ x ∧ x < 2 ^ 63

/-- Go `init`: `cid.Store(time.Now().UnixMilli())`.  The argument is the wall
clock in milliseconds, the result is the value of the counter `cid`. -/
def init (nowUnixMilli : Int) : Int :=
  nowUnixMilli

/-- Go `Cid`: `return cid.Add(1)`.  The argument is the value of the package
variable `cid` before the call; the result is the returned id and the value of
`cid` after the call.  `atomic.Int64.Add` adds with wrap-around and returns the
new value. -/
def Cid (cid : Int) : Int × Int :=
  let v := wrapInt64 (cid + 1)
  (v, v)

/-- The ids returned by `n` successive calls of `Cid`, first call first, starting
with the counter at `cid`. -/
def CidRun : Nat → Int → List Int
  | 0, _ => []
  | n + 1, cid => (Cid cid).1 :: CidRun n (Cid cid).2

end beacon

/-! ## `webadmin/admin.go` -/

namespace strings

/-- Go `strings.HasPrefix`. -/
def HasPrefix (s pre : String) : Bool :=
  pre.data.isPrefixOf s.data

end strings

/-- A Go `error` value, as far as the embedded code inspects it: its text, and
what `errors.Is` answers for `context.Canceled` and `context.DeadlineExceeded`. -/
structure GoError where
  Text : String
  IsCanceled : Bool
  IsDeadlineExceeded : Bool
deriving DecidableEq, Repr

/-- Go `fmt.Errorf(msg + ": %w", err)`: the text is prefixed, `errors.Is` looks
through the wrapping. -/
def wrapErrorText (msg : String) (err : GoError) : GoError :=
  ⟨msg ++ ": " ++ err.Text, err.IsCanceled, err.IsDeadlineExceeded⟩

namespace sherpa

/-- Go `sherpa.Error`, the value the API functions panic with. -/
structure Error where
  Code : String
  Message : String
deriving DecidableEq, Repr

end sherpa

namespace store

/-- Go `store.SessionToken`, a string type. -/
abbrev SessionToken := String

/-- An opened account (`*store.Account`), identified by its name. -/
structure Account where
  Name : String
deriving DecidableEq, Repr

end store

namespace webadmin

/-- The parts of `*http.Request` that `handle` reads: `r.URL.Path` and `r.Method`. -/
structure Request where
  Path : String
  Method : String
deriving DecidableEq, Repr

/-- What `handle` does to the outside, in program order. -/
inductive Event where
  /-- The call `beacon.Cid()` returned `id`. -/
  | cid (id : Int)
  /-- The call `webadminFile.Serve(ctx, log, w, r)`. -/
  | serveFile
  /-- The call `http.Error(w, msg, code)`. -/
  | error (msg : String) (code : Nat)
  /-- The call `webauth.Check(..., isAPI, isAPI, false)`. -/
  | check (isAPI : Bool)
  /-- The call `apiHandler.ServeHTTP`, with the session token put in the context. -/
  | serveHTTP (sessionToken : store.SessionToken)
  /-- The call `http.NotFound(w, r)`. -/
  | notFound
deriving DecidableEq, Repr

/-- The constant `http.StatusMethodNotAllowed`. -/
def StatusMethodNotAllowed : Nat := 405

/-- Go `handle`.  `Check isForwarded r a b c` is the session token and the `ok`
result of `webauth.Check(ctx, log, webauth.Admin, "webadmin", isForwarded, w, r, a, b, c)`;
`cid` is the value of the connection-id counter on entry.  The result is the
events in program order and the counter on return. -/
def handle (Check : Bool → Request → Bool → Bool → Bool → store.SessionToken × Bool)
    (isForwarded : Bool) (r : Request) (cid : Int) : List Event × Int :=
  let c := beacon.Cid cid
  let start := [Event.cid c.1]
  if r.Path = "/" then
    if r.Method = "GET" ∨ r.Method = "HEAD" then
      (start ++ [Event.serveFile], c.2)
    else
      (start ++ [Event.error "405 - method not allowed - use get" StatusMethodNotAllowed], c.2)
  else
    let isAPI := strings.HasPrefix r.Path "/api/"
    if isAPI = true ∧ r.Path ≠ "/api/" ∧ r.Method ≠ "POST" then
      (start ++ [Event.error "405 - method not allowed - use post" StatusMethodNotAllowed], c.2)
    else
      let finish (sessionToken : store.SessionToken) : List Event :=
        if isAPI then [Event.serveHTTP sessionToken] else [Event.notFound]
      if r.Path ≠ "/api/LoginPrep" ∧ r.Path ≠ "/api/Login" then
        let chk := Check isForwarded r isAPI isAPI false
        if chk.2 = false then
          -- Response has been written already.
          (start ++ [Event.check isAPI], c.2)
        else
          (start ++ [Event.check isAPI] ++ finish chk.1, c.2)
      else
        (start ++ finish "", c.2)

/-- Go `xcheckf`: no error returns normally (`none`), an error panics with a
`sherpa.Error` (`some`). -/
def xcheckf (err : Option GoError) (msg : String) : Option sherpa.Error :=
  match err with
  | none => none
  | some e =>
    let errmsg := msg ++ ": " ++ e.Text
    let code := if e.IsCanceled ∨ e.IsDeadlineExceeded then "user:error" else "server:error"
    some ⟨code, errmsg⟩

/-- What `Admin.SetPassword` does to the account store, in program order. -/
inductive StoreEvent where
  /-- The call `store.OpenAccount(log, accountName)`. -/
  | openAccount (accountName : String)
  /-- The call `acc.SetPassword(log, password)`. -/
  | setPassword (acc : store.Account) (password : String)
  /-- The deferred call `acc.Close()`. -/
  | close (acc : store.Account)
deriving DecidableEq, Repr

/-- Go `Admin.SetPassword`.  `OpenAccount` and `SetPassword` are the calls into the
store with their error results.  The result is the calls made on the store and the
`sherpa.Error` the function panics with (`none`: it returns normally).  Go `len` of
a string is its number of bytes. -/
def Admin.SetPassword (OpenAccount : String → Except GoError store.Account)
    (SetPassword : store.Account → String → Option GoError)
    (accountName password : String) : List StoreEvent × Option sherpa.Error :=
  if password.utf8ByteSize < 8 then
    ([], some ⟨"user:error", "password must be at least 8 characters"⟩)
  else
    match OpenAccount accountName with
    | Except.error err =>
      ([StoreEvent.openAccount accountName], xcheckf (some err) "open account")
    | Except.ok acc =>
      ([StoreEvent.openAccount accountName, StoreEvent.setPassword acc password,
          StoreEvent.close acc],
        xcheckf (SetPassword acc password) "setting password")

end webadmin

/-! ## `smtpserver/dsn.go` -/

/-- Go `[]byte`. -/
abbrev Bytes := List UInt8

/-- Go `[]byte(s)` for a string `s`: its bytes (UTF-8). -/
def bytesOfString (s : String) : Bytes :=
  s.toUTF8.data.toList

namespace dns

/-- Go `dns.IPDomain`: an IP address or a domain. -/
structure IPDomain where
  IP : Bytes
  Domain : Domain
deriving DecidableEq, Repr

end dns

namespace smtp

/-- Go `smtp.Path`: a localpart and an IP or domain (declared outside the embedded
files). -/
structure Path where
  Localpart : String
  IPDomain : dns.IPDomain
deriving DecidableEq, Repr

/-- Go `smtp.Path{}`, the zero value: the null (empty) reverse path. -/
def Path.zero : Path :=
  ⟨"", ⟨[], ⟨"", ""⟩⟩⟩

end smtp

namespace dsn

/-- Go `dsn.Message`, restricted to the fields that `queueDSN` reads; the rest of
the message is `Content`, read by `Compose` only. -/
structure Message where
  From : smtp.Path
  MessageID : String
  Content : String
deriving DecidableEq, Repr

end dsn

namespace queue

/-- Modelled from the spec: `queue.Msg` as built by `queue.MakeMsg`, both declared
outside the embedded files.  The message records the arguments of `MakeMsg` (sender
account, envelope sender, envelope recipient, 8-bit and UTF-8 flags, size, message
id, prefix, REQUIRETLS) and the UTF-8 DSN variant `DSNUTF8`: "envelope sender (may
be empty for DSN) ... 8-bit/UTF-8 flags, declared SIZE, optional REQUIRETLS" and
"DSN variant (ASCII + optional UTF-8)". -/
structure Msg where
  SenderAccount : String
  Sender : smtp.Path
  Recipient : smtp.Path
  Has8bit : Bool
  SMTPUTF8 : Bool
  Size : Int
  MessageID : String
  MsgPrefix : Option Bytes
  RequireTLS : Option Bool
  DSNUTF8 : Bytes
deriving DecidableEq, Repr

/-- Modelled from the spec: `queue.MakeMsg`, see `queue.Msg`; `DSNUTF8` starts
empty (nil). -/
def MakeMsg (senderAccount : String) (sender recipient : smtp.Path) (has8bit smtputf8 : Bool)
    (size : Int) (messageID : String) (msgPrefix : Option Bytes) (requireTLS : Option Bool) : Msg :=
  ⟨senderAccount, sender, recipient, has8bit, smtputf8, size, messageID, msgPrefix, requireTLS, []⟩

end queue

namespace smtpserver

/-- The part of `*conn` that `queueDSN` reads. -/
structure conn where
  smtputf8 : Bool
deriving DecidableEq, Repr

/-- The calls of `queueDSN` into other packages, with their results.
* `Compose m smtputf8` is `m.Compose(c.log, smtputf8)`;
* `DKIMSign from smtputf8 data` is `beacon.DKIMSign(ctx, log, from, smtputf8, data)`;
* `CreateMessageTemp` is the error result of `store.CreateMessageTemp`;
* `Write buf` is the error result of `f.Write(buf)` on the temporary file;
* `Add qm` is the error result of `queue.Add(ctx, c.log, &qm, f)`. -/
structure Env where
  Compose : dsn.Message → Bool → Bytes × Option GoError
  DKIMSign : smtp.Path → Bool → Bytes → String × Option GoError
  CreateMessageTemp : Option GoError
  Write : Bytes → Option GoError
  Add : queue.Msg → Option GoError

/-- What `queueDSN` does to the store and the queue, in program order. -/
inductive DSNEvent where
  /-- The call `store.CreateMessageTemp(c.log, "smtp-dsn")`. -/
  | createMessageTemp
  /-- The call `f.Write(buf)`. -/
  | write (buf : Bytes)
  /-- The call `queue.Add(ctx, c.log, &qm, f)`. -/
  | add (qm : queue.Msg)
  /-- The deferred call `store.CloseRemoveTempFile`. -/
  | closeRemoveTempFile
deriving DecidableEq, Repr

/-- Go `fmt.Errorf(msg + ": %w", err)`. -/
def wrapError (msg : String) (err : GoError) : GoError :=
  ⟨msg ++ ": " ++ err.Text, err.IsCanceled, err.IsDeadlineExceeded⟩

/-- The ASCII message of `queueDSN`: `buf` after
`buf = append([]byte(bufDKIM), buf...)`. -/
def dsnBuf (env : Env) (m : dsn.Message) : Bytes :=
  let buf := (env.Compose m false).1
  let bufDKIM := (env.DKIMSign m.From false buf).1
  bytesOfString bufDKIM ++ buf

/-- The UTF-8 variant of `queueDSN`: `bufUTF8` when the temporary file is created. -/
def dsnBufUTF8 (env : Env) (c : conn) (m : dsn.Message) : Bytes :=
  if c.smtputf8 then
    let r := env.Compose m true
    match r.2 with
    | some _ => r.1
    | none =>
      let bufUTF8DKIM := (env.DKIMSign m.From true r.1).1
      bytesOfString bufUTF8DKIM ++ r.1
  else
    []

/-- The queue message `qm` of `queueDSN` when `queue.Add` is called. -/
def dsnMsg (env : Env) (c : conn) (rcptTo : smtp.Path) (m : dsn.Message)
    (requireTLS : Bool) : queue.Msg :=
  let reqTLS : Option Bool := if requireTLS then some requireTLS else none
  let qm := queue.MakeMsg "" smtp.Path.zero rcptTo false false ((dsnBuf env m).length : Int)
    m.MessageID none reqTLS
  { qm with DSNUTF8 := dsnBufUTF8 env c m }

/-- An environment for concrete evaluations: composing gives the bytes of the
message content, signing gives one fixed header, and the store and the queue accept. -/
def exampleEnv : Env where
  Compose := fun m _ => (bytesOfString m.Content, none)
  DKIMSign := fun _ _ _ => ("DKIM-Signature: v=1; d=beacon.example;", none)
  CreateMessageTemp := none
  Write := fun _ => none
  Add := fun _ => none

/-- An environment for concrete evaluations in which DKIM signing fails (no
signature text) and composing the UTF-8 variant fails, and the store and the queue
accept. -/
def exampleFailingSignEnv : Env where
  Compose := fun m smtputf8 =>
    if smtputf8 then ([], some ⟨"cannot compose", false, false⟩)
    else (bytesOfString m.Content, none)
  DKIMSign := fun _ _ _ => ("", some ⟨"no key", false, false⟩)
  CreateMessageTemp := none
  Write := fun _ => none
  Add := fun _ => none

/-- A DSN message for concrete evaluations. -/
def exampleDSN : dsn.Message :=
  ⟨⟨"postmaster", ⟨[], ⟨"beacon.example", ""⟩⟩⟩, "<id@beacon.example>", "Subject: failure"⟩

/-- A recipient for concrete evaluations. -/
def exampleRcpt : smtp.Path :=
  ⟨"alice", ⟨[], ⟨"remote.example", ""⟩⟩⟩

/-- Go `queueDSN`.  The result is the calls made on the store and the queue, in
program order, and the returned error (`none` is nil).  Log calls are left out. -/
def queueDSN (env : Env) (c : conn) (rcptTo : smtp.Path) (m : dsn.Message)
    (requireTLS : Bool) : List DSNEvent × Option GoError :=
  match (env.Compose m false).2 with
  | some err => ([], some err)
  | none =>
    let buf := dsnBuf env m
    let bufUTF8 := dsnBufUTF8 env c m
    match env.CreateMessageTemp with
    | some err => ([DSNEvent.createMessageTemp], some (wrapError "creating temp file" err))
    | none =>
      match env.Write buf with
      | some err =>
        ([DSNEvent.createMessageTemp, DSNEvent.write buf, DSNEvent.closeRemoveTempFile],
          some (wrapError "writing dsn file" err))
      | none =>
        let has8bit := false
        let smtputf8 := false
        let reqTLS : Option Bool := if requireTLS then some requireTLS else none
        let qm0 := queue.MakeMsg "" smtp.Path.zero rcptTo has8bit smtputf8 (buf.length : Int)
          m.MessageID none reqTLS
        let qm := { qm0 with DSNUTF8 := bufUTF8 }
        ([DSNEvent.createMessageTemp, DSNEvent.write buf, DSNEvent.add qm,
            DSNEvent.closeRemoveTempFile],
          env.Add qm)

end smtpserver

/-! ## `serve.go` -/

namespace time

/-- Go `time.Duration`: a number of nanoseconds. -/
abbrev Duration := Int

/-- The constant `time.Second`. -/
def Second : Duration := 1000000000

/-- Go `time.Time`, a struct of the wall clock reading, the monotonic clock reading
and a `*Location`:

* `nanos` is the instant of the wall clock, in nanoseconds since the Unix epoch;
* `mono` is the monotonic clock reading, `none` when the time has none (a time that
  was parsed, decoded or read from a database has none);
* `loc` is the pointer to the location, by its address; `none` is the nil pointer,
  which stands for UTC.

Go `==` on `time.Time` compares the struct fields, so it is equality of all three:
two times of the same instant in different locations are not `==`. -/
structure Time where
  nanos : Int
  mono : Option Int
  loc : Option Nat
deriving DecidableEq, Repr

/-- A numeric literal as a time: that many nanoseconds after the Unix epoch, in UTC,
without monotonic clock reading. -/
instance (n : Nat) : OfNat Time n := ⟨⟨n, none, none⟩⟩

/-- Go `Time.After`: with a monotonic clock reading in both times, these are
compared; otherwise the instants of the wall clock are.  The location is not
looked at. -/
def Time.After (t u : Time) : Bool :=
  match t.mono, u.mono with
  | some a, some b => decide (a > b)
  | _, _ => decide (t.nanos > u.nanos)

/-- Go `Time.Equal`: the same instant, whatever the locations. -/
def Time.Equal (t u : Time) : Bool :=
  match t.mono, u.mono with
  | some a, some b => decide (a = b)
  | _, _ => decide (t.nanos = u.nanos)

end time

namespace serve

/-- What `shutdown` (package main, `serve.go`) does, in program order.  Log calls are
left out. -/
inductive ShutdownEvent where
  /-- The call `beacon.ShutdownCancel()`. -/
  | shutdownCancel
  /-- The call `beacon.Connections.Done()`. -/
  | connectionsDone
  /-- The call `time.Tick(d)`. -/
  | tick (d : time.Duration)
  /-- A receive `<-second` from the one-second tick. -/
  | waitSecond
  /-- The call `beacon.ContextCancel()`. -/
  | contextCancel
  /-- The call `beacon.Connections.Shutdown()`. -/
  | connectionsShutdown
  /-- The call `os.Remove(beacon.DataDirPath("ctl"))`. -/
  | removeCtl
deriving DecidableEq, Repr

/-- The case of the first `select` of `shutdown` that proceeds: the channel that is
ready first. -/
inductive FirstSelect where
  /-- The case `<-done`: all connections are gone. -/
  | done
  /-- The case `<-time.Tick(3 * time.Second)`. -/
  | timer
deriving DecidableEq, Repr

/-- The case of the second `select` of `shutdown` that proceeds. -/
inductive SecondSelect where
  /-- The case `<-done`. -/
  | done
  /-- The case `<-second`. -/
  | second
deriving DecidableEq, Repr

/-- A run of `shutdown`, as seen from the clock.  `doneAt` is the time
(nanoseconds after the first `select` is entered) at which `done` gets ready when
nothing is forced, `none` if it never does; `doneAfterForce` is the time after
`Connections.Shutdown()` at which `done` gets ready; `tie1` and `tie2` are the cases
that proceed when both channels of a `select` get ready at the same time. -/
structure Run where
  doneAt : Option Int
  doneAfterForce : Option Int
  tie1 : FirstSelect
  tie2 : SecondSelect
deriving DecidableEq, Repr

/-- Go `select` on `done` and a tick of `d`: the case that is ready first proceeds. -/
def firstSelect (r : Run) : FirstSelect :=
  match r.doneAt with
  | none => FirstSelect.timer
  | some t =>
    if t < 3 * time.Second then FirstSelect.done
    else if t = 3 * time.Second then r.tie1
    else FirstSelect.timer

/-- Go `select` on `done` and the one-second tick made after the forced shutdown. -/
def secondSelect (r : Run) : SecondSelect :=
  match r.doneAfterForce with
  | none => SecondSelect.second
  | some t =>
    if t < time.Second then SecondSelect.done
    else if t = time.Second then r.tie2
    else SecondSelect.second

/-- Go `shutdown`, given the cases that the two `select` statements take. -/
def shutdownWith (s1 : FirstSelect) (s2 : SecondSelect) : List ShutdownEvent :=
  [ShutdownEvent.shutdownCancel, ShutdownEvent.connectionsDone,
    ShutdownEvent.tick time.Second, ShutdownEvent.tick (3 * time.Second)] ++
  (match s1 with
    | FirstSelect.done => [ShutdownEvent.waitSecond]
    | FirstSelect.timer =>
      [ShutdownEvent.contextCancel, ShutdownEvent.connectionsShutdown,
        ShutdownEvent.tick time.Second] ++
      (match s2 with
        | SecondSelect.done => [ShutdownEvent.waitSecond]
        | SecondSelect.second => [])) ++
  [ShutdownEvent.removeCtl]

/-- Go `shutdown` on a run. -/
def shutdown (r : Run) : List ShutdownEvent :=
  shutdownWith (firstSelect r) (secondSelect r)

end serve

/-! ## Package beacon, `sleep.go` and `lastknown.go` -/

namespace beacon

/-- How a call of `Sleep` ends. -/
inductive SleepResult where
  /-- A run-time panic. -/
  | panic (msg : String)
  /-- A normal return, `after` nanoseconds after the call. -/
  | returned (after : Int)
deriving DecidableEq, Repr

/-- Go `Sleep`.  `ctxDoneAt` is the time (nanoseconds after the call, not negative)
at which `ctx.Done()` gets ready, `none` if it never does; `d` is the duration.
`time.NewTicker(d)` panics when `d` is not positive; its channel is ready `d` after
the call.  The `select` proceeds with the channel that is ready first. -/
def Sleep (ctxDoneAt : Option Int) (d : time.Duration) : SleepResult :=
  if d ≤ 0 then
    SleepResult.panic "non-positive interval for NewTicker"
  else
    match ctxDoneAt with
    | none => SleepResult.returned d
    | some t => if t < d then SleepResult.returned t else SleepResult.returned d

end beacon

namespace updates

/-- Go `updates.Version` (declared outside the embedded files): major, minor and
patch number. -/
structure Version where
  Major : Int
  Minor : Int
  Patch : Int
deriving DecidableEq, Repr

/-- Go `updates.Version{}`, the zero value. -/
def Version.zero : Version :=
  ⟨0, 0, 0⟩

end updates

namespace beacon

/-- What `LastKnown` reads.
* `Version` is `beaconvar.Version`;
* `ParseVersion s` is `updates.ParseVersion(s)`, a version and an error;
* `After v o` is `v.After(o)`;
* `TrimSpace` is `strings.TrimSpace`;
* `Stat` is the modification time of the file `lastknownversion`, `none` when
  `os.Stat` gives no file info;
* `ReadFile` is the result of `os.ReadFile` on that file: the content as a string,
  the error, and whether `os.IsNotExist` holds of the error. -/
structure LastKnownEnv where
  Version : String
  ParseVersion : String → updates.Version × Option GoError
  After : updates.Version → updates.Version → Bool
  TrimSpace : String → String
  Stat : Option time.Time
  ReadFile : String × Option (GoError × Bool)

/-- The four results of `LastKnown`; `mtime` is `none` for the zero `time.Time`. -/
structure LastKnownResult where
  current : updates.Version
  lastknown : updates.Version
  mtime : Option time.Time
  rerr : Option GoError
deriving DecidableEq, Repr

/-- Go `LastKnown`. -/
def LastKnown (env : LastKnownEnv) : LastKnownResult :=
  let cur := env.ParseVersion env.Version
  let curv := cur.1
  let curerr := cur.2
  let mtime := env.Stat
  let vbuf := env.ReadFile.1
  match env.ReadFile.2 with
  | some (err, false) => ⟨curv, updates.Version.zero, mtime, some err⟩
  | readerr =>
    let last := env.ParseVersion (env.TrimSpace vbuf)
    let lastknown := last.1
    let lasterr := last.2
    if curerr = none ∧ lasterr = none then
      if env.After curv lastknown then ⟨curv, curv, mtime, none⟩
      else ⟨curv, lastknown, mtime, none⟩
    else if curerr = none then ⟨curv, curv, mtime, none⟩
    else if lasterr = none then ⟨curv, lastknown, mtime, none⟩
    else if env.Version = "(devel)" then
      ⟨curv, updates.Version.zero, mtime, some ⟨"development version", false, false⟩⟩
    else
      ⟨curv, updates.Version.zero, mtime,
        some (match readerr with
          | some (err, _) => wrapErrorText "parsing version" err
          | none => ⟨"parsing version: %!w(<nil>)", false, false⟩)⟩

end beacon

namespace beacon

/-- A version parser for concrete evaluations: it knows `v0.0.9` and `v0.0.10`. -/
def exampleParseVersion (s : String) : updates.Version × Option GoError :=
  if s = "v0.0.9" then (⟨0, 0, 9⟩, none)
  else if s = "v0.0.10" then (⟨0, 0, 10⟩, none)
  else (updates.Version.zero, some ⟨"bad version", false, false⟩)

/-- The order of versions by major, minor and patch number, for concrete
evaluations. -/
def exampleAfter (v o : updates.Version) : Bool :=
  decide (v.Major > o.Major ∨ (v.Major = o.Major ∧ v.Minor > o.Minor) ∨
    (v.Major = o.Major ∧ v.Minor = o.Minor ∧ v.Patch > o.Patch))

/-- An environment for concrete evaluations: the running version is `v0.0.9`, the
file has the given content and read error. -/
def exampleLastKnownEnv (content : String) (readerr : Option (GoError × Bool)) :
    LastKnownEnv :=
  ⟨"v0.0.9", exampleParseVersion, exampleAfter, id, some 1700000000, (content, readerr)⟩

end beacon

/-! ## `metrics.go` -/

namespace metrics

/-- The error argument of `httpClientObserve`, as far as it is inspected: what
`errors.Is` answers for `os.ErrDeadlineExceeded`, `context.DeadlineExceeded` and
`context.Canceled`. -/
structure ObserveError where
  IsOSDeadlineExceeded : Bool
  IsContextDeadlineExceeded : Bool
  IsCanceled : Bool
deriving DecidableEq, Repr

/-- The label names of `metricHTTPClient`, in the order of their declaration. -/
def metricHTTPClientLabels : List String :=
  ["pkg", "method", "code", "result"]

/-- The name of `metricHTTPClient`. -/
def metricHTTPClientName : String :=
  "beacon_httpclient_request_duration_seconds"

/-- Go `(*prometheus.HistogramVec).WithLabelValues(lvs...)`: the values are given to
the label names by position, in the order of the declaration of the names; `none` is
the panic for a wrong number of values. -/
def WithLabelValues (names values : List String) : Option (List (String × String)) :=
  if names.length = values.length then some (names.zip values) else none

/-- An observation recorded in a histogram: the metric, its labels with their
values, and the observed duration (in nanoseconds, recorded as seconds). -/
structure Observation where
  metric : String
  labels : List (String × String)
  elapsed : time.Duration
deriving DecidableEq, Repr

/-- The `switch` of `httpClientObserve`: the value of `result`.  Go `/` on integers
truncates toward zero. -/
def httpClientResult (statusCode : Int) (err : Option ObserveError) : String :=
  match err with
  | none =>
    if Int.tdiv statusCode 100 = 2 then "ok"
    else if Int.tdiv statusCode 100 = 4 then "usererror"
    else if Int.tdiv statusCode 100 = 5 then "servererror"
    else "other"
  | some e =>
    if e.IsOSDeadlineExceeded ∨ e.IsContextDeadlineExceeded then "timeout"
    else if e.IsCanceled then "canceled"
    else "error"

/-- Go `httpClientObserve`: the observation recorded in `metricHTTPClient`, `none`
if `WithLabelValues` panics.  `elapsed` is `time.Since(start)`.  The log call is left
out. -/
def httpClientObserve (pkg method : String) (statusCode : Int) (err : Option ObserveError)
    (elapsed : time.Duration) : Option Observation :=
  let result := httpClientResult statusCode err
  match WithLabelValues metricHTTPClientLabels [pkg, method, result, toString statusCode] with
  | none => none
  | some labels => some ⟨metricHTTPClientName, labels, elapsed⟩

end metrics

/-! ## Go library: `sort.Slice` and maps -/

namespace sort

/-- The requirement of Go `sort` on a `less` function: it is a strict ordering, it
is transitive, and so is its negation ("Less must describe a transitive ordering"). -/
def TransitiveOrdering {α : Type} (less : α → α → Bool) : Prop :=
  (∀ a, less a a = false) ∧
    (∀ a b c, less a b = true → less b c = true → less a c = true) ∧
    (∀ a b c, less a b = false → less b c = false → less a c = false)

/-- The contract of Go `sort.Slice`: the result is a permutation of the slice, and
it is in ascending order as determined by `less` when `less` is a transitive
ordering.  The sort is not stable: nothing more is known of the order of elements
that `less` does not tell apart. -/
def SliceSpec {α : Type} (Slice : (α → α → Bool) → List α → List α) : Prop :=
  ∀ less l, (Slice less l).Perm l ∧
    (TransitiveOrdering less → List.Pairwise (fun a b => less b a = false) (Slice less l))

/-- A sort that meets the contract of `sort.Slice`, for concrete evaluations:
insertion sort. -/
def exampleSlice {α : Type} (less : α → α → Bool) (l : List α) : List α :=
  List.insertionSort (fun a b => less b a = false) l

end sort

namespace gomap

/-- A Go map, as the list of its entries; the keys are distinct. -/
abbrev Map (K V : Type) := List (K × V)

/-- Go `m[k]`: the value at `k`, the zero value when `k` is not in the map. -/
def get {K V : Type} [DecidableEq K] (zero : V) (m : Map K V) (k : K) : V :=
  match m.find? (fun p => decide (p.1 = k)) with
  | some p => p.2
  | none => zero

/-- Go `_, ok := m[k]`. -/
def has {K V : Type} [DecidableEq K] (m : Map K V) (k : K) : Bool :=
  m.any (fun p => decide (p.1 = k))

/-- Go `m[k] = v`. -/
def set {K V : Type} [DecidableEq K] (m : Map K V) (k : K) (v : V) : Map K V :=
  if has m k then m.map (fun p => if p.1 = k then (k, v) else p) else m ++ [(k, v)]

/-- The contract of `for ... := range m`: the entries are visited once each, in an
order that is not specified. -/
def RangeSpec {K V : Type} (rangeOrder : Map K V → List (K × V)) : Prop :=
  ∀ m, (rangeOrder m).Perm m

end gomap

namespace dns

/-- Go `Domain.Name` (declared outside the embedded files): the Unicode name if
set, else the ASCII name. -/
def Domain.Name (d : Domain) : String :=
  if d.Unicode ≠ "" then d.Unicode else d.ASCII

/-- Go `dns.Domain{}`, the zero value. -/
def Domain.zero : Domain :=
  ⟨"", ""⟩

end dns

/-! ## `webadmin/admin.go`: the webserver configuration -/

namespace webadmin

/-- Go `xcheckuserf`: no error returns normally (`none`), an error panics with a
`sherpa.Error` of code `user:error` (`some`). -/
def xcheckuserf (err : Option GoError) (msg : String) : Option sherpa.Error :=
  match err with
  | none => none
  | some e => some ⟨"user:error", msg ++ ": " ++ e.Text⟩

/-- Go `errors.New(text)`. -/
def errorsNew (text : String) : GoError :=
  ⟨text, false, false⟩

/-- Go `WebserverConfig`, over the type `WH` of `config.WebHandler`.  The two lists
of redirects are slices that can be nil (`none`). -/
structure WebserverConfig (WH : Type) where
  WebDNSDomainRedirects : Option (List (dns.Domain × dns.Domain))
  WebDomainRedirects : Option (List (String × String))
  WebHandlers : List WH

/-- What `beacon.Conf.WebServer()` returns: the map of redirects (its entries in the
order in which `range` visits them) and the web handlers. -/
structure WebServerConf (WH : Type) where
  Redirects : gomap.Map dns.Domain dns.Domain
  Handlers : List WH

/-- Go `webserverConfig`.  `SliceD` and `SliceS` are `sort.Slice` on the two slices. -/
def webserverConfig {WH : Type}
    (SliceD : (dns.Domain × dns.Domain → dns.Domain × dns.Domain → Bool) →
      List (dns.Domain × dns.Domain) → List (dns.Domain × dns.Domain))
    (SliceS : (String × String → String × String → Bool) →
      List (String × String) → List (String × String))
    (conf : WebServerConf WH) : WebserverConfig WH :=
  let x := conf.Redirects.map (fun kv => (kv.1, kv.2))
  let xs := conf.Redirects.map (fun kv => (kv.1.Name, kv.2.Name))
  let x := SliceD (fun a b => decide (a.1.ASCII < b.1.ASCII)) x
  let xs := SliceS (fun a b => decide (a.1 < b.1)) xs
  ⟨some x, some xs, conf.Handlers⟩

/-- The closure `webhandlersEqual` of `WebserverConfigSave`.  `Equal` is
`config.WebHandler.Equal`. -/
def webhandlersEqual {WH : Type} (Equal : WH → WH → Bool) (current old : List WH) : Bool :=
  if current.length ≠ old.length then false
  else (current.zip old).all (fun p => Equal p.1 p.2)

/-- The loop of `WebserverConfigSave` that converts the new redirects to a map and
refuses duplicates. -/
def domainRedirectsLoop :
    List (String × String) → gomap.Map String String →
      Except sherpa.Error (gomap.Map String String)
  | [], m => Except.ok m
  | x :: rest, m =>
    if gomap.has m x.1 then
      match xcheckuserf (some (errorsNew "already present")) ("checking redirect " ++ x.1) with
      | some e => Except.error e
      | none => domainRedirectsLoop rest (gomap.set m x.1 x.2)
    else
      domainRedirectsLoop rest (gomap.set m x.1 x.2)

/-- The result of `Admin.WebserverConfigSave`: the calls of
`beacon.WebserverConfigSet` made, the configuration afterwards, and the returned
value or the `sherpa.Error` of the panic. -/
structure SaveResult (WH : Type) where
  calls : List (gomap.Map String String × List WH)
  conf : WebServerConf WH
  result : Except sherpa.Error (WebserverConfig WH)

/-- Go `Admin.WebserverConfigSave`.  `WebserverConfigSet conf redirects handlers` is
the error of `beacon.WebserverConfigSet` and the configuration after the call; `conf`
is the configuration on entry.  `reflect.DeepEqual` on the redirects is equality of
the slices, where a nil slice is not equal to an empty one. -/
def Admin.WebserverConfigSave {WH : Type}
    (SliceD : (dns.Domain × dns.Domain → dns.Domain × dns.Domain → Bool) →
      List (dns.Domain × dns.Domain) → List (dns.Domain × dns.Domain))
    (SliceS : (String × String → String × String → Bool) →
      List (String × String) → List (String × String))
    (Equal : WH → WH → Bool)
    (WebserverConfigSet : WebServerConf WH → gomap.Map String String → List WH →
      Option GoError × WebServerConf WH)
    (conf : WebServerConf WH) (oldConf newConf : WebserverConfig WH) : SaveResult WH :=
  let current := webserverConfig SliceD SliceS conf
  let changed : Option sherpa.Error :=
    if oldConf.WebDNSDomainRedirects ≠ current.WebDNSDomainRedirects ∨
        webhandlersEqual Equal current.WebHandlers oldConf.WebHandlers = false then
      xcheckuserf (some (errorsNew "config has changed")) "comparing old/current config"
    else none
  match changed with
  | some e => ⟨[], conf, Except.error e⟩
  | none =>
    match domainRedirectsLoop (newConf.WebDomainRedirects.getD []) [] with
    | Except.error e => ⟨[], conf, Except.error e⟩
    | Except.ok domainRedirects =>
      let r := WebserverConfigSet conf domainRedirects newConf.WebHandlers
      match xcheckf r.1 "saving webserver config" with
      | some e => ⟨[(domainRedirects, newConf.WebHandlers)], r.2, Except.error e⟩
      | none =>
        let savedConf := webserverConfig SliceD SliceS r.2
        ⟨[(domainRedirects, newConf.WebHandlers)], r.2,
          Except.ok { savedConf with WebDomainRedirects := none }⟩

end webadmin

/-! ## `webadmin/admin.go`: TLS and DMARC reports and summaries -/

namespace tlsrpt

/-- Go `tlsrpt.FailureDetails`, restricted to the fields that the summaries read. -/
structure FailureDetails where
  ResultType : String
  FailedSessionCount : Int
deriving DecidableEq, Repr

/-- Go `tlsrpt.Summary`. -/
structure Summary where
  TotalSuccessfulSessionCount : Int
  TotalFailureSessionCount : Int
deriving DecidableEq, Repr

/-- Go `tlsrpt.Result`, restricted to the fields that the summaries read. -/
structure Result where
  Summary : Summary
  FailureDetails : List FailureDetails
deriving DecidableEq, Repr

/-- Go `tlsrpt.TLSRPTDateRange`. -/
structure TLSRPTDateRange where
  Start : time.Time
  End : time.Time
deriving DecidableEq, Repr

/-- Go `tlsrpt.Report`, restricted to the fields that `webadmin` reads. -/
structure Report where
  DateRange : TLSRPTDateRange
  Policies : List Result
deriving DecidableEq, Repr

end tlsrpt

namespace tlsrptdb

/-- Go `tlsrptdb.TLSReportRecord`, restricted to the fields that `webadmin` reads. -/
structure TLSReportRecord where
  ID : Int
  Domain : String
  Report : tlsrpt.Report
deriving DecidableEq, Repr

end tlsrptdb

namespace dmarcrpt

/-- Go `dmarcrpt.Disposition`: the three constants that `DMARCSummaries` compares
with, and any other value. -/
inductive Disposition where
  | DispositionNone | DispositionQuarantine | DispositionReject | other
deriving DecidableEq, Repr

/-- Go `dmarcrpt.DMARCResult`: the constant `DMARCFail` that `DMARCSummaries`
compares with, and any other value. -/
inductive DMARCResult where
  | DMARCFail | other
deriving DecidableEq, Repr

/-- Go `dmarcrpt.PolicyOverrideReason`, restricted to its type (a string type). -/
structure PolicyOverrideReason where
  «Type» : String
deriving DecidableEq, Repr

/-- Go `dmarcrpt.PolicyEvaluated`. -/
structure PolicyEvaluated where
  Disposition : Disposition
  DKIM : DMARCResult
  SPF : DMARCResult
  Reasons : List PolicyOverrideReason
deriving DecidableEq, Repr

/-- Go `dmarcrpt.Row`, restricted to the fields that `DMARCSummaries` reads. -/
structure Row where
  Count : Int
  PolicyEvaluated : PolicyEvaluated
deriving DecidableEq, Repr

/-- Go `dmarcrpt.ReportRecord`, restricted to its row. -/
structure ReportRecord where
  Row : Row
deriving DecidableEq, Repr

/-- Go `dmarcrpt.DateRange`: Unix times. -/
structure DateRange where
  Begin : Int
  End : Int
deriving DecidableEq, Repr

/-- Go `dmarcrpt.ReportMetadata`, restricted to its date range. -/
structure ReportMetadata where
  DateRange : DateRange
deriving DecidableEq, Repr

end dmarcrpt

namespace dmarcdb

/-- Go `dmarcdb.DomainFeedback`, restricted to the fields that `webadmin` reads. -/
structure DomainFeedback where
  ID : Int
  Domain : String
  ReportMetadata : dmarcrpt.ReportMetadata
  Records : List dmarcrpt.ReportRecord
deriving DecidableEq, Repr

end dmarcdb

namespace webadmin

/-- Go `%q` of a string without characters that need an escape. -/
def quote (s : String) : String :=
  "\"" ++ s ++ "\""

/-- Go `int64` and `int` addition. -/
def addInt64 (a b : Int) : Int :=
  beacon.wrapInt64 (a + b)

/-- The `less` closure of `Admin.TLSReports`: `iend == jend` is Go `==` on
`time.Time`, `iend.After(jend)` compares the instants. -/
def tlsReportsLess (i j : tlsrptdb.TLSReportRecord) : Bool :=
  let iend := i.Report.DateRange.End
  let jend := j.Report.DateRange.End
  if iend = jend then decide (i.Domain < j.Domain)
  else iend.After jend

/-- Go `Admin.TLSReports`.  `Slice` is `sort.Slice`, `ParseDomain` is
`dns.ParseDomain`, `RecordsPeriodDomain` is `tlsrptdb.RecordsPeriodDomain`. -/
def Admin.TLSReports
    (Slice : (tlsrptdb.TLSReportRecord → tlsrptdb.TLSReportRecord → Bool) →
      List tlsrptdb.TLSReportRecord → List tlsrptdb.TLSReportRecord)
    (ParseDomain : String → dns.Domain × Option GoError)
    (RecordsPeriodDomain : time.Time → time.Time → dns.Domain →
      List tlsrptdb.TLSReportRecord × Option GoError)
    (start «end» : time.Time) (policyDomain : String) :
    Except sherpa.Error (List tlsrptdb.TLSReportRecord) :=
  let parsed : Except sherpa.Error dns.Domain :=
    if policyDomain ≠ "" then
      match xcheckuserf (ParseDomain policyDomain).2 ("parsing domain " ++ quote policyDomain) with
      | some e => Except.error e
      | none => Except.ok (ParseDomain policyDomain).1
    else Except.ok dns.Domain.zero
  match parsed with
  | Except.error e => Except.error e
  | Except.ok polDom =>
    let fetched := RecordsPeriodDomain start «end» polDom
    match xcheckf fetched.2 "fetching tlsrpt report records from database" with
    | some e => Except.error e
    | none => Except.ok (Slice tlsReportsLess fetched.1)

/-- The `less` closure of `Admin.DMARCReports`. -/
def dmarcReportsLess (i j : dmarcdb.DomainFeedback) : Bool :=
  let iend := i.ReportMetadata.DateRange.End
  let jend := j.ReportMetadata.DateRange.End
  if iend = jend then decide (i.Domain < j.Domain)
  else decide (iend > jend)

/-- Go `Admin.DMARCReports`.  `RecordsPeriodDomain` is `dmarcdb.RecordsPeriodDomain`. -/
def Admin.DMARCReports
    (Slice : (dmarcdb.DomainFeedback → dmarcdb.DomainFeedback → Bool) →
      List dmarcdb.DomainFeedback → List dmarcdb.DomainFeedback)
    (RecordsPeriodDomain : time.Time → time.Time → String →
      List dmarcdb.DomainFeedback × Option GoError)
    (start «end» : time.Time) (domain : String) :
    Except sherpa.Error (List dmarcdb.DomainFeedback) :=
  let fetched := RecordsPeriodDomain start «end» domain
  match xcheckf fetched.2 "fetching dmarc aggregate reports from database" with
  | some e => Except.error e
  | none => Except.ok (Slice dmarcReportsLess fetched.1)

/-- Go `TLSRPTSummary`.  `ResultTypeCounts` is a map that can be nil (`none`). -/
structure TLSRPTSummary where
  PolicyDomain : dns.Domain
  Success : Int
  Failure : Int
  ResultTypeCounts : Option (gomap.Map String Int)
deriving DecidableEq, Repr

/-- Go `TLSRPTSummary{}`, the zero value. -/
def TLSRPTSummary.zero : TLSRPTSummary :=
  ⟨dns.Domain.zero, 0, 0, none⟩

/-- The body of the loop over `result.FailureDetails` in `Admin.TLSRPTSummaries`. -/
def tlsrptAddDetails (sum : TLSRPTSummary) (details : tlsrpt.FailureDetails) : TLSRPTSummary :=
  let counts := sum.ResultTypeCounts.getD []
  let n := addInt64 (gomap.get 0 counts details.ResultType) details.FailedSessionCount
  { sum with ResultTypeCounts := some (gomap.set counts details.ResultType n) }

/-- The body of the loop over `r.Report.Policies` in `Admin.TLSRPTSummaries`. -/
def tlsrptAddResult (sum : TLSRPTSummary) (result : tlsrpt.Result) : TLSRPTSummary :=
  let sum := { sum with
    Success := addInt64 sum.Success result.Summary.TotalSuccessfulSessionCount
    Failure := addInt64 sum.Failure result.Summary.TotalFailureSessionCount }
  result.FailureDetails.foldl tlsrptAddDetails sum

/-- The loop over the reports in `Admin.TLSRPTSummaries`: the map `summaries`. -/
def tlsrptSummariesLoop (ParseDomain : String → dns.Domain × Option GoError) :
    List tlsrptdb.TLSReportRecord → gomap.Map dns.Domain TLSRPTSummary →
      Except sherpa.Error (gomap.Map dns.Domain TLSRPTSummary)
  | [], summaries => Except.ok summaries
  | r :: rest, summaries =>
    match xcheckf (ParseDomain r.Domain).2 ("parsing domain " ++ quote r.Domain) with
    | some e => Except.error e
    | none =>
      let dom := (ParseDomain r.Domain).1
      let sum := gomap.get TLSRPTSummary.zero summaries dom
      let sum := { sum with PolicyDomain := dom }
      let sum := r.Report.Policies.foldl tlsrptAddResult sum
      tlsrptSummariesLoop ParseDomain rest (gomap.set summaries dom sum)

/-- Go `Admin.TLSRPTSummaries`.  `rangeOrder` is the order in which `range` visits
the map `summaries`. -/
def Admin.TLSRPTSummaries
    (Slice : (TLSRPTSummary → TLSRPTSummary → Bool) → List TLSRPTSummary → List TLSRPTSummary)
    (rangeOrder : gomap.Map dns.Domain TLSRPTSummary → List (dns.Domain × TLSRPTSummary))
    (ParseDomain : String → dns.Domain × Option GoError)
    (RecordsPeriodDomain : time.Time → time.Time → dns.Domain →
      List tlsrptdb.TLSReportRecord × Option GoError)
    (start «end» : time.Time) (policyDomain : String) :
    Except sherpa.Error (List TLSRPTSummary) :=
  let parsed : Except sherpa.Error dns.Domain :=
    if policyDomain ≠ "" then
      match xcheckuserf (ParseDomain policyDomain).2 "parsing policy domain" with
      | some e => Except.error e
      | none => Except.ok (ParseDomain policyDomain).1
    else Except.ok dns.Domain.zero
  match parsed with
  | Except.error e => Except.error e
  | Except.ok polDom =>
    let fetched := RecordsPeriodDomain start «end» polDom
    match xcheckf fetched.2 "fetching tlsrpt reports from database" with
    | some e => Except.error e
    | none =>
      match tlsrptSummariesLoop ParseDomain fetched.1 [] with
      | Except.error e => Except.error e
      | Except.ok summaries =>
        let sums := (rangeOrder summaries).map (fun kv => kv.2)
        Except.ok (Slice (fun a b => decide (a.PolicyDomain.Name < b.PolicyDomain.Name)) sums)

/-- Go `DMARCSummary`.  `PolicyOverrides` is a map that can be nil (`none`). -/
structure DMARCSummary where
  Domain : String
  Total : Int
  DispositionNone : Int
  DispositionQuarantine : Int
  DispositionReject : Int
  DKIMFail : Int
  SPFFail : Int
  PolicyOverrides : Option (gomap.Map String Int)
deriving DecidableEq, Repr

/-- Go `DMARCSummary{}`, the zero value. -/
def DMARCSummary.zero : DMARCSummary :=
  ⟨"", 0, 0, 0, 0, 0, 0, none⟩

/-- The body of the loop over the reasons in `Admin.DMARCSummaries`. -/
def dmarcAddReason (n : Int) (sum : DMARCSummary) (reason : dmarcrpt.PolicyOverrideReason) :
    DMARCSummary :=
  let overrides := sum.PolicyOverrides.getD []
  let count := addInt64 (gomap.get 0 overrides reason.«Type») n
  { sum with PolicyOverrides := some (gomap.set overrides reason.«Type» count) }

/-- The body of the loop over `r.Records` in `Admin.DMARCSummaries`. -/
def dmarcAddRecord (sum : DMARCSummary) (record : dmarcrpt.ReportRecord) : DMARCSummary :=
  let n := record.Row.Count
  let sum := { sum with Total := addInt64 sum.Total n }
  let sum :=
    match record.Row.PolicyEvaluated.Disposition with
    | dmarcrpt.Disposition.DispositionNone =>
      { sum with DispositionNone := addInt64 sum.DispositionNone n }
    | dmarcrpt.Disposition.DispositionQuarantine =>
      { sum with DispositionQuarantine := addInt64 sum.DispositionQuarantine n }
    | dmarcrpt.Disposition.DispositionReject =>
      { sum with DispositionReject := addInt64 sum.DispositionReject n }
    | dmarcrpt.Disposition.other => sum
  let sum :=
    if record.Row.PolicyEvaluated.DKIM = dmarcrpt.DMARCResult.DMARCFail then
      { sum with DKIMFail := addInt64 sum.DKIMFail n }
    else sum
  let sum :=
    if record.Row.PolicyEvaluated.SPF = dmarcrpt.DMARCResult.DMARCFail then
      { sum with SPFFail := addInt64 sum.SPFFail n }
    else sum
  record.Row.PolicyEvaluated.Reasons.foldl (dmarcAddReason n) sum

/-- The loop over the reports in `Admin.DMARCSummaries`: the map `summaries`. -/
def dmarcSummariesLoop :
    List dmarcdb.DomainFeedback → gomap.Map String DMARCSummary → gomap.Map String DMARCSummary
  | [], summaries => summaries
  | r :: rest, summaries =>
    let sum := gomap.get DMARCSummary.zero summaries r.Domain
    let sum := { sum with Domain := r.Domain }
    let sum := r.Records.foldl dmarcAddRecord sum
    dmarcSummariesLoop rest (gomap.set summaries r.Domain sum)

/-- Go `Admin.DMARCSummaries`.  `rangeOrder` is the order in which `range` visits
the map `summaries`. -/
def Admin.DMARCSummaries
    (Slice : (DMARCSummary → DMARCSummary → Bool) → List DMARCSummary → List DMARCSummary)
    (rangeOrder : gomap.Map String DMARCSummary → List (String × DMARCSummary))
    (RecordsPeriodDomain : time.Time → time.Time → String →
      List dmarcdb.DomainFeedback × Option GoError)
    (start «end» : time.Time) (domain : String) :
    Except sherpa.Error (List DMARCSummary) :=
  let fetched := RecordsPeriodDomain start «end» domain
  match xcheckf fetched.2 "fetching dmarc aggregate reports from database" with
  | some e => Except.error e
  | none =>
    let summaries := dmarcSummariesLoop fetched.1 []
    let sums := (rangeOrder summaries).map (fun kv => kv.2)
    Except.ok (Slice (fun a b => decide (a.Domain < b.Domain)) sums)

end webadmin

namespace webadmin

/-- Three TLS reports for concrete evaluations: two with the same period end. -/
def exampleTLSReports : List tlsrptdb.TLSReportRecord :=
  [⟨1, "b.example", ⟨⟨100, 200⟩, []⟩⟩, ⟨2, "a.example", ⟨⟨100, 200⟩, []⟩⟩,
    ⟨3, "c.example", ⟨⟨200, 300⟩, [⟨⟨5, 1⟩, [⟨"starttls-not-supported", 1⟩]⟩]⟩⟩]

/-- The period end `2024-01-01T23:59:59Z`, in UTC. -/
def exampleEndUTC : time.Time :=
  ⟨1704153599000000000, none, none⟩

/-- The period end `2024-01-02T00:59:59+01:00`: the instant of `exampleEndUTC`, in a
location of one hour east of UTC, at address 1. -/
def exampleEndEast : time.Time :=
  ⟨1704153599000000000, none, some 1⟩

/-- Two TLS reports whose periods end at the same instant, written in two
locations. -/
def exampleSameInstantReports : List tlsrptdb.TLSReportRecord :=
  [⟨1, "b.example", ⟨⟨1704067200000000000, exampleEndUTC⟩, []⟩⟩,
    ⟨2, "a.example", ⟨⟨1704067200000000000, exampleEndEast⟩, []⟩⟩]

/-- Three TLS reports whose periods end at the same instant; the ends of the first
and the third are the same value, that of the second is in another location. -/
def exampleSameEndReports : List tlsrptdb.TLSReportRecord :=
  [⟨1, "b.example", ⟨⟨1704067200000000000, exampleEndUTC⟩, []⟩⟩,
    ⟨2, "c.example", ⟨⟨1704067200000000000, exampleEndEast⟩, []⟩⟩,
    ⟨3, "a.example", ⟨⟨1704067200000000000, exampleEndUTC⟩, []⟩⟩]

/-- Three DMARC reports for concrete evaluations: two with the same period end. -/
def exampleDMARCReports : List dmarcdb.DomainFeedback :=
  [⟨1, "b.example", ⟨⟨100, 200⟩⟩, []⟩, ⟨2, "a.example", ⟨⟨100, 200⟩⟩, []⟩,
    ⟨3, "b.example", ⟨⟨200, 300⟩⟩,
      [⟨⟨4, ⟨dmarcrpt.Disposition.DispositionReject, dmarcrpt.DMARCResult.DMARCFail,
        dmarcrpt.DMARCResult.other, [⟨"forwarded"⟩]⟩⟩⟩]⟩]

/-- A domain parser for concrete evaluations: every name is taken as an ASCII
domain. -/
def exampleParseDomain (s : String) : dns.Domain × Option GoError :=
  (⟨s, ""⟩, none)

end webadmin

/-! ## Package `tlsrpt`: TLSRPT records

The parser `tlsrpt.ParseRecord` and the printer `Record.String` are not among the
embedded files; only their tests (`tlsrpt/parse_test.go`) and a caller
(`webadmin/admin.go`) are.  They are modelled here from the specification: the text
format `v=TLSRPTv1; rua=…`, the round-trip law `parse(print(x)) = x`, and the cases
of the tests. -/

namespace tlsrpt

/-- Modelled from the spec: `tlsrpt.Extension`, a name and a value (the parser and
its types are missing from the embedded files). -/
structure Extension where
  Key : String
  Value : String
deriving DecidableEq, Repr

/-- Modelled from the spec: `tlsrpt.Record`, the version, the lists of report URIs
(one list for each `rua` field) and the extensions (the parser and its types are
missing from the embedded files). -/
structure Record where
  Version : String
  RUAs : List (List String)
  Extensions : List Extension
deriving DecidableEq, Repr

/-- Modelled from the spec: white space in a record text, space and tab (part of the
model of `ParseRecord`). -/
def isWSP (c : Char) : Bool :=
  c = ' ' || c = '\t'

/-- Modelled from the spec: ASCII letters and digits (part of the model of
`ParseRecord`). -/
def isAlnum (c : Char) : Bool :=
  ('a' ≤ c && c ≤ 'z') || ('A' ≤ c && c ≤ 'Z') || ('0' ≤ c && c ≤ '9')

/-- Modelled from the spec: the characters of an extension name after the first one
(part of the model of `ParseRecord`). -/
def isKeyChar (c : Char) : Bool :=
  isAlnum c || c = '_' || c = '-' || c = '.'

/-- Modelled from the spec: the characters of an extension value, printable ASCII but
`=` and `;` (part of the model of `ParseRecord`). -/
def isValueChar (c : Char) : Bool :=
  '!' ≤ c && c ≤ '~' && c ≠ '=' && c ≠ ';'

/-- Modelled from the spec: the characters of a URI in a `rua` field, all but the
separators and white space (part of the model of `ParseRecord`). -/
def isURIChar (c : Char) : Bool :=
  !(c = ',' || c = ';' || isWSP c)

/-- Skip white space. -/
def wsp (l : List Char) : List Char :=
  l.dropWhile isWSP

/-- Modelled from the spec: a field separator, a semicolon with optional white space
around it; `none` when there is none. -/
def delim (l : List Char) : Option (List Char) :=
  match wsp l with
  | ';' :: r => some (wsp r)
  | _ => none

/-- Take a literal text from the start of the input. -/
def takePrefix : List Char → List Char → Option (List Char)
  | [], l => some l
  | p :: ps, c :: cs => if p = c then takePrefix ps cs else none
  | _ :: _, [] => none

/-- Modelled from the spec: take a field name, a letter or digit followed by
letters, digits, `_`, `-` and `.`, at most 32 characters in all. -/
def takeKey (l : List Char) : Option (List Char × List Char) :=
  match l with
  | c :: r =>
    if isAlnum c then
      let body := (r.takeWhile isKeyChar).take 31
      some (c :: body, r.drop body.length)
    else none
  | [] => none

/-- Modelled from the spec: take an extension value, one or more value
characters. -/
def takeValue (l : List Char) : Option (List Char × List Char) :=
  let v := l.takeWhile isValueChar
  if v = [] then none else some (v, l.dropWhile isValueChar)

/-- Modelled from the spec: take a URI, one or more URI characters that `uriOK`
accepts.  `uriOK` stands for "the URI parses and has a scheme". -/
def takeURI (uriOK : String → Bool) (l : List Char) : Option (List Char × List Char) :=
  let v := l.takeWhile isURIChar
  if v = [] then none
  else if uriOK (String.mk v) then some (v, l.dropWhile isURIChar)
  else none

/-- Modelled from the spec: the further URIs of a `rua` field, each after a comma
with optional white space around it.  The first argument bounds the number of
URIs. -/
def takeRUAsLoop (uriOK : String → Bool) :
    Nat → List Char → List String → Option (List String × List Char)
  | 0, _, _ => none
  | n + 1, l, acc =>
    match l with
    | ',' :: r =>
      match takeURI uriOK (wsp r) with
      | none => none
      | some (u, l1) => takeRUAsLoop uriOK n (wsp l1) (acc ++ [String.mk u])
    | _ => some (acc, l)

/-- Modelled from the spec: the value of a `rua` field, URIs separated by commas. -/
def takeRUAs (uriOK : String → Bool) (l : List Char) : Option (List String × List Char) :=
  match takeURI uriOK l with
  | none => none
  | some (u, l1) => takeRUAsLoop uriOK (l1.length + 1) (wsp l1) [String.mk u]

/-- Modelled from the spec: the end of parsing in `ParseRecord`: nothing may be left,
and there must be a `rua` field. -/
def finish (rec : Record) (l : List Char) : Except String Record :=
  if l ≠ [] then Except.error "leftover chars"
  else if rec.RUAs = [] then Except.error "missing rua"
  else Except.ok rec

/-- Modelled from the spec: the fields of a record, `name=value` separated by
semicolons: a `rua` field adds a list of URIs, any other field adds an extension.
One semicolon may follow the last field.  The first argument bounds the number of
fields. -/
def parseFields (uriOK : String → Bool) : Nat → List Char → Record → Except String Record
  | 0, _, _ => Except.error "too many fields"
  | n + 1, l, rec =>
    match takeKey l with
    | none => Except.error "expected field name"
    | some (k, l1) =>
      match l1 with
      | '=' :: l2 =>
        let field : Option (Record × List Char) :=
          if k = "rua".data then
            (takeRUAs uriOK l2).map
              (fun x => ({ rec with RUAs := rec.RUAs ++ [x.1] }, x.2))
          else
            (takeValue l2).map
              (fun x => ({ rec with
                Extensions := rec.Extensions ++ [⟨String.mk k, String.mk x.1⟩] }, x.2))
        match field with
        | none => Except.error "bad value"
        | some (rec1, l3) =>
          match delim l3 with
          | some l4 => if l4 = [] then finish rec1 l4 else parseFields uriOK n l4 rec1
          | none => finish rec1 l3
      | _ => Except.error "expected ="

/-- Modelled from the spec: `tlsrpt.ParseRecord` (missing from the embedded files),
for the text format `v=TLSRPTv1; rua=…`: the version, a separator, and the fields.
The result is the record or an error. -/
def ParseRecord (uriOK : String → Bool) (txt : String) : Except String Record :=
  match takePrefix "v=TLSRPTv1".data txt.data with
  | none => Except.error "expected v=TLSRPTv1"
  | some l =>
    match delim l with
    | none => Except.error "expected semicolon"
    | some l1 => parseFields uriOK (l1.length + 1) l1 ⟨"TLSRPTv1", [], []⟩

/-- Modelled from the spec: the URIs of one `rua` field as `Record.String` prints
them, separated by commas. -/
def printURIs : List String → List Char
  | [] => []
  | [u] => u.data
  | u :: rest => u.data ++ ',' :: printURIs rest

/-- Modelled from the spec: the `rua` fields of a record as `Record.String` prints
them. -/
def printRUAs : List (List String) → List Char
  | [] => []
  | ruas :: rest => "; rua=".data ++ printURIs ruas ++ printRUAs rest

/-- Modelled from the spec: the extensions of a record as `Record.String` prints
them. -/
def printExtensions : List Extension → List Char
  | [] => []
  | e :: rest => "; ".data ++ e.Key.data ++ '=' :: e.Value.data ++ printExtensions rest

/-- Modelled from the spec: `Record.String` (missing from the embedded files): the
version, then each list of URIs as a `rua` field, then each extension as
`name=value`, separated by `; `. -/
def Record.String (r : Record) : String :=
  String.mk ("v=".data ++ r.Version.data ++ printRUAs r.RUAs ++ printExtensions r.Extensions)

/-- A check of URIs for concrete evaluations: a scheme of letters and digits before
a colon, and every `%` followed by two letters or digits. -/
def exampleURIOK (s : String) : Bool :=
  let scheme := s.data.takeWhile (fun c => c ≠ ':')
  let rest := s.data.dropWhile (fun c => c ≠ ':')
  let rec pct : List Char → Bool
    | [] => true
    | '%' :: a :: b :: r => isAlnum a && isAlnum b && pct r
    | '%' :: _ => false
    | _ :: r => pct r
  scheme ≠ [] && rest ≠ [] && scheme.all isAlnum && pct rest

/-- Whether a result of `ParseRecord` is a record. -/
def isOk (r : Except String Record) : Bool :=
  match r with
  | Except.ok _ => true
  | Except.error _ => false

/-! ### The texts that `ParseRecord` accepts -/

/-- A field as written. -/
inductive FieldSyn where
  /-- A `rua` field: the first URI, the white space after it, and the further URIs,
  each with the white space after its comma and the white space after the URI. -/
  | rua (first after : List Char) (more : List (List Char × List Char × List Char))
  /-- An extension: its name and its value. -/
  | ext (key value : List Char)
deriving DecidableEq, Repr

/-- A record as written: the white space around the separator after the version, the
first field, the further fields each with the white space around the semicolon
before it, and a last semicolon with the white space around it, if there is one. -/
structure Syn where
  w0 : List Char
  w1 : List Char
  first : FieldSyn
  rest : List (List Char × List Char × FieldSyn)
  trailer : Option (List Char × List Char)
deriving DecidableEq, Repr

/-- The further URIs of a `rua` field as written. -/
def renderMore : List (List Char × List Char × List Char) → List Char
  | [] => []
  | (a, u, b) :: more => ',' :: (a ++ u ++ b ++ renderMore more)

/-- A field as written. -/
def renderField : FieldSyn → List Char
  | FieldSyn.rua first after more => "rua=".data ++ (first ++ after ++ renderMore more)
  | FieldSyn.ext key value => key ++ '=' :: value

/-- The fields after the first one, and the last semicolon, as written. -/
def renderTail : List (List Char × List Char × FieldSyn) → Option (List Char × List Char) →
    List Char
  | [], none => []
  | [], some (a, b) => a ++ ';' :: b
  | (a, b, f) :: rest, trailer => a ++ ';' :: (b ++ renderField f ++ renderTail rest trailer)

/-- A record as written. -/
def Syn.render (s : Syn) : List Char :=
  "v=TLSRPTv1".data ++ (s.w0 ++ ';' :: (s.w1 ++ renderField s.first ++ renderTail s.rest s.trailer))

/-- White space only. -/
def allWSP (l : List Char) : Prop :=
  ∀ c ∈ l, isWSP c = true

/-- A URI as the parser takes it: not empty, of URI characters, accepted by
`uriOK`. -/
def validURI (uriOK : String → Bool) (u : List Char) : Prop :=
  u ≠ [] ∧ (∀ c ∈ u, isURIChar c = true) ∧ uriOK (String.mk u) = true

/-- An extension name: a letter or digit, then letters, digits, `_`, `-` and `.`, at
most 32 characters in all, and not `rua`. -/
def validKey (k : List Char) : Prop :=
  (∃ c body, k = c :: body ∧ isAlnum c = true ∧ (∀ x ∈ body, isKeyChar x = true)) ∧
    k.length ≤ 32 ∧ k ≠ "rua".data

/-- An extension value: not empty, of value characters. -/
def validValue (v : List Char) : Prop :=
  v ≠ [] ∧ ∀ c ∈ v, isValueChar c = true

/-- A well-formed field. -/
def FieldSyn.WF (uriOK : String → Bool) : FieldSyn → Prop
  | FieldSyn.rua first after more =>
    validURI uriOK first ∧ allWSP after ∧
      ∀ x ∈ more, allWSP x.1 ∧ validURI uriOK x.2.1 ∧ allWSP x.2.2
  | FieldSyn.ext key value => validKey key ∧ validValue value

/-- Whether a field is a `rua` field. -/
def FieldSyn.isRUA : FieldSyn → Bool
  | FieldSyn.rua _ _ _ => true
  | FieldSyn.ext _ _ => false

/-- A well-formed record text: white space is white space, the fields are
well-formed, and there is a `rua` field. -/
def Syn.WF (uriOK : String → Bool) (s : Syn) : Prop :=
  allWSP s.w0 ∧ allWSP s.w1 ∧ s.first.WF uriOK ∧
    (∀ x ∈ s.rest, allWSP x.1 ∧ allWSP x.2.1 ∧ x.2.2.WF uriOK) ∧
    (∀ x ∈ s.trailer, allWSP x.1 ∧ allWSP x.2) ∧
    (s.first.isRUA = true ∨ ∃ x ∈ s.rest, x.2.2.isRUA = true)

/-- The record with one more field. -/
def addField (rec : Record) : FieldSyn → Record
  | FieldSyn.rua first _ more =>
    { rec with RUAs := rec.RUAs ++ [String.mk first :: more.map (fun x => String.mk x.2.1)] }
  | FieldSyn.ext key value =>
    { rec with Extensions := rec.Extensions ++ [⟨String.mk key, String.mk value⟩] }

/-- The record that a record text stands for. -/
def Syn.record (s : Syn) : Record :=
  (s.rest.map (fun x => x.2.2)).foldl addField (addField ⟨"TLSRPTv1", [], []⟩ s.first)

/-- The field that `Record.String` prints for a list of URIs. -/
def canonRUA (ruas : List String) : FieldSyn :=
  FieldSyn.rua (ruas.headD "").data [] (ruas.tail.map (fun u => ([], u.data, [])))

/-- The field that `Record.String` prints for an extension. -/
def canonExt (e : Extension) : FieldSyn :=
  FieldSyn.ext e.Key.data e.Value.data

/-- The fields that `Record.String` prints: the `rua` fields, then the extensions. -/
def canonFields (r : Record) : List FieldSyn :=
  r.RUAs.map canonRUA ++ r.Extensions.map canonExt

/-- The fields after the first one as `Record.String` prints them: one space after
each semicolon and no other white space. -/
def canonRest (fields : List FieldSyn) : List (List Char × List Char × FieldSyn) :=
  fields.map (fun g => ([], [' '], g))

/-- The records that `ParseRecord` returns: the version is `TLSRPTv1`, there is a
list of URIs, every list of URIs has a URI, every URI is valid, and every extension
has a valid name and a valid value. -/
def recordWF (uriOK : String → Bool) (r : Record) : Prop :=
  r.Version = "TLSRPTv1" ∧ r.RUAs ≠ [] ∧
    (∀ ruas ∈ r.RUAs, ruas ≠ [] ∧ ∀ u ∈ ruas, validURI uriOK u.data) ∧
    (∀ e ∈ r.Extensions, validKey e.Key.data ∧ validValue e.Value.data)

/-- The texts that `TestRecord` (`tlsrpt/parse_test.go`) expects to be refused. -/
def testBad : List String :=
  ["v=TLSRPTv0", "v=TLSRPTv10", "v=TLSRPTv2", "v=TLSRPTv1", "v=TLSRPTv1;",
    "v=TLSRPTv1; ext=1", "v=TLSRPTv1; rua=", "v=TLSRPTv1; rua=noscheme",
    "v=TLSRPTv1; rua=,, ,", "v=TLSRPTv1; rua=mailto:x@x.example; more=",
    "v=TLSRPTv1; rua=mailto:x@x.example; a12345678901234567890123456789012=1",
    "v=TLSRPTv1; rua=mailto:x@x.example; 1%=a", "v=TLSRPTv1; rua=mailto:x@x.example; test==",
    "v=TLSRPTv1; rua=mailto:x@x.example;;", "v=TLSRPTv1; rua=mailto:x@x.example other",
    "v=TLSRPTv1; rua=http://bad/%"]

/-- The texts that `TestRecord` (`tlsrpt/parse_test.go`) expects to be accepted, with
the records it expects. -/
def testGood : List (String × Record) :=
  [("v=TLSRPTv1; rua=mailto:tlsrpt@beacon.example;",
      ⟨"TLSRPTv1", [["mailto:tlsrpt@beacon.example"]], []⟩),
    ("v=TLSRPTv1; rua=mailto:tlsrpt@beacon.example , \t\t https://beacon.example/tlsrpt  ",
      ⟨"TLSRPTv1", [["mailto:tlsrpt@beacon.example", "https://beacon.example/tlsrpt"]], []⟩),
    ("v=TLSRPTv1; rua=mailto:tlsrpt@beacon.example; ext=yes",
      ⟨"TLSRPTv1", [["mailto:tlsrpt@beacon.example"]], [⟨"ext", "yes"⟩]⟩),
    ("v=TLSRPTv1 ; rua=mailto:x@x.example; rua=mailto:y@x.example",
      ⟨"TLSRPTv1", [["mailto:x@x.example"], ["mailto:y@x.example"]], []⟩)]

/-- The record of a result of `ParseRecord`, `none` for an error. -/
def okRecord (r : Except String Record) : Option Record :=
  match r with
  | Except.ok rec => some rec
  | Except.error _ => none

end tlsrpt

/-! ## Lemmas about the DKIM loop -/

namespace smtpserver

open store

theorem dkimStrict_nil (d : dns.Domain) : ¬ dkimStrict d [] := by
  simp [dkimStrict]

theorem dkimOrg_nil (Lookup : dns.Domain → dns.Domain) (d : dns.Domain) :
    ¬ dkimOrg Lookup d [] := by
  simp [dkimOrg]

theorem dkimStrict_cons (d : dns.Domain) (r : dkim.Result) (rs : List dkim.Result) :
    dkimStrict d (r :: rs) ↔
      (r.Status = dkim.StatusPass ∧ ∃ sig, r.Sig = some sig ∧ sig.Domain = d) ∨ dkimStrict d rs := by
  simp [dkimStrict]

theorem dkimOrg_cons (Lookup : dns.Domain → dns.Domain) (d : dns.Domain) (r : dkim.Result)
    (rs : List dkim.Result) :
    dkimOrg Lookup d (r :: rs) ↔
      (r.Status = dkim.StatusPass ∧ ∃ sig, r.Sig = some sig ∧ Lookup sig.Domain = Lookup d) ∨
        dkimOrg Lookup d rs := by
  simp [dkimOrg]

/-- A strict DKIM match is also a match of organizational domains. -/
theorem dkimOrg_of_dkimStrict (Lookup : dns.Domain → dns.Domain) (d : dns.Domain)
    (rs : List dkim.Result) (h : dkimStrict d rs) : dkimOrg Lookup d rs := by
  obtain ⟨r, hr, hp, sig, hs, hd⟩ := h
  exact ⟨r, hr, hp, sig, hs, by rw [hd]⟩

/-- The loop sets `strict` exactly when some result is a strict DKIM match. -/
theorem alignmentLoop_strict (Lookup : dns.Domain → dns.Domain) (d : dns.Domain)
    (rs : List dkim.Result) (relaxed : Bool) :
    (alignmentLoop Lookup d (Lookup d) rs relaxed).1 = true ↔ dkimStrict d rs := by
  induction rs generalizing relaxed with
  | nil => simp [alignmentLoop, dkimStrict_nil]
  | cons r rest ih =>
    rw [dkimStrict_cons]
    unfold alignmentLoop
    by_cases hp : r.Status = dkim.StatusPass
    · cases hs : r.Sig with
      | none => simp [hp, hs, ih]
      | some sig =>
        by_cases hd : sig.Domain = d
        · simp [hp, hs, hd]
        · simp [hp, hs, hd, ih]
    · simp [hp, ih]

/-- When the loop ends without a strict match, `relaxed` is its entry value or-ed
with the existence of a DKIM match of organizational domains. -/
theorem alignmentLoop_relaxed (Lookup : dns.Domain → dns.Domain) (d : dns.Domain)
    (rs : List dkim.Result) (relaxed : Bool) (hns : ¬ dkimStrict d rs) :
    (alignmentLoop Lookup d (Lookup d) rs relaxed).2 = true ↔
      (relaxed = true ∨ dkimOrg Lookup d rs) := by
  induction rs generalizing relaxed with
  | nil => simp [alignmentLoop, dkimOrg_nil]
  | cons r rest ih =>
    rw [dkimStrict_cons, not_or] at hns
    rw [dkimOrg_cons]
    unfold alignmentLoop
    by_cases hp : r.Status = dkim.StatusPass
    · cases hs : r.Sig with
      | none => simp [hp, hs, ih _ hns.2]
      | some sig =>
        have hd : sig.Domain ≠ d := fun h => hns.1 ⟨hp, sig, hs, h⟩
        have hc : (Lookup d = Lookup sig.Domain) ↔ (Lookup sig.Domain = Lookup d) := eq_comm
        simp [hp, hs, hd, ih _ hns.2, hc, or_assoc]
    · simp [hp, ih _ hns.2]

theorem alignmentLoop_not_strict (Lookup : dns.Domain → dns.Domain) (d : dns.Domain)
    (rs : List dkim.Result) (relaxed : Bool) (hns : ¬ dkimStrict d rs) :
    (alignmentLoop Lookup d (Lookup d) rs relaxed).1 = false := by
  rw [← Bool.not_eq_true, alignmentLoop_strict]
  exact hns

/-- A strict DKIM match makes the result Strict, whatever the SPF arguments. -/
theorem alignment_of_dkimStrict (Lookup : dns.Domain → dns.Domain) (d : dns.Domain)
    (rs : List dkim.Result) (st : spf.Status) (ident : Option dns.Domain)
    (h : dkimStrict d rs) : alignment Lookup d rs st ident = some Validation.Strict := by
  have h1 : (alignmentLoop Lookup d (Lookup d) rs false).1 = true :=
    (alignmentLoop_strict Lookup d rs false).2 h
  simp [alignment, h1, alignmentResult]

/-- Without a strict DKIM match and without an SPF pass the result is Relaxed or
None, by the DKIM match of organizational domains. -/
theorem alignment_of_not_pass (Lookup : dns.Domain → dns.Domain) (d : dns.Domain)
    (rs : List dkim.Result) (st : spf.Status) (ident : Option dns.Domain)
    (hns : ¬ dkimStrict d rs) (hst : st ≠ spf.StatusPass) :
    alignment Lookup d rs st ident =
      some (alignmentResult false (alignmentLoop Lookup d (Lookup d) rs false).2) := by
  have h1 := alignmentLoop_not_strict Lookup d rs false hns
  simp [alignment, h1, hst]

/-- Without a strict DKIM match and with an SPF pass on a non-nil identity. -/
theorem alignment_of_pass (Lookup : dns.Domain → dns.Domain) (d : dns.Domain)
    (rs : List dkim.Result) (i : dns.Domain) (hns : ¬ dkimStrict d rs) :
    alignment Lookup d rs spf.StatusPass (some i) =
      some (alignmentResult (decide (d = i))
        ((alignmentLoop Lookup d (Lookup d) rs false).2 || decide (Lookup d = Lookup i))) := by
  have h1 := alignmentLoop_not_strict Lookup d rs false hns
  simp [alignment, h1]

/-- Without a strict DKIM match, an SPF pass with a nil identity panics. -/
theorem alignment_of_pass_nil (Lookup : dns.Domain → dns.Domain) (d : dns.Domain)
    (rs : List dkim.Result) (hns : ¬ dkimStrict d rs) :
    alignment Lookup d rs spf.StatusPass none = none := by
  have h1 := alignmentLoop_not_strict Lookup d rs false hns
  simp [alignment, h1]

theorem alignmentResult_strict (s r : Bool) :
    alignmentResult s r = Validation.Strict ↔ s = true := by
  cases s <;> cases r <;> simp [alignmentResult]

theorem alignmentResult_relaxed (s r : Bool) :
    alignmentResult s r = Validation.Relaxed ↔ s = false ∧ r = true := by
  cases s <;> cases r <;> simp [alignmentResult]

theorem alignmentResult_none (s r : Bool) :
    alignmentResult s r = Validation.None ↔ s = false ∧ r = false := by
  cases s <;> cases r <;> simp [alignmentResult]

theorem alignmentResult_mem (s r : Bool) :
    alignmentResult s r = Validation.Strict ∨ alignmentResult s r = Validation.Relaxed ∨
      alignmentResult s r = Validation.None := by
  cases s <;> cases r <;> simp [alignmentResult]

/-- Characterisation of the result Strict, for all arguments. -/
theorem alignment_strict_iff (Lookup : dns.Domain → dns.Domain) (d : dns.Domain)
    (rs : List dkim.Result) (st : spf.Status) (ident : Option dns.Domain) :
    alignment Lookup d rs st ident = some Validation.Strict ↔
      (dkimStrict d rs ∨ (st = spf.StatusPass ∧ ident = some d)) := by
  by_cases hs : dkimStrict d rs
  · simp [alignment_of_dkimStrict Lookup d rs st ident hs, hs]
  · by_cases hst : st = spf.StatusPass
    · subst hst
      cases ident with
      | none => simp [alignment_of_pass_nil Lookup d rs hs, hs]
      | some i =>
        have hc : (d = i) ↔ (i = d) := eq_comm
        simp [alignment_of_pass Lookup d rs i hs, hs, alignmentResult_strict, hc]
    · simp [alignment_of_not_pass Lookup d rs st ident hs hst, hs, hst, alignmentResult_strict]

/-- Characterisation of the result Relaxed, when the SPF identity is usable. -/
theorem alignment_relaxed_iff (Lookup : dns.Domain → dns.Domain) (d : dns.Domain)
    (rs : List dkim.Result) (st : spf.Status) (ident : Option dns.Domain)
    (hpre : spfIdentityOK st ident) :
    alignment Lookup d rs st ident = some Validation.Relaxed ↔
      (alignment Lookup d rs st ident ≠ some Validation.Strict ∧
        (dkimOrg Lookup d rs ∨ spfOrg Lookup d st ident)) := by
  by_cases hs : dkimStrict d rs
  · simp [alignment_of_dkimStrict Lookup d rs st ident hs]
  · by_cases hst : st = spf.StatusPass
    · subst hst
      cases ident with
      | none => exact absurd rfl (hpre rfl)
      | some i =>
        have hc : (Lookup d = Lookup i) ↔ (Lookup i = Lookup d) := eq_comm
        rw [alignment_of_pass Lookup d rs i hs]
        simp only [Option.some.injEq, ne_eq, alignmentResult_relaxed, alignmentResult_strict,
          Bool.or_eq_true, alignmentLoop_relaxed Lookup d rs false hs, spfOrg]
        simp [hc]
    · rw [alignment_of_not_pass Lookup d rs st ident hs hst]
      simp [alignmentResult_relaxed, alignmentResult_strict,
        alignmentLoop_relaxed Lookup d rs false hs, spfOrg, hst]

/-- Characterisation of the result None, when the SPF identity is usable. -/
theorem alignment_none_iff (Lookup : dns.Domain → dns.Domain) (d : dns.Domain)
    (rs : List dkim.Result) (st : spf.Status) (ident : Option dns.Domain)
    (hpre : spfIdentityOK st ident) :
    alignment Lookup d rs st ident = some Validation.None ↔
      (¬ dkimOrg Lookup d rs ∧ ¬ spfOrg Lookup d st ident) := by
  by_cases hs : dkimStrict d rs
  · have ho := dkimOrg_of_dkimStrict Lookup d rs hs
    simp [alignment_of_dkimStrict Lookup d rs st ident hs, ho]
  · by_cases hst : st = spf.StatusPass
    · subst hst
      cases ident with
      | none => exact absurd rfl (hpre rfl)
      | some i =>
        have hc : (Lookup d = Lookup i) ↔ (Lookup i = Lookup d) := eq_comm
        rw [alignment_of_pass Lookup d rs i hs]
        simp only [Option.some.injEq, alignmentResult_none, Bool.or_eq_false_iff,
          ← Bool.not_eq_true, alignmentLoop_relaxed Lookup d rs false hs, spfOrg]
        simp only [Bool.or_eq_true, alignmentLoop_relaxed Lookup d rs false hs,
          decide_eq_true_eq, Bool.false_eq_true, false_or, not_or]
        have hx : (True ∧ ∃ ident, i = ident ∧ Lookup ident = Lookup d) ↔
            Lookup d = Lookup i := by
          simp [hc]
        rw [hx]
        constructor
        · rintro ⟨_, hno, hli⟩
          exact ⟨hno, hli⟩
        · rintro ⟨hno, hli⟩
          exact ⟨fun hdi => hli (by rw [hdi]), hno, hli⟩
    · rw [alignment_of_not_pass Lookup d rs st ident hs hst]
      simp [alignmentResult_none, ← Bool.not_eq_true,
        alignmentLoop_relaxed Lookup d rs false hs, spfOrg, hst]

/-- The result is a value, one of Strict, Relaxed and None, when the SPF identity is
usable. -/
theorem alignment_total (Lookup : dns.Domain → dns.Domain) (d : dns.Domain)
    (rs : List dkim.Result) (st : spf.Status) (ident : Option dns.Domain)
    (hpre : spfIdentityOK st ident) :
    ∃ v, alignment Lookup d rs st ident = some v ∧
      (v = Validation.Strict ∨ v = Validation.Relaxed ∨ v = Validation.None) := by
  by_cases hs : dkimStrict d rs
  · exact ⟨_, alignment_of_dkimStrict Lookup d rs st ident hs, Or.inl rfl⟩
  · by_cases hst : st = spf.StatusPass
    · subst hst
      cases ident with
      | none => exact absurd rfl (hpre rfl)
      | some i => exact ⟨_, alignment_of_pass Lookup d rs i hs, alignmentResult_mem _ _⟩
    · exact ⟨_, alignment_of_not_pass Lookup d rs st ident hs hst, alignmentResult_mem _ _⟩

theorem dkimStrict_perm (d : dns.Domain) (l1 l2 : List dkim.Result) (h : l1.Perm l2) :
    dkimStrict d l1 ↔ dkimStrict d l2 := by
  simp only [dkimStrict, h.mem_iff]

theorem dkimOrg_perm (Lookup : dns.Domain → dns.Domain) (d : dns.Domain)
    (l1 l2 : List dkim.Result) (h : l1.Perm l2) :
    dkimOrg Lookup d l1 ↔ dkimOrg Lookup d l2 := by
  simp only [dkimOrg, h.mem_iff]

/-- The result of `alignment` is the same for a permutation of the DKIM results. -/
theorem alignment_perm (Lookup : dns.Domain → dns.Domain) (d : dns.Domain)
    (l1 l2 : List dkim.Result) (st : spf.Status) (ident : Option dns.Domain)
    (h : l1.Perm l2) :
    alignment Lookup d l1 st ident = alignment Lookup d l2 st ident := by
  by_cases hs : dkimStrict d l1
  · rw [alignment_of_dkimStrict Lookup d l1 st ident hs,
      alignment_of_dkimStrict Lookup d l2 st ident ((dkimStrict_perm d l1 l2 h).1 hs)]
  · have hs2 : ¬ dkimStrict d l2 := fun h2 => hs ((dkimStrict_perm d l1 l2 h).2 h2)
    have hr : (alignmentLoop Lookup d (Lookup d) l1 false).2 =
        (alignmentLoop Lookup d (Lookup d) l2 false).2 := by
      rw [Bool.eq_iff_iff, alignmentLoop_relaxed Lookup d l1 false hs,
        alignmentLoop_relaxed Lookup d l2 false hs2, dkimOrg_perm Lookup d l1 l2 h]
    by_cases hst : st = spf.StatusPass
    · subst hst
      cases ident with
      | none =>
        rw [alignment_of_pass_nil Lookup d l1 hs, alignment_of_pass_nil Lookup d l2 hs2]
      | some i =>
        rw [alignment_of_pass Lookup d l1 i hs, alignment_of_pass Lookup d l2 i hs2, hr]
    · rw [alignment_of_not_pass Lookup d l1 st ident hs hst,
        alignment_of_not_pass Lookup d l2 st ident hs2 hst, hr]

/-! ## Claims about `alignment` -/

/-- C1: `alignment` returns Strict if and only if some element of `dkimResults` has
status pass, a non-nil signature and a signature domain equal to `msgFromDomain`, or
`spfStatus` is pass and the SPF identity (non-nil) equals `msgFromDomain`.  This holds
for all arguments, a nil SPF identity included. -/
theorem C1_alignment_strict (Lookup : dns.Domain → dns.Domain) (msgFromDomain : dns.Domain)
    (dkimResults : List dkim.Result) (spfStatus : spf.Status)
    (spfIdentity : Option dns.Domain) :
    alignment Lookup msgFromDomain dkimResults spfStatus spfIdentity = some Validation.Strict ↔
      ((∃ dr ∈ dkimResults, dr.Status = dkim.StatusPass ∧
          ∃ sig, dr.Sig = some sig ∧ sig.Domain = msgFromDomain) ∨
        (spfStatus = spf.StatusPass ∧ spfIdentity = some msgFromDomain)) :=
  alignment_strict_iff Lookup msgFromDomain dkimResults spfStatus spfIdentity

/-- C2: when the SPF identity is non-nil in case `spfStatus` is pass, `alignment`
returns Relaxed if and only if it does not return Strict and some DKIM result with
status pass and non-nil signature has `Lookup` of the signature domain equal to
`Lookup msgFromDomain`, or `spfStatus` is pass and `Lookup` of the SPF identity equals
`Lookup msgFromDomain`. -/
theorem C2_alignment_relaxed (Lookup : dns.Domain → dns.Domain) (msgFromDomain : dns.Domain)
    (dkimResults : List dkim.Result) (spfStatus : spf.Status)
    (spfIdentity : Option dns.Domain)
    (hident : spfStatus = spf.StatusPass → spfIdentity ≠ none) :
    alignment Lookup msgFromDomain dkimResults spfStatus spfIdentity = some Validation.Relaxed ↔
      (alignment Lookup msgFromDomain dkimResults spfStatus spfIdentity ≠ some Validation.Strict ∧
        ((∃ dr ∈ dkimResults, dr.Status = dkim.StatusPass ∧
            ∃ sig, dr.Sig = some sig ∧ Lookup sig.Domain = Lookup msgFromDomain) ∨
          (spfStatus = spf.StatusPass ∧
            ∃ ident, spfIdentity = some ident ∧ Lookup ident = Lookup msgFromDomain))) :=
  alignment_relaxed_iff Lookup msgFromDomain dkimResults spfStatus spfIdentity hident

/-- Witness of C2: From domain `sub.example.org`, one passing DKIM signature of
`example.org`, SPF pass for `other.example`: the precondition holds and the result
is Relaxed. -/
theorem C2_alignment_relaxed_witness :
    ((spf.Status.pass = spf.StatusPass → some (⟨"other.example", ""⟩ : dns.Domain) ≠ none) ∧
      alignment exampleLookup ⟨"sub.example.org", ""⟩
        [⟨dkim.Status.pass, some ⟨⟨"example.org", ""⟩⟩⟩] spf.Status.pass
        (some ⟨"other.example", ""⟩) = some Validation.Relaxed) :=
  ⟨by decide,
    (C2_alignment_relaxed exampleLookup ⟨"sub.example.org", ""⟩
      [⟨dkim.Status.pass, some ⟨⟨"example.org", ""⟩⟩⟩] spf.Status.pass
      (some ⟨"other.example", ""⟩) (by decide)).2
      ⟨by decide, Or.inl ⟨_, List.mem_singleton.2 rfl, rfl, _, rfl, by decide⟩⟩⟩

/-- C3: when the SPF identity is non-nil in case `spfStatus` is pass, `alignment`
returns a value that is one of Strict, Relaxed, None, and it returns None exactly when
no passing DKIM signature and no SPF-pass identity has the organizational domain of
`msgFromDomain`; with an empty `dkimResults` and `spfStatus` other than pass the
result is None (for every SPF identity, nil included). -/
theorem C3_alignment_none (Lookup : dns.Domain → dns.Domain) (msgFromDomain : dns.Domain)
    (dkimResults : List dkim.Result) (spfStatus : spf.Status)
    (spfIdentity : Option dns.Domain) :
    ((spfStatus = spf.StatusPass → spfIdentity ≠ none) →
      (∃ v, alignment Lookup msgFromDomain dkimResults spfStatus spfIdentity = some v ∧
        (v = Validation.Strict ∨ v = Validation.Relaxed ∨ v = Validation.None)) ∧
      (alignment Lookup msgFromDomain dkimResults spfStatus spfIdentity = some Validation.None ↔
        (¬ (∃ dr ∈ dkimResults, dr.Status = dkim.StatusPass ∧
              ∃ sig, dr.Sig = some sig ∧ Lookup sig.Domain = Lookup msgFromDomain) ∧
          ¬ (spfStatus = spf.StatusPass ∧
              ∃ ident, spfIdentity = some ident ∧ Lookup ident = Lookup msgFromDomain)))) ∧
    (spfStatus ≠ spf.StatusPass →
      alignment Lookup msgFromDomain [] spfStatus spfIdentity = some Validation.None) := by
  refine ⟨fun hident => ⟨?_, ?_⟩, fun hst => ?_⟩
  · exact alignment_total Lookup msgFromDomain dkimResults spfStatus spfIdentity hident
  · exact alignment_none_iff Lookup msgFromDomain dkimResults spfStatus spfIdentity hident
  · rw [alignment_of_not_pass Lookup msgFromDomain [] spfStatus spfIdentity
      (dkimStrict_nil msgFromDomain) hst]
    rfl

/-- Witness of C3: From domain `sub.example.org`, a passing DKIM signature of
`other.example` and SPF fail with a nil identity: the result is None; and with no
DKIM results at all the result is None. -/
theorem C3_alignment_none_witness :
    alignment exampleLookup ⟨"sub.example.org", ""⟩
        [⟨dkim.Status.pass, some ⟨⟨"other.example", ""⟩⟩⟩] spf.Status.fail none
        = some Validation.None ∧
      alignment exampleLookup ⟨"sub.example.org", ""⟩ [] spf.Status.fail none
        = some Validation.None :=
  ⟨((C3_alignment_none exampleLookup ⟨"sub.example.org", ""⟩
      [⟨dkim.Status.pass, some ⟨⟨"other.example", ""⟩⟩⟩] spf.Status.fail none).1
      (by decide)).2.2 (by decide),
    (C3_alignment_none exampleLookup ⟨"sub.example.org", ""⟩
      [⟨dkim.Status.pass, some ⟨⟨"other.example", ""⟩⟩⟩] spf.Status.fail none).2 (by decide)⟩

/-- C4: the result of `alignment` is the same for every permutation of
`dkimResults`, and if any one DKIM result is a pass whose signature domain equals
`msgFromDomain` the result is Strict, whatever the other DKIM results and the SPF
status and identity are. -/
theorem C4_alignment_order (Lookup : dns.Domain → dns.Domain) (msgFromDomain : dns.Domain)
    (dkimResults : List dkim.Result) (spfStatus : spf.Status)
    (spfIdentity : Option dns.Domain) :
    (∀ permuted : List dkim.Result, dkimResults.Perm permuted →
      alignment Lookup msgFromDomain permuted spfStatus spfIdentity =
        alignment Lookup msgFromDomain dkimResults spfStatus spfIdentity) ∧
    (∀ dr ∈ dkimResults, ∀ sig, dr.Status = dkim.StatusPass → dr.Sig = some sig →
      sig.Domain = msgFromDomain →
      alignment Lookup msgFromDomain dkimResults spfStatus spfIdentity =
        some Validation.Strict) := by
  refine ⟨fun permuted hp => ?_, fun dr hdr sig hpass hsig hdom => ?_⟩
  · exact (alignment_perm Lookup msgFromDomain dkimResults permuted spfStatus spfIdentity hp).symm
  · exact alignment_of_dkimStrict Lookup msgFromDomain dkimResults spfStatus spfIdentity
      ⟨dr, hdr, hpass, sig, hsig, hdom⟩

/-- Witness of C4: a relaxed and a strict DKIM signature, SPF pass with a nil
identity: in both orders the result is Strict. -/
theorem C4_alignment_order_witness :
    alignment exampleLookup ⟨"sub.example.org", ""⟩
        [⟨dkim.Status.pass, some ⟨⟨"sub.example.org", ""⟩⟩⟩,
          ⟨dkim.Status.pass, some ⟨⟨"example.org", ""⟩⟩⟩] spf.Status.pass none =
      alignment exampleLookup ⟨"sub.example.org", ""⟩
        [⟨dkim.Status.pass, some ⟨⟨"example.org", ""⟩⟩⟩,
          ⟨dkim.Status.pass, some ⟨⟨"sub.example.org", ""⟩⟩⟩] spf.Status.pass none ∧
      alignment exampleLookup ⟨"sub.example.org", ""⟩
        [⟨dkim.Status.pass, some ⟨⟨"example.org", ""⟩⟩⟩,
          ⟨dkim.Status.pass, some ⟨⟨"sub.example.org", ""⟩⟩⟩] spf.Status.pass none =
        some Validation.Strict :=
  ⟨(C4_alignment_order exampleLookup ⟨"sub.example.org", ""⟩
      [⟨dkim.Status.pass, some ⟨⟨"example.org", ""⟩⟩⟩,
        ⟨dkim.Status.pass, some ⟨⟨"sub.example.org", ""⟩⟩⟩] spf.Status.pass none).1 _
      (List.Perm.swap _ _ []),
    (C4_alignment_order exampleLookup ⟨"sub.example.org", ""⟩
      [⟨dkim.Status.pass, some ⟨⟨"example.org", ""⟩⟩⟩,
        ⟨dkim.Status.pass, some ⟨⟨"sub.example.org", ""⟩⟩⟩] spf.Status.pass none).2
      ⟨dkim.Status.pass, some ⟨⟨"sub.example.org", ""⟩⟩⟩ (by decide) _ rfl rfl rfl⟩

end smtpserver

/-! ## Package beacon: the connection-id counter -/

namespace beacon

/-- Inside the range of `int64` the wrap-around is the identity. -/
theorem wrapInt64_of_isInt64 (x : Int) (h : isInt64 x) : wrapInt64 x = x := by
  obtain ⟨h1, h2⟩ := h
  unfold wrapInt64
  have e63 : (2 : Int) ^ 63 = 9223372036854775808 := by norm_num
  have e64 : (2 : Int) ^ 64 = 18446744073709551616 := by norm_num
  rw [e63] at h1 h2
  rw [e63, e64]
  omega

/-- A call of `Cid` below the largest `int64` returns the counter plus one and
stores it. -/
theorem Cid_eq (cid : Int) (hlo : -(2 : Int) ^ 63 ≤ cid) (hhi : cid + 1 < 2 ^ 63) :
    Cid cid = (cid + 1, cid + 1) := by
  have h : wrapInt64 (cid + 1) = cid + 1 :=
    wrapInt64_of_isInt64 (cid + 1) ⟨by omega, hhi⟩
  simp [Cid, h]

/-- The `k`-th call (counted from 0) of a run without wrap-around returns the
initial counter plus `k + 1`. -/
theorem CidRun_getElem? (n : Nat) : ∀ (cid : Int) (k : Nat),
    -(2 : Int) ^ 63 ≤ cid → cid + n < 2 ^ 63 → k < n →
    (CidRun n cid)[k]? = some (cid + (k + 1)) := by
  induction n with
  | zero => intro cid k _ _ hk; omega
  | succ n ih =>
    intro cid k hlo hhi hk
    have hc := Cid_eq cid hlo (by push_cast at hhi; omega)
    cases k with
    | zero => simp [CidRun, hc]
    | succ k =>
      have := ih (cid + 1) k (by omega) (by push_cast at hhi; omega) (by omega)
      simp only [CidRun, hc, List.getElem?_cons_succ, this]
      push_cast
      congr 1
      ring

/-- Every id of a run without wrap-around is above the initial counter. -/
theorem CidRun_gt (n : Nat) : ∀ (cid : Int),
    -(2 : Int) ^ 63 ≤ cid → cid + n < 2 ^ 63 → ∀ x ∈ CidRun n cid, cid < x := by
  induction n with
  | zero => intro cid _ _ x hx; simp [CidRun] at hx
  | succ n ih =>
    intro cid hlo hhi x hx
    have hc := Cid_eq cid hlo (by push_cast at hhi; omega)
    simp only [CidRun, hc, List.mem_cons] at hx
    rcases hx with hx | hx
    · omega
    · have := ih (cid + 1) (by omega) (by push_cast at hhi; omega) x hx
      omega

/-- The ids of a run without wrap-around are strictly increasing. -/
theorem CidRun_pairwise (n : Nat) : ∀ (cid : Int),
    -(2 : Int) ^ 63 ≤ cid → cid + n < 2 ^ 63 →
    List.Pairwise (fun a b => a < b) (CidRun n cid) := by
  induction n with
  | zero => intro cid _ _; simp [CidRun]
  | succ n ih =>
    intro cid hlo hhi
    have hc := Cid_eq cid hlo (by push_cast at hhi; omega)
    simp only [CidRun, hc, List.pairwise_cons]
    exact ⟨CidRun_gt n (cid + 1) (by omega) (by push_cast at hhi; omega),
      ih (cid + 1) (by omega) (by push_cast at hhi; omega)⟩

/-- C10: in a sequential run of `n` calls of `Cid` after initialisation from the
wall clock `nowUnixMilli`, without wrap-around of the 64-bit counter, the call number
`k + 1` returns `init + (k + 1)`, and the returned ids are strictly increasing and
pairwise distinct. -/
theorem C10_Cid_monotonic (nowUnixMilli : Int) (n : Nat)
    (hlo : -(2 : Int) ^ 63 ≤ nowUnixMilli) (hhi : nowUnixMilli + n < 2 ^ 63) :
    (∀ k, k < n → (CidRun n (init nowUnixMilli))[k]? = some (init nowUnixMilli + (k + 1))) ∧
      List.Pairwise (fun a b => a < b) (CidRun n (init nowUnixMilli)) ∧
      (CidRun n (init nowUnixMilli)).Nodup := by
  refine ⟨fun k hk => CidRun_getElem? n (init nowUnixMilli) k hlo hhi hk, ?_, ?_⟩
  · exact CidRun_pairwise n (init nowUnixMilli) hlo hhi
  · exact (CidRun_pairwise n (init nowUnixMilli) hlo hhi).imp (fun h => ne_of_lt h)

/-- Witness of C10: three calls after start-up at 1700000000000 ms return
1700000000001, 1700000000002, 1700000000003. -/
theorem C10_Cid_monotonic_witness :
    (-(2 : Int) ^ 63 ≤ 1700000000000 ∧ (1700000000000 : Int) + (3 : Nat) < 2 ^ 63) ∧
      (CidRun 3 (init 1700000000000))[2]? = some (init 1700000000000 + (((2 : Nat) : Int) + 1)) ∧
      (CidRun 3 (init 1700000000000)).Nodup :=
  ⟨⟨by norm_num, by norm_num⟩,
    (C10_Cid_monotonic 1700000000000 3 (by norm_num) (by norm_num)).1 2 (by norm_num),
    (C10_Cid_monotonic 1700000000000 3 (by norm_num) (by norm_num)).2.2⟩

end beacon

/-! ## `webadmin`: the request handler -/

namespace webadmin

/-- The path `/` does not start with `/api/`. -/
theorem not_HasPrefix_root : strings.HasPrefix "/" "/api/" = false := by
  decide

/-- A request that is neither for `/` nor a non-POST API call: the events of
`handle` after the connection id. -/
theorem handle_rest (Check : Bool → Request → Bool → Bool → Bool → store.SessionToken × Bool)
    (isForwarded : Bool) (r : Request) (cid : Int) (hroot : r.Path ≠ "/")
    (h405 : ¬ (strings.HasPrefix r.Path "/api/" = true ∧ r.Path ≠ "/api/" ∧ r.Method ≠ "POST")) :
    (handle Check isForwarded r cid).1 =
      Event.cid (beacon.Cid cid).1 ::
        (if r.Path ≠ "/api/LoginPrep" ∧ r.Path ≠ "/api/Login" then
          if (Check isForwarded r (strings.HasPrefix r.Path "/api/")
              (strings.HasPrefix r.Path "/api/") false).2 = false then
            [Event.check (strings.HasPrefix r.Path "/api/")]
          else
            Event.check (strings.HasPrefix r.Path "/api/") ::
              (if strings.HasPrefix r.Path "/api/" = true then
                [Event.serveHTTP (Check isForwarded r (strings.HasPrefix r.Path "/api/")
                  (strings.HasPrefix r.Path "/api/") false).1]
              else [Event.notFound])
        else
          (if strings.HasPrefix r.Path "/api/" = true then [Event.serveHTTP ""]
            else [Event.notFound])) := by
  unfold handle
  simp only [hroot, if_false, h405]
  split_ifs <;> simp

/-- A request for `/`: the file is served or the method is refused. -/
theorem handle_root (Check : Bool → Request → Bool → Bool → Bool → store.SessionToken × Bool)
    (isForwarded : Bool) (r : Request) (cid : Int) (hroot : r.Path = "/") :
    (handle Check isForwarded r cid).1 =
      [Event.cid (beacon.Cid cid).1,
        if r.Method = "GET" ∨ r.Method = "HEAD" then Event.serveFile
        else Event.error "405 - method not allowed - use get" StatusMethodNotAllowed] := by
  unfold handle
  simp only [hroot, if_true]
  split_ifs <;> simp

/-- A non-POST request for a path under `/api/` other than `/api/` itself: the
method is refused. -/
theorem handle_api_not_post (Check : Bool → Request → Bool → Bool → Bool → store.SessionToken × Bool)
    (isForwarded : Bool) (r : Request) (cid : Int)
    (hapi : strings.HasPrefix r.Path "/api/" = true) (hne : r.Path ≠ "/api/")
    (hm : r.Method ≠ "POST") :
    (handle Check isForwarded r cid).1 =
      [Event.cid (beacon.Cid cid).1,
        Event.error "405 - method not allowed - use post" StatusMethodNotAllowed] := by
  have hroot : r.Path ≠ "/" := by
    intro h
    rw [h, not_HasPrefix_root] at hapi
    exact Bool.false_ne_true hapi
  unfold handle
  simp [hroot, hapi, hne, hm]

/-- C5: in `handle`, the API handler (`apiHandler.ServeHTTP`) is invoked only for a
path that starts with `/api/`, and only if the path is `/api/LoginPrep` or
`/api/Login` or `webauth.Check` was called and accepted the request; for every path
other than `/`, `/api/LoginPrep` and `/api/Login`, a request rejected by
`webauth.Check` reaches neither the API handler nor the 404 reply. -/
theorem C5_handle_api_requires_auth
    (Check : Bool → Request → Bool → Bool → Bool → store.SessionToken × Bool)
    (isForwarded : Bool) (r : Request) (cid : Int) :
    (∀ tok, Event.serveHTTP tok ∈ (handle Check isForwarded r cid).1 →
      strings.HasPrefix r.Path "/api/" = true ∧
        (r.Path = "/api/LoginPrep" ∨ r.Path = "/api/Login" ∨
          (Event.check true ∈ (handle Check isForwarded r cid).1 ∧
            (Check isForwarded r true true false).2 = true))) ∧
    (r.Path ≠ "/" → r.Path ≠ "/api/LoginPrep" → r.Path ≠ "/api/Login" →
      (Check isForwarded r (strings.HasPrefix r.Path "/api/")
        (strings.HasPrefix r.Path "/api/") false).2 = false →
      (∀ tok, Event.serveHTTP tok ∉ (handle Check isForwarded r cid).1) ∧
        Event.notFound ∉ (handle Check isForwarded r cid).1) := by
  by_cases hroot : r.Path = "/"
  · rw [handle_root Check isForwarded r cid hroot]
    refine ⟨fun tok h => ?_, fun h => absurd hroot h⟩
    split_ifs at h <;> simp at h
  · by_cases h405 : strings.HasPrefix r.Path "/api/" = true ∧ r.Path ≠ "/api/" ∧
        r.Method ≠ "POST"
    · rw [handle_api_not_post Check isForwarded r cid h405.1 h405.2.1 h405.2.2]
      simp
    · rw [handle_rest Check isForwarded r cid hroot h405]
      refine ⟨fun tok h => ?_, fun _ h1 h2 hrej => ?_⟩
      · by_cases hapi : strings.HasPrefix r.Path "/api/" = true
        · refine ⟨hapi, ?_⟩
          by_cases hl1 : r.Path = "/api/LoginPrep"
          · exact Or.inl hl1
          · by_cases hl2 : r.Path = "/api/Login"
            · exact Or.inr (Or.inl hl2)
            · right; right
              by_cases hok : (Check isForwarded r true true false).2 = true
              · simp [hapi, hl1, hl2, hok]
              · simp [hapi, hl1, hl2, hok] at h
        · exfalso
          simp only [hapi] at h
          split_ifs at h <;> contradiction
      · simp [h1, h2, hrej]

/-- Witness of C5: a POST of `/api/Domains` with a rejected session is answered by
`webauth.Check` only; with an accepted session the API handler runs after the check. -/
theorem C5_handle_api_requires_auth_witness :
    ((∀ tok, Event.serveHTTP tok ∉
        (handle (fun _ _ _ _ _ => ("", false)) false ⟨"/api/Domains", "POST"⟩ 41).1) ∧
      Event.notFound ∉
        (handle (fun _ _ _ _ _ => ("", false)) false ⟨"/api/Domains", "POST"⟩ 41).1) ∧
    (strings.HasPrefix "/api/Domains" "/api/" = true ∧
      (("/api/Domains" : String) = "/api/LoginPrep" ∨ ("/api/Domains" : String) = "/api/Login" ∨
        (Event.check true ∈
            (handle (fun _ _ _ _ _ => ("tok", true)) false ⟨"/api/Domains", "POST"⟩ 41).1 ∧
          (("tok", true) : store.SessionToken × Bool).2 = true))) :=
  ⟨(C5_handle_api_requires_auth (fun _ _ _ _ _ => ("", false)) false
      ⟨"/api/Domains", "POST"⟩ 41).2 (by decide) (by decide) (by decide) rfl,
    (C5_handle_api_requires_auth (fun _ _ _ _ _ => ("tok", true)) false
      ⟨"/api/Domains", "POST"⟩ 41).1 "tok" (by decide)⟩

/-- C6: in `handle`, every request whose path starts with `/api/`, is not exactly
`/api/`, and whose method is not POST is answered with 405 Method Not Allowed and
nothing else: `webauth.Check` is not called and the API handler is not called. -/
theorem C6_handle_api_method_not_allowed
    (Check : Bool → Request → Bool → Bool → Bool → store.SessionToken × Bool)
    (isForwarded : Bool) (r : Request) (cid : Int)
    (hapi : strings.HasPrefix r.Path "/api/" = true) (hne : r.Path ≠ "/api/")
    (hm : r.Method ≠ "POST") :
    (handle Check isForwarded r cid).1 =
        [Event.cid (beacon.Cid cid).1,
          Event.error "405 - method not allowed - use post" 405] ∧
      (∀ isAPI, Event.check isAPI ∉ (handle Check isForwarded r cid).1) ∧
      (∀ tok, Event.serveHTTP tok ∉ (handle Check isForwarded r cid).1) := by
  rw [handle_api_not_post Check isForwarded r cid hapi hne hm]
  simp [StatusMethodNotAllowed]

/-- Witness of C6: GET on `/api/Login`, with a `webauth.Check` that would accept,
is answered with 405. -/
theorem C6_handle_api_method_not_allowed_witness :
    (strings.HasPrefix "/api/Login" "/api/" = true ∧ ("/api/Login" : String) ≠ "/api/" ∧
      ("GET" : String) ≠ "POST") ∧
    (handle (fun _ _ _ _ _ => ("tok", true)) false ⟨"/api/Login", "GET"⟩ 41).1 =
      [Event.cid (beacon.Cid 41).1, Event.error "405 - method not allowed - use post" 405] :=
  ⟨⟨by decide, by decide, by decide⟩,
    (C6_handle_api_method_not_allowed (fun _ _ _ _ _ => ("tok", true)) false
      ⟨"/api/Login", "GET"⟩ 41 (by decide) (by decide) (by decide)).1⟩

end webadmin

/-! ## `webadmin`: `Admin.SetPassword` -/

namespace webadmin

theorem utf8ByteSize_go_ge_length (cs : List Char) :
    cs.length ≤ String.utf8ByteSize.go cs := by
  induction cs with
  | nil => simp [String.utf8ByteSize.go]
  | cons c cs ih =>
    have hc : 0 < c.utf8Size := Char.utf8Size_pos c
    simp only [String.utf8ByteSize.go, List.length_cons]
    omega

/-- A string has at least as many bytes as characters. -/
theorem length_le_utf8ByteSize (s : String) : s.length ≤ s.utf8ByteSize := by
  cases s with
  | mk cs => exact utf8ByteSize_go_ge_length cs

/-- A password of fewer than 8 bytes is refused with `user:error` before any call
on the account store. -/
theorem SetPassword_short (OpenAccount : String → Except GoError store.Account)
    (SetPassword : store.Account → String → Option GoError) (accountName password : String)
    (h : password.utf8ByteSize < 8) :
    Admin.SetPassword OpenAccount SetPassword accountName password =
      ([], some ⟨"user:error", "password must be at least 8 characters"⟩) := by
  simp [Admin.SetPassword, h]

/-- A password of at least 8 characters passes the length check: the account is
opened. -/
theorem SetPassword_long (OpenAccount : String → Except GoError store.Account)
    (SetPassword : store.Account → String → Option GoError) (accountName password : String)
    (h : 8 ≤ password.length) :
    (Admin.SetPassword OpenAccount SetPassword accountName password).1.head? =
      some (StoreEvent.openAccount accountName) := by
  have hb : ¬ password.utf8ByteSize < 8 := by
    have := length_le_utf8ByteSize password
    omega
  unfold Admin.SetPassword
  simp only [hb, if_false]
  cases OpenAccount accountName <;> rfl

/-- C7 (the code at a failing input): the password `пароль` has 6 characters, fewer
than 8, and 12 bytes; `Admin.SetPassword` does not refuse it: the account is opened
and the password is set. -/
theorem C7_SetPassword_counts_bytes :
    ("пароль" : String).length = 6 ∧
      Admin.SetPassword (fun n => Except.ok ⟨n⟩) (fun _ _ => none) "alice" "пароль" =
        ([StoreEvent.openAccount "alice", StoreEvent.setPassword ⟨"alice"⟩ "пароль",
          StoreEvent.close ⟨"alice"⟩], none) := by
  decide

end webadmin

/-! ## `smtpserver`: `queueDSN` -/

namespace smtpserver

/-- The runs of `queueDSN`: the four ways it ends. -/
theorem queueDSN_cases (env : Env) (c : conn) (rcptTo : smtp.Path) (m : dsn.Message)
    (requireTLS : Bool) :
    (queueDSN env c rcptTo m requireTLS).1 = [] ∨
      (queueDSN env c rcptTo m requireTLS).1 = [DSNEvent.createMessageTemp] ∨
      (queueDSN env c rcptTo m requireTLS).1 =
        [DSNEvent.createMessageTemp, DSNEvent.write (dsnBuf env m),
          DSNEvent.closeRemoveTempFile] ∨
      (queueDSN env c rcptTo m requireTLS).1 =
        [DSNEvent.createMessageTemp, DSNEvent.write (dsnBuf env m),
          DSNEvent.add (dsnMsg env c rcptTo m requireTLS), DSNEvent.closeRemoveTempFile] := by
  unfold queueDSN
  cases (env.Compose m false).2 with
  | some err => left; rfl
  | none =>
    cases env.CreateMessageTemp with
    | some err => right; left; rfl
    | none =>
      simp only []
      cases env.Write (dsnBuf env m) with
      | some err => right; right; left; rfl
      | none => right; right; right; rfl

/-- When composing the ASCII message, creating the file and writing it succeed,
`queue.Add` is called, and its error is the result. -/
theorem queueDSN_adds (env : Env) (c : conn) (rcptTo : smtp.Path) (m : dsn.Message)
    (requireTLS : Bool) (hc : (env.Compose m false).2 = none)
    (hf : env.CreateMessageTemp = none) (hw : env.Write (dsnBuf env m) = none) :
    queueDSN env c rcptTo m requireTLS =
      ([DSNEvent.createMessageTemp, DSNEvent.write (dsnBuf env m),
        DSNEvent.add (dsnMsg env c rcptTo m requireTLS), DSNEvent.closeRemoveTempFile],
        env.Add (dsnMsg env c rcptTo m requireTLS)) := by
  unfold queueDSN
  simp only [hc, hf, hw]
  rfl

/-- C8: the queue message that `queueDSN` hands to `queue.Add` has the null reverse
path `smtp.Path{}` as envelope sender, `rcptTo` as recipient, and both `has8bit` and
`smtputf8` false; and `queue.Add` is called whenever composing the ASCII message,
creating the temporary file and writing it succeed. -/
theorem C8_queueDSN_null_reverse_path (env : Env) (c : conn) (rcptTo : smtp.Path)
    (m : dsn.Message) (requireTLS : Bool) :
    (∀ qm, DSNEvent.add qm ∈ (queueDSN env c rcptTo m requireTLS).1 →
      qm.Sender = smtp.Path.zero ∧ qm.Recipient = rcptTo ∧ qm.Has8bit = false ∧
        qm.SMTPUTF8 = false) ∧
    ((env.Compose m false).2 = none → env.CreateMessageTemp = none →
      env.Write (dsnBuf env m) = none →
      ∃ qm, DSNEvent.add qm ∈ (queueDSN env c rcptTo m requireTLS).1) := by
  refine ⟨fun qm h => ?_, fun hc hf hw => ?_⟩
  · rcases queueDSN_cases env c rcptTo m requireTLS with h0 | h1 | h2 | h3
    · rw [h0] at h; simp at h
    · rw [h1] at h; simp at h
    · rw [h2] at h; simp at h
    · rw [h3] at h
      simp only [List.mem_cons, DSNEvent.add.injEq, List.mem_singleton, reduceCtorEq,
        false_or, or_false, List.not_mem_nil] at h
      subst h
      exact ⟨rfl, rfl, rfl, rfl⟩
  · rw [queueDSN_adds env c rcptTo m requireTLS hc hf hw]
    exact ⟨dsnMsg env c rcptTo m requireTLS, by simp⟩

/-- Witness of C8: with the example environment the message is queued, with the
null reverse path as sender and the given recipient. -/
theorem C8_queueDSN_null_reverse_path_witness :
    (∃ qm, DSNEvent.add qm ∈ (queueDSN exampleEnv ⟨true⟩ exampleRcpt exampleDSN true).1) ∧
      ((dsnMsg exampleEnv ⟨true⟩ exampleRcpt exampleDSN true).Sender = smtp.Path.zero ∧
        (dsnMsg exampleEnv ⟨true⟩ exampleRcpt exampleDSN true).Recipient = exampleRcpt ∧
        (dsnMsg exampleEnv ⟨true⟩ exampleRcpt exampleDSN true).Has8bit = false ∧
        (dsnMsg exampleEnv ⟨true⟩ exampleRcpt exampleDSN true).SMTPUTF8 = false) :=
  ⟨(C8_queueDSN_null_reverse_path exampleEnv ⟨true⟩ exampleRcpt exampleDSN true).2 rfl rfl rfl,
    (C8_queueDSN_null_reverse_path exampleEnv ⟨true⟩ exampleRcpt exampleDSN true).1 _
      (by decide)⟩

/-- C9: in `queueDSN` the bytes written to the temporary message file are the
DKIM-Signature header text returned by `DKIMSign` for `m.From` over the ASCII-composed
DSN, followed by that composed DSN unchanged; and when `queue.Add` is called these
bytes have been written and the size given to `queue.MakeMsg` is their length. -/
theorem C9_queueDSN_written_bytes (env : Env) (c : conn) (rcptTo : smtp.Path)
    (m : dsn.Message) (requireTLS : Bool) :
    (∀ buf, DSNEvent.write buf ∈ (queueDSN env c rcptTo m requireTLS).1 →
      buf = bytesOfString (env.DKIMSign m.From false (env.Compose m false).1).1 ++
        (env.Compose m false).1) ∧
    (∀ qm, DSNEvent.add qm ∈ (queueDSN env c rcptTo m requireTLS).1 →
      DSNEvent.write (bytesOfString (env.DKIMSign m.From false (env.Compose m false).1).1 ++
          (env.Compose m false).1) ∈ (queueDSN env c rcptTo m requireTLS).1 ∧
        qm.Size = ((bytesOfString (env.DKIMSign m.From false (env.Compose m false).1).1 ++
          (env.Compose m false).1).length : Int)) := by
  have hb : dsnBuf env m =
      bytesOfString (env.DKIMSign m.From false (env.Compose m false).1).1 ++
        (env.Compose m false).1 := rfl
  rw [← hb]
  refine ⟨fun buf h => ?_, fun qm h => ?_⟩
  · rcases queueDSN_cases env c rcptTo m requireTLS with h0 | h1 | h2 | h3
    · rw [h0] at h; simp at h
    · rw [h1] at h; simp at h
    · rw [h2] at h; simpa using h
    · rw [h3] at h; simpa using h
  · rcases queueDSN_cases env c rcptTo m requireTLS with h0 | h1 | h2 | h3
    · rw [h0] at h; simp at h
    · rw [h1] at h; simp at h
    · rw [h2] at h; simp at h
    · rw [h3] at h ⊢
      simp only [List.mem_cons, DSNEvent.add.injEq, List.mem_singleton, reduceCtorEq,
        false_or, or_false, List.not_mem_nil] at h
      subst h
      exact ⟨by simp, rfl⟩

/-- Witness of C9: with the example environment the written bytes are the 38 bytes
of the signature header followed by the 16 bytes of the message, and the queued size
is 54. -/
theorem C9_queueDSN_written_bytes_witness :
    DSNEvent.write (bytesOfString "DKIM-Signature: v=1; d=beacon.example;" ++
        bytesOfString "Subject: failure") ∈
        (queueDSN exampleEnv ⟨false⟩ exampleRcpt exampleDSN false).1 ∧
      (dsnMsg exampleEnv ⟨false⟩ exampleRcpt exampleDSN false).Size =
        ((bytesOfString "DKIM-Signature: v=1; d=beacon.example;" ++
          bytesOfString "Subject: failure").length : Int) ∧
      (bytesOfString "DKIM-Signature: v=1; d=beacon.example;" ++
          bytesOfString "Subject: failure").length = 54 :=
  ⟨((C9_queueDSN_written_bytes exampleEnv ⟨false⟩ exampleRcpt exampleDSN false).2
      (dsnMsg exampleEnv ⟨false⟩ exampleRcpt exampleDSN false) (by decide)).1,
    ((C9_queueDSN_written_bytes exampleEnv ⟨false⟩ exampleRcpt exampleDSN false).2
      (dsnMsg exampleEnv ⟨false⟩ exampleRcpt exampleDSN false) (by decide)).2,
    by decide⟩

end smtpserver

/-! ## `serve.go`: `shutdown` -/

namespace serve

/-- The first `select` takes the tick only if `done` was not ready before it. -/
theorem firstSelect_timer (r : Run) (h : firstSelect r = FirstSelect.timer) :
    r.doneAt = none ∨ ∃ t, r.doneAt = some t ∧ 3 * time.Second ≤ t := by
  unfold firstSelect at h
  cases hd : r.doneAt with
  | none => exact Or.inl rfl
  | some t =>
    right
    refine ⟨t, rfl, ?_⟩
    rw [hd] at h
    by_contra hlt
    rw [not_le] at hlt
    simp [hlt] at h

/-- The first `select` takes `done` when `done` is ready before the tick. -/
theorem firstSelect_done (r : Run) (t : Int) (hd : r.doneAt = some t)
    (hlt : t < 3 * time.Second) : firstSelect r = FirstSelect.done := by
  simp [firstSelect, hd, hlt]

/-- The forced shutdown is in the trace exactly when the first `select` takes the
tick. -/
theorem shutdownWith_force (s1 : FirstSelect) (s2 : SecondSelect) :
    (ShutdownEvent.contextCancel ∈ shutdownWith s1 s2 ↔ s1 = FirstSelect.timer) ∧
      (ShutdownEvent.connectionsShutdown ∈ shutdownWith s1 s2 ↔ s1 = FirstSelect.timer) := by
  cases s1 <;> cases s2 <;> simp [shutdownWith]

theorem shutdownWith_ends (s1 : FirstSelect) (s2 : SecondSelect) :
    (shutdownWith s1 s2).head? = some ShutdownEvent.shutdownCancel ∧
      (shutdownWith s1 s2).getLast? = some ShutdownEvent.removeCtl := by
  cases s1 <;> cases s2 <;> simp [shutdownWith]

/-- C11: `shutdown` first signals `ShutdownCancel`; it invokes `ContextCancel` and
`Connections.Shutdown` only in the run where the first `select` proceeds with the
3-second tick, which was then ready no later than `done`; when all connections are
done before the 3 seconds are over neither is invoked; and in every run the last
action is the removal of the ctl socket. -/
theorem C11_shutdown_grace (r : Run) :
    (shutdown r).head? = some ShutdownEvent.shutdownCancel ∧
      ((ShutdownEvent.contextCancel ∈ shutdown r ∨
          ShutdownEvent.connectionsShutdown ∈ shutdown r) →
        ShutdownEvent.tick (3 * time.Second) ∈ shutdown r ∧
          firstSelect r = FirstSelect.timer ∧
          (r.doneAt = none ∨ ∃ t, r.doneAt = some t ∧ 3 * time.Second ≤ t)) ∧
      (∀ t, r.doneAt = some t → t < 3 * time.Second →
        ShutdownEvent.contextCancel ∉ shutdown r ∧
          ShutdownEvent.connectionsShutdown ∉ shutdown r) ∧
      (shutdown r).getLast? = some ShutdownEvent.removeCtl := by
  have hf := shutdownWith_force (firstSelect r) (secondSelect r)
  have he := shutdownWith_ends (firstSelect r) (secondSelect r)
  refine ⟨he.1, fun h => ?_, fun t hd hlt => ?_, he.2⟩
  · have ht : firstSelect r = FirstSelect.timer := by
      rcases h with h | h
      · exact hf.1.1 h
      · exact hf.2.1 h
    refine ⟨?_, ht, firstSelect_timer r ht⟩
    simp [shutdown, shutdownWith]
  · have hdone := firstSelect_done r t hd hlt
    constructor
    · intro h
      have := hf.1.1 h
      rw [hdone] at this
      exact FirstSelect.noConfusion this
    · intro h
      have := hf.2.1 h
      rw [hdone] at this
      exact FirstSelect.noConfusion this

/-- Witness of C11: connections done after 1 second are not forced; connections
that are never done by themselves are forced after the 3-second tick. -/
theorem C11_shutdown_grace_witness :
    (ShutdownEvent.contextCancel ∉ shutdown ⟨some time.Second, none, FirstSelect.timer,
          SecondSelect.second⟩ ∧
        ShutdownEvent.connectionsShutdown ∉ shutdown ⟨some time.Second, none,
          FirstSelect.timer, SecondSelect.second⟩) ∧
      (ShutdownEvent.tick (3 * time.Second) ∈ shutdown ⟨none, some 5, FirstSelect.done,
          SecondSelect.done⟩ ∧
        firstSelect ⟨none, some 5, FirstSelect.done, SecondSelect.done⟩ = FirstSelect.timer ∧
        ((none : Option Int) = none ∨
          ∃ t, (none : Option Int) = some t ∧ 3 * time.Second ≤ t)) :=
  ⟨(C11_shutdown_grace ⟨some time.Second, none, FirstSelect.timer, SecondSelect.second⟩).2.2.1
      time.Second rfl (by decide),
    (C11_shutdown_grace ⟨none, some 5, FirstSelect.done, SecondSelect.done⟩).2.1
      (Or.inl (by decide))⟩

end serve

/-! ## Package beacon: `Sleep` and `LastKnown` -/

namespace beacon

/-- With a positive duration `Sleep` returns: when the context is done, if that is
before `d` has elapsed, and else once `d` has elapsed. -/
theorem Sleep_pos (ctxDoneAt : Option Int) (d : time.Duration) (hd : 0 < d) :
    Sleep ctxDoneAt d =
      SleepResult.returned (match ctxDoneAt with
        | none => d
        | some t => min t d) := by
  have hn : ¬ d ≤ 0 := not_le.2 hd
  cases ctxDoneAt with
  | none => simp [Sleep, hn]
  | some t =>
    by_cases ht : t < d
    · simp [Sleep, hn, ht, min_eq_left (le_of_lt ht)]
    · simp [Sleep, hn, ht, min_eq_right (not_lt.1 ht)]

/-- C12 (the code at a failing input): `Sleep(ctx, 0)` panics in `time.NewTicker`,
for a context that is never done and for a context that is done on entry. -/
theorem C12_Sleep_zero_panics :
    Sleep none 0 = SleepResult.panic "non-positive interval for NewTicker" ∧
      Sleep (some 0) 0 = SleepResult.panic "non-positive interval for NewTicker" := by
  constructor <;> rfl

/-- C13: when the running version and the content of the file `lastknownversion`
both parse, `LastKnown` returns a nil error, the running version as current, and as
last known the running version if it is `After` the stored one and else the stored
one; when the running version parses and the content of the file does not (the file
is read, or is missing), last known is the running version, with a nil error. -/
theorem C13_LastKnown (env : LastKnownEnv) :
    ((env.ParseVersion env.Version).2 = none → env.ReadFile.2 = none →
      (env.ParseVersion (env.TrimSpace env.ReadFile.1)).2 = none →
      LastKnown env =
        ⟨(env.ParseVersion env.Version).1,
          if env.After (env.ParseVersion env.Version).1
              (env.ParseVersion (env.TrimSpace env.ReadFile.1)).1
          then (env.ParseVersion env.Version).1
          else (env.ParseVersion (env.TrimSpace env.ReadFile.1)).1,
          env.Stat, none⟩) ∧
    ((env.ParseVersion env.Version).2 = none →
      (env.ReadFile.2 = none ∨ ∃ err, env.ReadFile.2 = some (err, true)) →
      (env.ParseVersion (env.TrimSpace env.ReadFile.1)).2 ≠ none →
      LastKnown env =
        ⟨(env.ParseVersion env.Version).1, (env.ParseVersion env.Version).1,
          env.Stat, none⟩) := by
  constructor
  · intro hc hr hl
    unfold LastKnown
    rw [hr]
    simp only [hc, hl, and_self, if_true]
    split_ifs <;> rfl
  · intro hc hr hl
    unfold LastKnown
    rcases hr with hr | ⟨err, hr⟩ <;> rw [hr] <;> simp [hc, hl]

/-- Witness of C13: running `v0.0.9` with `v0.0.10` stored gives `v0.0.10` as last
known; with the file missing, last known is the running version. -/
theorem C13_LastKnown_witness :
    LastKnown (exampleLastKnownEnv "v0.0.10" none) =
        ⟨⟨0, 0, 9⟩, ⟨0, 0, 10⟩, some 1700000000, none⟩ ∧
      LastKnown (exampleLastKnownEnv "" (some (⟨"no such file", false, false⟩, true))) =
        ⟨⟨0, 0, 9⟩, ⟨0, 0, 9⟩, some 1700000000, none⟩ :=
  ⟨(C13_LastKnown (exampleLastKnownEnv "v0.0.10" none)).1 rfl rfl rfl,
    (C13_LastKnown (exampleLastKnownEnv ""
      (some (⟨"no such file", false, false⟩, true)))).2 rfl (Or.inr ⟨_, rfl⟩) (by decide)⟩

end beacon

/-! ## `smtpserver`: the error result of `queueDSN` -/

namespace smtpserver

theorem wrapError_ne_none (msg : String) (err : GoError) :
    (some (wrapError msg err) : Option GoError) ≠ none := by
  simp

/-- The error result of `queueDSN`, by the first step that fails. -/
theorem queueDSN_error (env : Env) (c : conn) (rcptTo : smtp.Path) (m : dsn.Message)
    (requireTLS : Bool) :
    (queueDSN env c rcptTo m requireTLS).2 =
      match (env.Compose m false).2 with
      | some err => some err
      | none =>
        match env.CreateMessageTemp with
        | some err => some (wrapError "creating temp file" err)
        | none =>
          match env.Write (dsnBuf env m) with
          | some err => some (wrapError "writing dsn file" err)
          | none => env.Add (dsnMsg env c rcptTo m requireTLS) := by
  unfold queueDSN
  cases (env.Compose m false).2 with
  | some err => rfl
  | none =>
    cases env.CreateMessageTemp with
    | some err => rfl
    | none =>
      simp only []
      cases env.Write (dsnBuf env m) with
      | some err => rfl
      | none => rfl

/-- C19: `queueDSN` returns a non-nil error if and only if composing the ASCII DSN,
creating the temporary file, writing it, or `queue.Add` fails; and whatever the
errors of DKIM signing (of either variant) and of composing the UTF-8 variant are,
when these four steps succeed the ASCII DSN is written and queued and the result is
nil. -/
theorem C19_queueDSN_error_iff (env : Env) (c : conn) (rcptTo : smtp.Path)
    (m : dsn.Message) (requireTLS : Bool) :
    ((queueDSN env c rcptTo m requireTLS).2 ≠ none ↔
      ((env.Compose m false).2 ≠ none ∨ env.CreateMessageTemp ≠ none ∨
        env.Write (dsnBuf env m) ≠ none ∨
        env.Add (dsnMsg env c rcptTo m requireTLS) ≠ none)) ∧
    ((env.Compose m false).2 = none → env.CreateMessageTemp = none →
      env.Write (dsnBuf env m) = none →
      env.Add (dsnMsg env c rcptTo m requireTLS) = none →
      (queueDSN env c rcptTo m requireTLS).2 = none ∧
        DSNEvent.write (bytesOfString
            (env.DKIMSign m.From false (env.Compose m false).1).1 ++
          (env.Compose m false).1) ∈ (queueDSN env c rcptTo m requireTLS).1 ∧
        DSNEvent.add (dsnMsg env c rcptTo m requireTLS) ∈
          (queueDSN env c rcptTo m requireTLS).1) := by
  constructor
  · rw [queueDSN_error]
    cases hc : (env.Compose m false).2 with
    | some err => simp
    | none =>
      cases hf : env.CreateMessageTemp with
      | some err => simp
      | none =>
        cases hw : env.Write (dsnBuf env m) with
        | some err => simp
        | none => simp
  · intro hc hf hw ha
    rw [queueDSN_adds env c rcptTo m requireTLS hc hf hw]
    refine ⟨ha, ?_, ?_⟩
    · have hb : dsnBuf env m =
          bytesOfString (env.DKIMSign m.From false (env.Compose m false).1).1 ++
            (env.Compose m false).1 := rfl
      rw [← hb]
      simp
    · simp

/-- Witness of C19: DKIM signing fails for both variants and composing the UTF-8
variant fails; the DSN is queued all the same and the result is nil. -/
theorem C19_queueDSN_error_iff_witness :
    (queueDSN exampleFailingSignEnv ⟨true⟩ exampleRcpt exampleDSN false).2 = none ∧
      DSNEvent.write (bytesOfString "" ++ bytesOfString "Subject: failure") ∈
        (queueDSN exampleFailingSignEnv ⟨true⟩ exampleRcpt exampleDSN false).1 ∧
      DSNEvent.add (dsnMsg exampleFailingSignEnv ⟨true⟩ exampleRcpt exampleDSN false) ∈
        (queueDSN exampleFailingSignEnv ⟨true⟩ exampleRcpt exampleDSN false).1 :=
  (C19_queueDSN_error_iff exampleFailingSignEnv ⟨true⟩ exampleRcpt exampleDSN false).2
    rfl rfl rfl rfl

end smtpserver

/-! ## `metrics.go`: `httpClientObserve` -/

namespace metrics

/-- The observation of `httpClientObserve`: the third value, the classification, goes
to the third label, `code`, and the fourth value, the status code, to the fourth
label, `result`. -/
theorem httpClientObserve_eq (pkg method : String) (statusCode : Int)
    (err : Option ObserveError) (elapsed : time.Duration) :
    httpClientObserve pkg method statusCode err elapsed =
      some ⟨"beacon_httpclient_request_duration_seconds",
        [("pkg", pkg), ("method", method), ("code", httpClientResult statusCode err),
          ("result", toString statusCode)], elapsed⟩ := by
  rfl

/-- C20 (the code at a failing input): for package `mtasts`, method `GET`, status
200 and no error, the label `code` carries the classification `ok` and the label
`result` carries the status code `200`. -/
theorem C20_httpClientObserve_labels_swapped :
    httpClientObserve "mtasts" "GET" 200 none 5000000 =
      some ⟨"beacon_httpclient_request_duration_seconds",
        [("pkg", "mtasts"), ("method", "GET"), ("code", "ok"), ("result", "200")],
        5000000⟩ := by
  decide

end metrics

/-! ## `webadmin`: `Admin.WebserverConfigSave` -/

namespace webadmin

/-- The current web handlers are found equal to the old ones only if the lengths
are the same and `Equal` holds at every position. -/
theorem webhandlersEqual_true {WH : Type} (Equal : WH → WH → Bool) (current old : List WH)
    (h : webhandlersEqual Equal current old = true) :
    current.length = old.length ∧
      ∀ i (h1 : i < current.length) (h2 : i < old.length),
        Equal (current.get ⟨i, h1⟩) (old.get ⟨i, h2⟩) = true := by
  unfold webhandlersEqual at h
  by_cases hl : current.length = old.length
  · refine ⟨hl, fun i h1 h2 => ?_⟩
    simp only [hl, ne_eq, not_true_eq_false, if_false, List.all_eq_true] at h
    have hz : i < (current.zip old).length := by
      simp [List.length_zip, h1, h2]
    have hm : (current.zip old).get ⟨i, hz⟩ ∈ current.zip old := List.get_mem _ _ _
    have := h _ hm
    simpa using this
  · simp [hl] at h

/-- The comparison of `oldConf` with the current configuration fails: the result of
`Admin.WebserverConfigSave`. -/
theorem WebserverConfigSave_changed {WH : Type}
    (SliceD : (dns.Domain × dns.Domain → dns.Domain × dns.Domain → Bool) →
      List (dns.Domain × dns.Domain) → List (dns.Domain × dns.Domain))
    (SliceS : (String × String → String × String → Bool) →
      List (String × String) → List (String × String))
    (Equal : WH → WH → Bool)
    (WebserverConfigSet : WebServerConf WH → gomap.Map String String → List WH →
      Option GoError × WebServerConf WH)
    (conf : WebServerConf WH) (oldConf newConf : WebserverConfig WH)
    (h : oldConf.WebDNSDomainRedirects ≠
        (webserverConfig SliceD SliceS conf).WebDNSDomainRedirects ∨
      webhandlersEqual Equal conf.Handlers oldConf.WebHandlers = false) :
    (Admin.WebserverConfigSave SliceD SliceS Equal WebserverConfigSet conf oldConf newConf).calls
        = [] ∧
      (Admin.WebserverConfigSave SliceD SliceS Equal WebserverConfigSet conf oldConf newConf).conf
        = conf ∧
      (Admin.WebserverConfigSave SliceD SliceS Equal WebserverConfigSet conf oldConf
        newConf).result =
        Except.error ⟨"user:error", "comparing old/current config: config has changed"⟩ := by
  have hh : (webserverConfig SliceD SliceS conf).WebHandlers = conf.Handlers := rfl
  unfold Admin.WebserverConfigSave
  simp only [hh, h, if_true, xcheckuserf, errorsNew]
  simp

/-- The current redirects of `webserverConfig` are the redirects of the
configuration, sorted by the ASCII name of the source domain. -/
theorem webserverConfig_redirects {WH : Type}
    (SliceD : (dns.Domain × dns.Domain → dns.Domain × dns.Domain → Bool) →
      List (dns.Domain × dns.Domain) → List (dns.Domain × dns.Domain))
    (SliceS : (String × String → String × String → Bool) →
      List (String × String) → List (String × String))
    (conf : WebServerConf WH) (hs : sort.SliceSpec SliceD) :
    ∃ cur, (webserverConfig SliceD SliceS conf).WebDNSDomainRedirects = some cur ∧
      cur.Perm conf.Redirects ∧
      List.Pairwise (fun a b => a.1.ASCII ≤ b.1.ASCII) cur := by
  have hx : conf.Redirects.map (fun kv => (kv.1, kv.2)) = conf.Redirects := by
    simp
  have hto : sort.TransitiveOrdering
      (fun a b : dns.Domain × dns.Domain => decide (a.1.ASCII < b.1.ASCII)) := by
    refine ⟨fun a => by simp, fun a b c hab hbc => ?_, fun a b c hab hbc => ?_⟩
    · simp only [decide_eq_true_eq] at hab hbc ⊢
      exact lt_trans hab hbc
    · simp only [decide_eq_false_iff_not, not_lt] at hab hbc ⊢
      exact le_trans hbc hab
  obtain ⟨hperm, hsorted⟩ := hs (fun a b => decide (a.1.ASCII < b.1.ASCII)) conf.Redirects
  refine ⟨_, by simp only [webserverConfig, hx], hperm, ?_⟩
  refine (hsorted hto).imp ?_
  intro a b hba
  simpa using hba

/-- C14: `Admin.WebserverConfigSave` fails with error code `user:error` and does not
call `WebserverConfigSet` (the configuration is unchanged) whenever the
`WebDNSDomainRedirects` of `oldConf` differ from the current redirects, which are the
configured redirects sorted by source domain, or its `WebHandlers` differ from the
current ones in length or at some position. -/
theorem C14_WebserverConfigSave_changed {WH : Type}
    (SliceD : (dns.Domain × dns.Domain → dns.Domain × dns.Domain → Bool) →
      List (dns.Domain × dns.Domain) → List (dns.Domain × dns.Domain))
    (SliceS : (String × String → String × String → Bool) →
      List (String × String) → List (String × String))
    (Equal : WH → WH → Bool)
    (WebserverConfigSet : WebServerConf WH → gomap.Map String String → List WH →
      Option GoError × WebServerConf WH)
    (conf : WebServerConf WH) (oldConf newConf : WebserverConfig WH)
    (hsort : sort.SliceSpec SliceD) :
    (∃ cur, (webserverConfig SliceD SliceS conf).WebDNSDomainRedirects = some cur ∧
      cur.Perm conf.Redirects ∧ List.Pairwise (fun a b => a.1.ASCII ≤ b.1.ASCII) cur) ∧
    ((oldConf.WebDNSDomainRedirects ≠
          (webserverConfig SliceD SliceS conf).WebDNSDomainRedirects ∨
        conf.Handlers.length ≠ oldConf.WebHandlers.length ∨
        (∃ i, ∃ (h1 : i < conf.Handlers.length) (h2 : i < oldConf.WebHandlers.length),
          Equal (conf.Handlers.get ⟨i, h1⟩) (oldConf.WebHandlers.get ⟨i, h2⟩) = false)) →
      (Admin.WebserverConfigSave SliceD SliceS Equal WebserverConfigSet conf oldConf
          newConf).calls = [] ∧
        (Admin.WebserverConfigSave SliceD SliceS Equal WebserverConfigSet conf oldConf
          newConf).conf = conf ∧
        (Admin.WebserverConfigSave SliceD SliceS Equal WebserverConfigSet conf oldConf
          newConf).result =
          Except.error ⟨"user:error", "comparing old/current config: config has changed"⟩) := by
  refine ⟨webserverConfig_redirects SliceD SliceS conf hsort, fun h => ?_⟩
  apply WebserverConfigSave_changed
  rcases h with h | h | ⟨i, h1, h2, h⟩
  · exact Or.inl h
  · right
    by_contra hne
    rw [Bool.not_eq_false] at hne
    exact h (webhandlersEqual_true Equal _ _ hne).1
  · right
    by_contra hne
    rw [Bool.not_eq_false] at hne
    have := (webhandlersEqual_true Equal _ _ hne).2 i h1 h2
    rw [h] at this
    exact Bool.false_ne_true this

end webadmin

/-! ## Go library: sorting -/

namespace sort

/-- Insertion sort meets the contract of `sort.Slice`. -/
theorem exampleSlice_spec {α : Type} :
    SliceSpec (exampleSlice : (α → α → Bool) → List α → List α) := by
  intro less l
  refine ⟨List.perm_insertionSort _ l, fun hto => ?_⟩
  obtain ⟨hirr, htr, hntr⟩ := hto
  have htotal : IsTotal α (fun a b => less b a = false) := by
    refine ⟨fun a b => ?_⟩
    by_cases hba : less b a = true
    · right
      by_contra hab
      rw [Bool.not_eq_false] at hab
      have := htr b a b hba hab
      rw [hirr b] at this
      exact Bool.false_ne_true this
    · left
      simpa using hba
  have htrans : IsTrans α (fun a b => less b a = false) :=
    ⟨fun a b c hab hbc => hntr c b a hbc hab⟩
  exact List.sorted_insertionSort (fun a b => less b a = false) l

/-- An order by a number, descending, and then by a name, ascending, is a transitive
ordering. -/
theorem transitiveOrdering_end_domain {α : Type} (e : α → Int) (d : α → String) :
    TransitiveOrdering
      (fun a b => if e a = e b then decide (d a < d b) else decide (e a > e b)) := by
  refine ⟨fun a => by simp, fun a b c hab hbc => ?_, fun a b c hab hbc => ?_⟩
  · simp only at hab hbc ⊢
    split_ifs at hab hbc with h1 h2 h2 <;> simp only [decide_eq_true_eq] at hab hbc
    · rw [if_pos (h1.trans h2), decide_eq_true_eq]
      exact lt_trans hab hbc
    · rw [if_neg (by omega), decide_eq_true_eq]
      omega
    · rw [if_neg (by omega), decide_eq_true_eq]
      omega
    · rw [if_neg (by omega), decide_eq_true_eq]
      omega
  · simp only at hab hbc ⊢
    split_ifs at hab hbc with h1 h2 h2 <;>
      simp only [decide_eq_false_iff_not, not_lt, gt_iff_lt] at hab hbc
    · rw [if_pos (h1.trans h2), decide_eq_false_iff_not, not_lt]
      exact le_trans hbc hab
    · rw [if_neg (by omega), decide_eq_false_iff_not]
      omega
    · rw [if_neg (by omega), decide_eq_false_iff_not]
      omega
    · by_cases h3 : e a = e c
      · omega
      · rw [if_neg h3, decide_eq_false_iff_not]
        omega

/-- In a list sorted by a number, descending, and then by a name, ascending, an
earlier element has a greater number, or the same number and a name that is not
greater. -/
theorem pairwise_end_domain {α : Type} (e : α → Int) (d : α → String) (l : List α)
    (h : List.Pairwise
      (fun a b => (if e b = e a then decide (d b < d a) else decide (e b > e a)) = false) l) :
    List.Pairwise (fun a b => e a > e b ∨ (e a = e b ∧ d a ≤ d b)) l := by
  refine h.imp ?_
  intro a b hab
  split_ifs at hab with h1
  · right
    rw [decide_eq_false_iff_not, not_lt] at hab
    exact ⟨h1.symm, hab⟩
  · left
    rw [decide_eq_false_iff_not] at hab
    omega

/-- An order by a name is a transitive ordering. -/
theorem transitiveOrdering_name {α : Type} (d : α → String) :
    TransitiveOrdering (fun a b => decide (d a < d b)) := by
  refine ⟨fun a => by simp, fun a b c hab hbc => ?_, fun a b c hab hbc => ?_⟩
  · simp only [decide_eq_true_eq] at hab hbc ⊢
    exact lt_trans hab hbc
  · simp only [decide_eq_false_iff_not, not_lt] at hab hbc ⊢
    exact le_trans hbc hab

end sort

/-! ## `webadmin`: reports -/

namespace webadmin

/-- Witness of C14: the old configuration has no web handler where the current one
has one: the save is refused and nothing is set. -/
theorem C14_WebserverConfigSave_changed_witness :
    (Admin.WebserverConfigSave sort.exampleSlice sort.exampleSlice
        (fun a b : String => a == b) (fun _ _ hs => (none, ⟨[], hs⟩))
        ⟨[(⟨"b.example", ""⟩, ⟨"x.example", ""⟩)], ["handler"]⟩
        ⟨some [(⟨"b.example", ""⟩, ⟨"x.example", ""⟩)], none, []⟩
        ⟨none, some [("b.example", "y.example")], ["handler"]⟩).calls = [] ∧
      (Admin.WebserverConfigSave sort.exampleSlice sort.exampleSlice
        (fun a b : String => a == b) (fun _ _ hs => (none, ⟨[], hs⟩))
        ⟨[(⟨"b.example", ""⟩, ⟨"x.example", ""⟩)], ["handler"]⟩
        ⟨some [(⟨"b.example", ""⟩, ⟨"x.example", ""⟩)], none, []⟩
        ⟨none, some [("b.example", "y.example")], ["handler"]⟩).result =
        Except.error ⟨"user:error", "comparing old/current config: config has changed"⟩ :=
  ⟨((C14_WebserverConfigSave_changed sort.exampleSlice sort.exampleSlice
      (fun a b : String => a == b) (fun _ _ hs => (none, ⟨[], hs⟩))
      ⟨[(⟨"b.example", ""⟩, ⟨"x.example", ""⟩)], ["handler"]⟩
      ⟨some [(⟨"b.example", ""⟩, ⟨"x.example", ""⟩)], none, []⟩
      ⟨none, some [("b.example", "y.example")], ["handler"]⟩
      sort.exampleSlice_spec).2 (Or.inr (Or.inl (by decide)))).1,
    ((C14_WebserverConfigSave_changed sort.exampleSlice sort.exampleSlice
      (fun a b : String => a == b) (fun _ _ hs => (none, ⟨[], hs⟩))
      ⟨[(⟨"b.example", ""⟩, ⟨"x.example", ""⟩)], ["handler"]⟩
      ⟨some [(⟨"b.example", ""⟩, ⟨"x.example", ""⟩)], none, []⟩
      ⟨none, some [("b.example", "y.example")], ["handler"]⟩
      sort.exampleSlice_spec).2 (Or.inr (Or.inl (by decide)))).2.2⟩

/-- The policy domain of `Admin.TLSReports` and `Admin.TLSRPTSummaries`: the parsed
argument, or the zero domain for the empty argument. -/
theorem TLSReports_ok
    (Slice : (tlsrptdb.TLSReportRecord → tlsrptdb.TLSReportRecord → Bool) →
      List tlsrptdb.TLSReportRecord → List tlsrptdb.TLSReportRecord)
    (ParseDomain : String → dns.Domain × Option GoError)
    (RecordsPeriodDomain : time.Time → time.Time → dns.Domain →
      List tlsrptdb.TLSReportRecord × Option GoError)
    (start «end» : time.Time) (policyDomain : String)
    (hp : policyDomain = "" ∨ (ParseDomain policyDomain).2 = none)
    (hf : (RecordsPeriodDomain start «end»
      (if policyDomain ≠ "" then (ParseDomain policyDomain).1 else dns.Domain.zero)).2 = none) :
    Admin.TLSReports Slice ParseDomain RecordsPeriodDomain start «end» policyDomain =
      Except.ok (Slice tlsReportsLess (RecordsPeriodDomain start «end»
        (if policyDomain ≠ "" then (ParseDomain policyDomain).1 else dns.Domain.zero)).1) := by
  unfold Admin.TLSReports
  by_cases he : policyDomain = ""
  · simp only [he, ne_eq, not_true_eq_false, if_false] at hf ⊢
    simp [hf, xcheckf]
  · have hp2 : (ParseDomain policyDomain).2 = none := hp.resolve_left he
    simp only [ne_eq, he, not_false_eq_true, if_true] at hf ⊢
    simp [hp2, hf, xcheckf, xcheckuserf]

/-- For every result set fetched from the database, `Admin.TLSReports` returns a
permutation of the fetched records. -/
theorem TLSReports_perm
    (Slice : (tlsrptdb.TLSReportRecord → tlsrptdb.TLSReportRecord → Bool) →
      List tlsrptdb.TLSReportRecord → List tlsrptdb.TLSReportRecord)
    (ParseDomain : String → dns.Domain × Option GoError)
    (RecordsPeriodDomain : time.Time → time.Time → dns.Domain →
      List tlsrptdb.TLSReportRecord × Option GoError)
    (start «end» : time.Time) (policyDomain : String)
    (hS : sort.SliceSpec Slice)
    (hp : policyDomain = "" ∨ (ParseDomain policyDomain).2 = none)
    (hf : (RecordsPeriodDomain start «end»
      (if policyDomain ≠ "" then (ParseDomain policyDomain).1 else dns.Domain.zero)).2 = none) :
    ∃ reports,
      Admin.TLSReports Slice ParseDomain RecordsPeriodDomain start «end» policyDomain =
        Except.ok reports ∧
      reports.Perm (RecordsPeriodDomain start «end»
        (if policyDomain ≠ "" then (ParseDomain policyDomain).1 else dns.Domain.zero)).1 :=
  ⟨_, TLSReports_ok Slice ParseDomain RecordsPeriodDomain start «end» policyDomain hp hf,
    (hS tlsReportsLess _).1⟩

/-- For every result set fetched from the database, `Admin.DMARCReports` returns a
permutation of the fetched records in which an earlier record has a later period end
than a later record, or the same period end and a domain that is not greater. -/
theorem DMARCReports_sorted
    (Slice : (dmarcdb.DomainFeedback → dmarcdb.DomainFeedback → Bool) →
      List dmarcdb.DomainFeedback → List dmarcdb.DomainFeedback)
    (RecordsPeriodDomain : time.Time → time.Time → String →
      List dmarcdb.DomainFeedback × Option GoError)
    (start «end» : time.Time) (domain : String)
    (hS : sort.SliceSpec Slice)
    (hf : (RecordsPeriodDomain start «end» domain).2 = none) :
    ∃ reports,
      Admin.DMARCReports Slice RecordsPeriodDomain start «end» domain = Except.ok reports ∧
      reports.Perm (RecordsPeriodDomain start «end» domain).1 ∧
      List.Pairwise (fun a b =>
        a.ReportMetadata.DateRange.End > b.ReportMetadata.DateRange.End ∨
          (a.ReportMetadata.DateRange.End = b.ReportMetadata.DateRange.End ∧
            a.Domain ≤ b.Domain))
        reports := by
  refine ⟨Slice dmarcReportsLess (RecordsPeriodDomain start «end» domain).1, ?_, ?_, ?_⟩
  · unfold Admin.DMARCReports
    simp [hf, xcheckf]
  · exact (hS dmarcReportsLess _).1
  · have hto : sort.TransitiveOrdering dmarcReportsLess :=
      sort.transitiveOrdering_end_domain
        (fun r : dmarcdb.DomainFeedback => r.ReportMetadata.DateRange.End) (fun r => r.Domain)
    have hs := (hS dmarcReportsLess (RecordsPeriodDomain start «end» domain).1).2 hto
    exact sort.pairwise_end_domain
      (fun r : dmarcdb.DomainFeedback => r.ReportMetadata.DateRange.End)
      (fun r => r.Domain) _ hs

/-- The example DMARC reports, sorted by insertion sort: the report with period end
300 comes first, then those with period end 200, `a.example` before `b.example`. -/
theorem DMARCReports_example :
    Admin.DMARCReports sort.exampleSlice (fun _ _ _ => (exampleDMARCReports, none))
        0 1000 "" =
      Except.ok [⟨3, "b.example", ⟨⟨200, 300⟩⟩,
          [⟨⟨4, ⟨dmarcrpt.Disposition.DispositionReject, dmarcrpt.DMARCResult.DMARCFail,
            dmarcrpt.DMARCResult.other, [⟨"forwarded"⟩]⟩⟩⟩]⟩,
        ⟨2, "a.example", ⟨⟨100, 200⟩⟩, []⟩, ⟨1, "b.example", ⟨⟨100, 200⟩⟩, []⟩] := by
  have h1 : ¬ (("b.example" : String) < "a.example") := by
    rw [String.lt_iff_toList_lt]; decide
  have h2 : (("a.example" : String) < "b.example") := by
    rw [String.lt_iff_toList_lt]; decide
  simp [Admin.DMARCReports, xcheckf, sort.exampleSlice, exampleDMARCReports,
    dmarcReportsLess, List.insertionSort, List.orderedInsert, h1, h2]

/-- The example TLS reports, whose period ends are all in UTC, sorted by insertion
sort: the report with period end 300 comes first, then those with period end 200,
`a.example` before `b.example`. -/
theorem TLSReports_example :
    Admin.TLSReports sort.exampleSlice exampleParseDomain
        (fun _ _ _ => (exampleTLSReports, none)) 0 1000 "" =
      Except.ok [⟨3, "c.example", ⟨⟨200, 300⟩, [⟨⟨5, 1⟩, [⟨"starttls-not-supported", 1⟩]⟩]⟩⟩,
        ⟨2, "a.example", ⟨⟨100, 200⟩, []⟩⟩, ⟨1, "b.example", ⟨⟨100, 200⟩, []⟩⟩] := by
  have h1 : ¬ (("b.example" : String) < "a.example") := by
    rw [String.lt_iff_toList_lt]; decide
  have h2 : (("a.example" : String) < "b.example") := by
    rw [String.lt_iff_toList_lt]; decide
  have h3 : (300 : time.Time) ≠ 200 := by decide
  have h4 : time.Time.After 300 200 = true := by decide
  simp [Admin.TLSReports, xcheckf, sort.exampleSlice, exampleTLSReports, tlsReportsLess,
    List.insertionSort, List.orderedInsert, h1, h2, h3, h4]

/-- The `less` closure of `Admin.TLSReports` is not a transitive ordering: an end in
another location at the same instant is told apart from neither of two equal ends,
which the domains tell apart. -/
theorem tlsReportsLess_not_transitiveOrdering :
    ¬ sort.TransitiveOrdering tlsReportsLess := by
  intro h
  have h2 : (("a.example" : String) < "b.example") := by
    rw [String.lt_iff_toList_lt]; decide
  have hac : tlsReportsLess ⟨3, "a.example", ⟨⟨1704067200000000000, exampleEndUTC⟩, []⟩⟩
      ⟨2, "c.example", ⟨⟨1704067200000000000, exampleEndEast⟩, []⟩⟩ = false := by
    decide
  have hcb : tlsReportsLess ⟨2, "c.example", ⟨⟨1704067200000000000, exampleEndEast⟩, []⟩⟩
      ⟨1, "b.example", ⟨⟨1704067200000000000, exampleEndUTC⟩, []⟩⟩ = false := by
    decide
  have hab : tlsReportsLess ⟨3, "a.example", ⟨⟨1704067200000000000, exampleEndUTC⟩, []⟩⟩
      ⟨1, "b.example", ⟨⟨1704067200000000000, exampleEndUTC⟩, []⟩⟩ = true := by
    simp [tlsReportsLess, h2]
  have := h.2.2 _ _ _ hac hcb
  rw [hab] at this
  exact Bool.noConfusion this

/-- C15 (the code at a failing input): the period ends `2024-01-01T23:59:59Z` and
`2024-01-02T00:59:59+01:00` are the same instant and are not `==`, so the `less`
closure of `Admin.TLSReports` is false both ways on two records with these ends and
the domain is not compared: the records fetched in the order `b.example`,
`a.example` are returned in that order.  Fetched in the order `b.example`,
`c.example`, `a.example`, with the end of `c.example` in the other location, three
records are returned in that order, `b.example` before `a.example`, whose ends are
`==`. -/
theorem C15_TLSReports_same_instant_not_by_domain :
    (exampleEndUTC.Equal exampleEndEast = true ∧ exampleEndUTC ≠ exampleEndEast ∧
      exampleEndUTC.After exampleEndEast = false ∧
      exampleEndEast.After exampleEndUTC = false) ∧
    (tlsReportsLess ⟨1, "b.example", ⟨⟨1704067200000000000, exampleEndUTC⟩, []⟩⟩
        ⟨2, "a.example", ⟨⟨1704067200000000000, exampleEndEast⟩, []⟩⟩ = false ∧
      tlsReportsLess ⟨2, "a.example", ⟨⟨1704067200000000000, exampleEndEast⟩, []⟩⟩
        ⟨1, "b.example", ⟨⟨1704067200000000000, exampleEndUTC⟩, []⟩⟩ = false) ∧
    Admin.TLSReports sort.exampleSlice exampleParseDomain
        (fun _ _ _ => (exampleSameInstantReports, none))
        1704067200000000000 1704240000000000000 "" =
      Except.ok [⟨1, "b.example", ⟨⟨1704067200000000000, exampleEndUTC⟩, []⟩⟩,
        ⟨2, "a.example", ⟨⟨1704067200000000000, exampleEndEast⟩, []⟩⟩] ∧
    Admin.TLSReports sort.exampleSlice exampleParseDomain
        (fun _ _ _ => (exampleSameEndReports, none))
        1704067200000000000 1704240000000000000 "" =
      Except.ok [⟨1, "b.example", ⟨⟨1704067200000000000, exampleEndUTC⟩, []⟩⟩,
        ⟨2, "c.example", ⟨⟨1704067200000000000, exampleEndEast⟩, []⟩⟩,
        ⟨3, "a.example", ⟨⟨1704067200000000000, exampleEndUTC⟩, []⟩⟩] ∧
    ¬ (("b.example" : String) ≤ "a.example") := by
  have h2 : (("a.example" : String) < "b.example") := by
    rw [String.lt_iff_toList_lt]; decide
  refine ⟨by decide, ⟨by decide, by decide⟩, ?_, ?_, not_le.2 h2⟩
  · simp [Admin.TLSReports, xcheckf, sort.exampleSlice, exampleSameInstantReports,
      tlsReportsLess, time.Time.After, exampleEndUTC, exampleEndEast, List.insertionSort,
      List.orderedInsert]
  · simp [Admin.TLSReports, xcheckf, sort.exampleSlice, exampleSameEndReports,
      tlsReportsLess, time.Time.After, exampleEndUTC, exampleEndEast, List.insertionSort,
      List.orderedInsert]

end webadmin

/-! ## Go library: maps -/

namespace gomap

theorem has_iff {K V : Type} [DecidableEq K] (m : Map K V) (k : K) :
    has m k = true ↔ k ∈ m.map Prod.fst := by
  simp only [has, List.any_eq_true, decide_eq_true_eq, List.mem_map]

/-- The keys after `m[k] = v`: the same keys when `k` is in the map, else one more. -/
theorem set_keys {K V : Type} [DecidableEq K] (m : Map K V) (k : K) (v : V) :
    (set m k v).map Prod.fst =
      if has m k = true then m.map Prod.fst else m.map Prod.fst ++ [k] := by
  unfold set
  by_cases h : has m k = true
  · simp only [h, if_true, List.map_map]
    apply List.map_congr_left
    intro p _
    by_cases hp : p.1 = k <;> simp [hp]
  · simp [h]

theorem set_mem_keys {K V : Type} [DecidableEq K] (m : Map K V) (k : K) (v : V) (x : K) :
    x ∈ (set m k v).map Prod.fst ↔ (x ∈ m.map Prod.fst ∨ x = k) := by
  rw [set_keys]
  by_cases h : has m k = true
  · rw [if_pos h]
    constructor
    · exact Or.inl
    · rintro (hx | rfl)
      · exact hx
      · exact (has_iff m x).1 h
  · rw [if_neg h]
    simp

theorem set_nodup {K V : Type} [DecidableEq K] (m : Map K V) (k : K) (v : V)
    (hm : (m.map Prod.fst).Nodup) : ((set m k v).map Prod.fst).Nodup := by
  rw [set_keys]
  by_cases h : has m k = true
  · rw [if_pos h]
    exact hm
  · rw [if_neg h]
    have hk : k ∉ m.map Prod.fst := fun hk => h ((has_iff m k).2 hk)
    rw [List.nodup_append]
    refine ⟨hm, List.nodup_singleton k, ?_⟩
    intro a ha hb
    rw [List.mem_singleton] at hb
    exact hk (hb ▸ ha)

/-- A property of the entries that holds before `m[k] = v` and of `k` and `v` holds
after it. -/
theorem set_forall {K V : Type} [DecidableEq K] (P : K → V → Prop) (m : Map K V) (k : K)
    (v : V) (hm : ∀ p ∈ m, P p.1 p.2) (hkv : P k v) : ∀ p ∈ set m k v, P p.1 p.2 := by
  intro p hp
  unfold set at hp
  by_cases h : has m k = true
  · rw [if_pos h, List.mem_map] at hp
    obtain ⟨q, hq, rfl⟩ := hp
    by_cases hqk : q.1 = k
    · simpa [hqk] using hkv
    · simpa [hqk] using hm q hq
  · rw [if_neg h, List.mem_append, List.mem_singleton] at hp
    rcases hp with hp | rfl
    · exact hm p hp
    · exact hkv

end gomap

/-! ## `webadmin`: summaries -/

namespace webadmin

theorem foldl_tlsrptAddDetails_domain (l : List tlsrpt.FailureDetails) (sum : TLSRPTSummary) :
    (l.foldl tlsrptAddDetails sum).PolicyDomain = sum.PolicyDomain := by
  induction l generalizing sum with
  | nil => rfl
  | cons d l ih => rw [List.foldl_cons, ih]; rfl

theorem foldl_tlsrptAddResult_domain (l : List tlsrpt.Result) (sum : TLSRPTSummary) :
    (l.foldl tlsrptAddResult sum).PolicyDomain = sum.PolicyDomain := by
  induction l generalizing sum with
  | nil => rfl
  | cons r l ih =>
    rw [List.foldl_cons, ih]
    unfold tlsrptAddResult
    rw [foldl_tlsrptAddDetails_domain]

/-- The map `summaries` of `Admin.TLSRPTSummaries` after the loop, when every domain
of a report parses: the keys are distinct, they are the keys on entry and the parsed
domains of the reports, and every summary has its key as policy domain. -/
theorem tlsrptSummariesLoop_spec (ParseDomain : String → dns.Domain × Option GoError)
    (reports : List tlsrptdb.TLSReportRecord) :
    ∀ (m : gomap.Map dns.Domain TLSRPTSummary),
      (∀ r ∈ reports, (ParseDomain r.Domain).2 = none) →
      ∃ res, tlsrptSummariesLoop ParseDomain reports m = Except.ok res ∧
        ((m.map Prod.fst).Nodup → (res.map Prod.fst).Nodup) ∧
        (∀ k, k ∈ res.map Prod.fst ↔
          (k ∈ m.map Prod.fst ∨ ∃ r ∈ reports, (ParseDomain r.Domain).1 = k)) ∧
        ((∀ p ∈ m, p.2.PolicyDomain = p.1) → ∀ p ∈ res, p.2.PolicyDomain = p.1) := by
  induction reports with
  | nil =>
    intro m _
    exact ⟨m, rfl, id, fun k => by simp, id⟩
  | cons r rest ih =>
    intro m hparse
    have hr : (ParseDomain r.Domain).2 = none := hparse r (List.mem_cons_self _ _)
    obtain ⟨res, hres, hnd, hkeys, hdom⟩ :=
      ih (gomap.set m (ParseDomain r.Domain).1
        (r.Report.Policies.foldl tlsrptAddResult
          { gomap.get TLSRPTSummary.zero m (ParseDomain r.Domain).1 with
            PolicyDomain := (ParseDomain r.Domain).1 }))
        (fun x hx => hparse x (List.mem_cons_of_mem _ hx))
    refine ⟨res, ?_, ?_, ?_, ?_⟩
    · rw [← hres]
      simp only [tlsrptSummariesLoop, hr, xcheckf]
    · intro hm
      exact hnd (gomap.set_nodup m _ _ hm)
    · intro k
      rw [hkeys k, gomap.set_mem_keys]
      constructor
      · rintro ((hk | hk) | ⟨x, hx, hxk⟩)
        · exact Or.inl hk
        · exact Or.inr ⟨r, List.mem_cons_self _ _, hk.symm⟩
        · exact Or.inr ⟨x, List.mem_cons_of_mem _ hx, hxk⟩
      · rintro (hk | ⟨x, hx, hxk⟩)
        · exact Or.inl (Or.inl hk)
        · rcases List.mem_cons.1 hx with rfl | hx
          · exact Or.inl (Or.inr hxk.symm)
          · exact Or.inr ⟨x, hx, hxk⟩
    · intro hm
      apply hdom
      apply gomap.set_forall (fun k v => v.PolicyDomain = k) m _ _ hm
      rw [foldl_tlsrptAddResult_domain]

theorem foldl_dmarcAddReason_domain (n : Int) (l : List dmarcrpt.PolicyOverrideReason)
    (sum : DMARCSummary) : (l.foldl (dmarcAddReason n) sum).Domain = sum.Domain := by
  induction l generalizing sum with
  | nil => rfl
  | cons d l ih => rw [List.foldl_cons, ih]; rfl

theorem dmarcAddRecord_domain (sum : DMARCSummary) (record : dmarcrpt.ReportRecord) :
    (dmarcAddRecord sum record).Domain = sum.Domain := by
  unfold dmarcAddRecord
  rw [foldl_dmarcAddReason_domain]
  cases record.Row.PolicyEvaluated.Disposition <;>
    cases record.Row.PolicyEvaluated.DKIM <;>
    cases record.Row.PolicyEvaluated.SPF <;> rfl

theorem foldl_dmarcAddRecord_domain (l : List dmarcrpt.ReportRecord) (sum : DMARCSummary) :
    (l.foldl dmarcAddRecord sum).Domain = sum.Domain := by
  induction l generalizing sum with
  | nil => rfl
  | cons r l ih => rw [List.foldl_cons, ih, dmarcAddRecord_domain]

/-- The map `summaries` of `Admin.DMARCSummaries` after the loop: the keys are
distinct, they are the keys on entry and the domains of the reports, and every
summary has its key as domain. -/
theorem dmarcSummariesLoop_spec (reports : List dmarcdb.DomainFeedback) :
    ∀ (m : gomap.Map String DMARCSummary),
      ((m.map Prod.fst).Nodup → ((dmarcSummariesLoop reports m).map Prod.fst).Nodup) ∧
        (∀ k, k ∈ (dmarcSummariesLoop reports m).map Prod.fst ↔
          (k ∈ m.map Prod.fst ∨ ∃ r ∈ reports, r.Domain = k)) ∧
        ((∀ p ∈ m, p.2.Domain = p.1) →
          ∀ p ∈ dmarcSummariesLoop reports m, p.2.Domain = p.1) := by
  induction reports with
  | nil =>
    intro m
    exact ⟨id, fun k => by simp [dmarcSummariesLoop], id⟩
  | cons r rest ih =>
    intro m
    obtain ⟨hnd, hkeys, hdom⟩ :=
      ih (gomap.set m r.Domain
        (r.Records.foldl dmarcAddRecord
          { gomap.get DMARCSummary.zero m r.Domain with Domain := r.Domain }))
    refine ⟨?_, ?_, ?_⟩
    · intro hm
      exact hnd (gomap.set_nodup m _ _ hm)
    · intro k
      simp only [dmarcSummariesLoop]
      rw [hkeys k, gomap.set_mem_keys]
      constructor
      · rintro ((hk | hk) | ⟨x, hx, hxk⟩)
        · exact Or.inl hk
        · exact Or.inr ⟨r, List.mem_cons_self _ _, hk.symm⟩
        · exact Or.inr ⟨x, List.mem_cons_of_mem _ hx, hxk⟩
      · rintro (hk | ⟨x, hx, hxk⟩)
        · exact Or.inl (Or.inl hk)
        · rcases List.mem_cons.1 hx with rfl | hx
          · exact Or.inl (Or.inr hxk.symm)
          · exact Or.inr ⟨x, hx, hxk⟩
    · intro hm
      apply hdom
      apply gomap.set_forall (fun k v => v.Domain = k) m _ _ hm
      rw [foldl_dmarcAddRecord_domain]

/-- The values of a map whose entries carry their key, visited in any order and then
sorted: the carried keys are a permutation of the keys of the map. -/
theorem summaries_keys_perm {K V : Type} (key : V → K) (m : gomap.Map K V)
    (rangeOrder : gomap.Map K V → List (K × V)) (Slice : (V → V → Bool) → List V → List V)
    (less : V → V → Bool) (hr : gomap.RangeSpec rangeOrder) (hs : sort.SliceSpec Slice)
    (hm : ∀ p ∈ m, key p.2 = p.1) :
    ((Slice less ((rangeOrder m).map (fun kv => kv.2))).map key).Perm (m.map Prod.fst) := by
  have h1 : ((Slice less ((rangeOrder m).map (fun kv => kv.2))).map key).Perm
      (((rangeOrder m).map (fun kv => kv.2)).map key) := ((hs less _).1).map key
  have h2 : ((rangeOrder m).map (fun kv => kv.2)).map key = (rangeOrder m).map Prod.fst := by
    rw [List.map_map]
    apply List.map_congr_left
    intro p hp
    exact hm p ((hr m).mem_iff.1 hp)
  rw [h2] at h1
  exact h1.trans ((hr m).map Prod.fst)

/-- C16: `Admin.TLSRPTSummaries` and `Admin.DMARCSummaries` return one summary for
each distinct domain that occurs in the fetched reports and none for other domains
(the domains of the summaries are pairwise distinct, and a domain has a summary if
and only if it is the domain of a fetched report), and the returned list is in
ascending order of the domain name. -/
theorem C16_summaries_by_domain
    (SliceT : (TLSRPTSummary → TLSRPTSummary → Bool) → List TLSRPTSummary → List TLSRPTSummary)
    (rangeT : gomap.Map dns.Domain TLSRPTSummary → List (dns.Domain × TLSRPTSummary))
    (SliceD : (DMARCSummary → DMARCSummary → Bool) → List DMARCSummary → List DMARCSummary)
    (rangeD : gomap.Map String DMARCSummary → List (String × DMARCSummary))
    (ParseDomain : String → dns.Domain × Option GoError)
    (RecordsT : time.Time → time.Time → dns.Domain →
      List tlsrptdb.TLSReportRecord × Option GoError)
    (RecordsD : time.Time → time.Time → String →
      List dmarcdb.DomainFeedback × Option GoError)
    (start «end» : time.Time) (domain : String)
    (hST : sort.SliceSpec SliceT) (hRT : gomap.RangeSpec rangeT)
    (hSD : sort.SliceSpec SliceD) (hRD : gomap.RangeSpec rangeD) :
    ((domain = "" ∨ (ParseDomain domain).2 = none) →
      (RecordsT start «end»
        (if domain ≠ "" then (ParseDomain domain).1 else dns.Domain.zero)).2 = none →
      (∀ r ∈ (RecordsT start «end»
          (if domain ≠ "" then (ParseDomain domain).1 else dns.Domain.zero)).1,
        (ParseDomain r.Domain).2 = none) →
      ∃ sums,
        Admin.TLSRPTSummaries SliceT rangeT ParseDomain RecordsT start «end» domain =
          Except.ok sums ∧
        (sums.map (fun sum => sum.PolicyDomain)).Nodup ∧
        (∀ dom, dom ∈ sums.map (fun sum => sum.PolicyDomain) ↔
          ∃ r ∈ (RecordsT start «end»
              (if domain ≠ "" then (ParseDomain domain).1 else dns.Domain.zero)).1,
            (ParseDomain r.Domain).1 = dom) ∧
        List.Pairwise (fun a b => a.PolicyDomain.Name ≤ b.PolicyDomain.Name) sums) ∧
    ((RecordsD start «end» domain).2 = none →
      ∃ sums,
        Admin.DMARCSummaries SliceD rangeD RecordsD start «end» domain = Except.ok sums ∧
        (sums.map (fun sum => sum.Domain)).Nodup ∧
        (∀ dom, dom ∈ sums.map (fun sum => sum.Domain) ↔
          ∃ r ∈ (RecordsD start «end» domain).1, r.Domain = dom) ∧
        List.Pairwise (fun a b => a.Domain ≤ b.Domain) sums) := by
  constructor
  · intro hp hf hparse
    obtain ⟨res, hres, hnd, hkeys, hdom⟩ :=
      tlsrptSummariesLoop_spec ParseDomain _ [] hparse
    have hperm := summaries_keys_perm (fun sum : TLSRPTSummary => sum.PolicyDomain) res rangeT
      SliceT (fun a b => decide (a.PolicyDomain.Name < b.PolicyDomain.Name)) hRT hST
      (hdom (by simp))
    refine ⟨SliceT (fun a b => decide (a.PolicyDomain.Name < b.PolicyDomain.Name))
      ((rangeT res).map (fun kv => kv.2)), ?_, ?_, ?_, ?_⟩
    · unfold Admin.TLSRPTSummaries
      by_cases he : domain = ""
      · simp only [he, ne_eq, not_true_eq_false, if_false] at hf hres ⊢
        simp only [hf, xcheckf, hres]
      · have hp2 : (ParseDomain domain).2 = none := hp.resolve_left he
        simp only [ne_eq, he, not_false_eq_true, if_true] at hf hres ⊢
        simp only [hp2, xcheckuserf, hf, xcheckf, hres]
    · exact hperm.nodup_iff.2 (hnd (by simp))
    · intro dom
      rw [hperm.mem_iff, hkeys dom]
      simp
    · have hs := (hST (fun a b => decide (a.PolicyDomain.Name < b.PolicyDomain.Name))
        ((rangeT res).map (fun kv => kv.2))).2
        (sort.transitiveOrdering_name (fun sum : TLSRPTSummary => sum.PolicyDomain.Name))
      refine hs.imp ?_
      intro a b hba
      simpa using hba
  · intro hf
    obtain ⟨hnd, hkeys, hdom⟩ := dmarcSummariesLoop_spec (RecordsD start «end» domain).1 []
    have hperm := summaries_keys_perm (fun sum : DMARCSummary => sum.Domain)
      (dmarcSummariesLoop (RecordsD start «end» domain).1 []) rangeD
      SliceD (fun a b => decide (a.Domain < b.Domain)) hRD hSD (hdom (by simp))
    refine ⟨SliceD (fun a b => decide (a.Domain < b.Domain))
      ((rangeD (dmarcSummariesLoop (RecordsD start «end» domain).1 [])).map
        (fun kv => kv.2)), ?_, ?_, ?_, ?_⟩
    · unfold Admin.DMARCSummaries
      simp only [hf, xcheckf]
    · exact hperm.nodup_iff.2 (hnd (by simp))
    · intro dom
      rw [hperm.mem_iff, hkeys dom]
      simp
    · have hs := (hSD (fun a b => decide (a.Domain < b.Domain))
        ((rangeD (dmarcSummariesLoop (RecordsD start «end» domain).1 [])).map
          (fun kv => kv.2))).2
        (sort.transitiveOrdering_name (fun sum : DMARCSummary => sum.Domain))
      refine hs.imp ?_
      intro a b hba
      simpa using hba

/-- Witness of C16: the example DMARC reports have the domains `b.example`,
`a.example` and `b.example` again: there are summaries for exactly `a.example` and
`b.example`, each once. -/
theorem C16_summaries_by_domain_witness :
    ∃ sums,
      Admin.DMARCSummaries sort.exampleSlice List.reverse
          (fun _ _ _ => (exampleDMARCReports, none)) 0 1000 "" = Except.ok sums ∧
        (sums.map (fun sum => sum.Domain)).Nodup ∧
        (∀ dom, dom ∈ sums.map (fun sum => sum.Domain) ↔
          ∃ r ∈ exampleDMARCReports, r.Domain = dom) ∧
        List.Pairwise (fun a b => a.Domain ≤ b.Domain) sums :=
  (C16_summaries_by_domain sort.exampleSlice List.reverse sort.exampleSlice List.reverse
    exampleParseDomain (fun _ _ _ => (exampleTLSReports, none))
    (fun _ _ _ => (exampleDMARCReports, none)) 0 1000 ""
    sort.exampleSlice_spec (fun m => List.reverse_perm m)
    sort.exampleSlice_spec (fun m => List.reverse_perm m)).2 rfl

end webadmin

/-! ## Package `tlsrpt`: lemmas about the parts of the parser -/

namespace tlsrpt

theorem takeWhile_append_stop (p : Char → Bool) (u rest : List Char)
    (hu : ∀ c ∈ u, p c = true) (hr : ∀ c ∈ rest.head?, p c = false) :
    (u ++ rest).takeWhile p = u := by
  induction u with
  | nil =>
    cases rest with
    | nil => rfl
    | cons c t =>
      have := hr c (by simp)
      simp [List.takeWhile, this]
  | cons a u ih =>
    have ha : p a = true := hu a (List.mem_cons_self _ _)
    simp only [List.cons_append, List.takeWhile_cons, ha, if_true]
    rw [ih (fun c hc => hu c (List.mem_cons_of_mem _ hc))]

theorem dropWhile_append_stop (p : Char → Bool) (u rest : List Char)
    (hu : ∀ c ∈ u, p c = true) (hr : ∀ c ∈ rest.head?, p c = false) :
    (u ++ rest).dropWhile p = rest := by
  induction u with
  | nil =>
    cases rest with
    | nil => rfl
    | cons c t =>
      have := hr c (by simp)
      simp [List.dropWhile, this]
  | cons a u ih =>
    have ha : p a = true := hu a (List.mem_cons_self _ _)
    simp only [List.cons_append, List.dropWhile_cons, ha, if_true]
    rw [ih (fun c hc => hu c (List.mem_cons_of_mem _ hc))]

/-- Skipping white space skips a white space prefix. -/
theorem wsp_append (pre rest : List Char) (hpre : allWSP pre)
    (hr : ∀ c ∈ rest.head?, isWSP c = false) : wsp (pre ++ rest) = rest :=
  dropWhile_append_stop isWSP pre rest hpre hr

theorem wsp_nil : wsp [] = [] := rfl

theorem wsp_semicolon (t : List Char) : wsp (';' :: t) = ';' :: t := by
  have h : isWSP ';' = false := by decide
  simp [wsp, List.dropWhile, h]

theorem wsp_comma (t : List Char) : wsp (',' :: t) = ',' :: t := by
  have h : isWSP ',' = false := by decide
  simp [wsp, List.dropWhile, h]

/-- An input is split into the white space at its start and the rest. -/
theorem wsp_split (l : List Char) :
    ∃ a, allWSP a ∧ l = a ++ wsp l ∧ ∀ c ∈ (wsp l).head?, isWSP c = false := by
  refine ⟨l.takeWhile isWSP, ?_, ?_, ?_⟩
  · intro c hc
    exact List.mem_takeWhile_imp hc
  · exact (List.takeWhile_append_dropWhile isWSP l).symm
  · intro c hc
    unfold wsp at hc
    cases hd : l.dropWhile isWSP with
    | nil => rw [hd] at hc; simp at hc
    | cons x t =>
      rw [hd] at hc
      simp only [List.head?_cons, Option.mem_def, Option.some.injEq] at hc
      subst hc
      have := List.head_dropWhile_not isWSP l (by rw [hd]; simp)
      simpa [hd] using this

theorem isAlnum_not_wsp (c : Char) (h : isAlnum c = true) : isWSP c = false := by
  by_contra hw
  rw [Bool.not_eq_false] at hw
  simp only [isWSP, Bool.or_eq_true, decide_eq_true_eq] at hw
  rcases hw with rfl | rfl <;> exact absurd h (by decide)

theorem isAlnum_isKeyChar (c : Char) (h : isAlnum c = true) : isKeyChar c = true := by
  simp [isKeyChar, h]

theorem isURIChar_not_wsp (c : Char) (h : isURIChar c = true) : isWSP c = false := by
  simp only [isURIChar, Bool.not_eq_true', Bool.or_eq_false_iff] at h
  exact h.2

theorem isWSP_not_uri (c : Char) (h : isWSP c = true) : isURIChar c = false := by
  simp [isURIChar, h]

theorem isWSP_not_value (c : Char) (h : isWSP c = true) : isValueChar c = false := by
  simp only [isWSP, Bool.or_eq_true, decide_eq_true_eq] at h
  rcases h with rfl | rfl <;> decide

/-- The text of a field starts with a letter or digit. -/
theorem renderField_head (uriOK : String → Bool) (f : FieldSyn) (hf : f.WF uriOK)
    (rest : List Char) :
    ∃ c t, renderField f ++ rest = c :: t ∧ isAlnum c = true := by
  cases f with
  | rua first after more => exact ⟨'r', _, rfl, by decide⟩
  | ext key value =>
    obtain ⟨⟨⟨c, body, hk, hc, _⟩, _, _⟩, _⟩ := hf
    refine ⟨c, body ++ '=' :: value ++ rest, ?_, hc⟩
    simp [renderField, hk]

/-- Taking a literal text that is there. -/
theorem takePrefix_append (p l : List Char) : takePrefix p (p ++ l) = some l := by
  induction p with
  | nil => rfl
  | cons c p ih => simp [takePrefix, ih]

theorem takePrefix_some (p l r : List Char) (h : takePrefix p l = some r) : l = p ++ r := by
  induction p generalizing l with
  | nil =>
    simp only [takePrefix, Option.some.injEq] at h
    simp [h]
  | cons c p ih =>
    cases l with
    | nil => simp [takePrefix] at h
    | cons x l =>
      simp only [takePrefix] at h
      split_ifs at h with hx
      subst hx
      rw [ih l h]
      rfl

/-- A separator that is there, followed by something that does not start with white
space. -/
theorem delim_render (a b rest : List Char) (ha : allWSP a) (hb : allWSP b)
    (hr : ∀ c ∈ rest.head?, isWSP c = false) :
    delim (a ++ ';' :: (b ++ rest)) = some rest := by
  have h1 : wsp (a ++ ';' :: (b ++ rest)) = ';' :: (b ++ rest) :=
    wsp_append a _ ha (by intro c hc; simp at hc; subst hc; decide)
  simp only [delim, h1]
  rw [wsp_append b rest hb hr]

theorem delim_nil : delim [] = none := rfl

theorem delim_some (l l1 : List Char) (h : delim l = some l1) :
    ∃ a b, allWSP a ∧ allWSP b ∧ l = a ++ ';' :: (b ++ l1) ∧
      ∀ c ∈ l1.head?, isWSP c = false := by
  obtain ⟨a, ha, hl, _⟩ := wsp_split l
  unfold delim at h
  cases hw : wsp l with
  | nil => rw [hw] at h; simp at h
  | cons x t =>
    rw [hw] at h
    by_cases hx : x = ';'
    · subst hx
      simp only [Option.some.injEq] at h
      obtain ⟨b, hb, ht, hh⟩ := wsp_split t
      refine ⟨a, b, ha, hb, ?_, ?_⟩
      · rw [hl, hw, ← h, ← ht]
      · rw [← h]; exact hh
    · exfalso
      revert h
      split
      · rename_i r heq
        intro _
        exact hx (List.cons.inj heq).1
      · intro h
        simp at h

/-- Taking a field name that is there, followed by `=`. -/
theorem takeKey_render (c : Char) (body rest : List Char) (hc : isAlnum c = true)
    (hbody : ∀ x ∈ body, isKeyChar x = true) (hlen : (c :: body).length ≤ 32) :
    takeKey ((c :: body) ++ '=' :: rest) = some (c :: body, '=' :: rest) := by
  have hstop : ∀ x ∈ ('=' :: rest).head?, isKeyChar x = false := by
    intro x hx
    simp at hx
    subst hx
    decide
  have htw : (body ++ '=' :: rest).takeWhile isKeyChar = body :=
    takeWhile_append_stop isKeyChar body _ hbody hstop
  have hl : body.length ≤ 31 := by
    simp only [List.length_cons] at hlen
    omega
  simp only [takeKey, List.cons_append, hc, if_true, htw, List.take_of_length_le hl,
    List.drop_left]

theorem takeKey_some (l k l1 : List Char) (h : takeKey l = some (k, l1)) :
    l = k ++ l1 ∧
      (∃ c body, k = c :: body ∧ isAlnum c = true ∧ ∀ x ∈ body, isKeyChar x = true) ∧
      k.length ≤ 32 := by
  cases l with
  | nil => simp [takeKey] at h
  | cons c r =>
    simp only [takeKey] at h
    split_ifs at h with hc
    simp only [Option.some.injEq, Prod.mk.injEq] at h
    obtain ⟨hk, hl1⟩ := h
    have hpre : (r.takeWhile isKeyChar).take 31 <+: r :=
      (List.take_prefix _ _).trans (List.takeWhile_prefix _)
    refine ⟨?_, ⟨c, _, hk.symm, hc, ?_⟩, ?_⟩
    · rw [← hk, ← hl1, List.cons_append]
      congr 1
      exact (List.prefix_iff_eq_append.1 hpre).symm
    · intro x hx
      exact List.mem_takeWhile_imp (List.mem_of_mem_take hx)
    · rw [← hk]
      simp only [List.length_cons, List.length_take]
      omega

/-- Taking an extension value that is there, followed by a separator or nothing. -/
theorem takeValue_render (v rest : List Char) (hv : validValue v)
    (hr : ∀ c ∈ rest.head?, isValueChar c = false) :
    takeValue (v ++ rest) = some (v, rest) := by
  simp only [takeValue, takeWhile_append_stop isValueChar v rest hv.2 hr,
    dropWhile_append_stop isValueChar v rest hv.2 hr, hv.1, if_false]

theorem takeValue_some (l v l1 : List Char) (h : takeValue l = some (v, l1)) :
    l = v ++ l1 ∧ validValue v := by
  simp only [takeValue] at h
  split_ifs at h with hv
  simp only [Option.some.injEq, Prod.mk.injEq] at h
  obtain ⟨h1, h2⟩ := h
  refine ⟨?_, ?_, ?_⟩
  · rw [← h1, ← h2, List.takeWhile_append_dropWhile]
  · rw [← h1]; exact hv
  · intro c hc
    rw [← h1] at hc
    exact List.mem_takeWhile_imp hc

/-- Taking a URI that is there, followed by a separator, white space or nothing. -/
theorem takeURI_render (uriOK : String → Bool) (u rest : List Char)
    (hu : validURI uriOK u) (hr : ∀ c ∈ rest.head?, isURIChar c = false) :
    takeURI uriOK (u ++ rest) = some (u, rest) := by
  simp only [takeURI, takeWhile_append_stop isURIChar u rest hu.2.1 hr,
    dropWhile_append_stop isURIChar u rest hu.2.1 hr, hu.1, if_false, hu.2.2, if_true]

theorem takeURI_some (uriOK : String → Bool) (l u l1 : List Char)
    (h : takeURI uriOK l = some (u, l1)) : l = u ++ l1 ∧ validURI uriOK u := by
  simp only [takeURI] at h
  split_ifs at h with hv hok
  simp only [Option.some.injEq, Prod.mk.injEq] at h
  obtain ⟨h1, h2⟩ := h
  refine ⟨?_, ?_, ?_, ?_⟩
  · rw [← h1, ← h2, List.takeWhile_append_dropWhile]
  · rw [← h1]; exact hv
  · intro c hc
    rw [← h1] at hc
    exact List.mem_takeWhile_imp hc
  · rw [← h1]; exact hok

/-- The text after a URI, a value or the white space of a separator starts with a
stop character: the further URIs of a `rua` field, then white space, then a semicolon
or the end. -/
theorem renderMore_stop (more : List (List Char × List Char × List Char))
    (post rest : List Char) (hpost : allWSP post)
    (hrest : rest = [] ∨ ∃ t, rest = ';' :: t) (pre : List Char) (hpre : allWSP pre) :
    ∀ c ∈ (pre ++ (renderMore more ++ (post ++ rest))).head?, isURIChar c = false := by
  intro c hc
  have hws : ∀ (w tl : List Char), allWSP w →
      (∀ c ∈ tl.head?, isURIChar c = false) → ∀ c ∈ (w ++ tl).head?, isURIChar c = false := by
    intro w tl hw htl c hc
    cases w with
    | nil => exact htl c hc
    | cons x w =>
      simp only [List.cons_append, List.head?_cons, Option.mem_def, Option.some.injEq] at hc
      subst hc
      exact isWSP_not_uri _ (hw _ (List.mem_cons_self _ _))
  refine hws pre _ hpre ?_ c hc
  intro c hc
  cases more with
  | nil =>
    refine hws post rest hpost ?_ c hc
    intro c hc
    rcases hrest with rfl | ⟨t, rfl⟩
    · simp at hc
    · simp at hc; subst hc; decide
  | cons x more =>
    obtain ⟨a, u, b⟩ := x
    simp [renderMore] at hc
    subst hc
    decide

/-- The further URIs of a `rua` field that are there. -/
theorem takeRUAsLoop_render (uriOK : String → Bool)
    (more : List (List Char × List Char × List Char)) :
    ∀ (fuel : Nat) (pre post rest : List Char) (acc : List String),
      (∀ x ∈ more, allWSP x.1 ∧ validURI uriOK x.2.1 ∧ allWSP x.2.2) →
      allWSP pre → allWSP post → (rest = [] ∨ ∃ t, rest = ';' :: t) →
      more.length < fuel →
      takeRUAsLoop uriOK fuel (wsp (pre ++ (renderMore more ++ (post ++ rest)))) acc =
        some (acc ++ more.map (fun x => String.mk x.2.1), rest) := by
  induction more with
  | nil =>
    intro fuel pre post rest acc _ hpre hpost hrest hfuel
    have hr : ∀ c ∈ rest.head?, isWSP c = false := by
      intro c hc
      rcases hrest with rfl | ⟨t, rfl⟩
      · simp at hc
      · simp at hc; subst hc; decide
    have h1 : wsp (pre ++ (renderMore [] ++ (post ++ rest))) = rest := by
      simp only [renderMore, List.nil_append]
      rw [← List.append_assoc]
      apply wsp_append (pre ++ post) rest _ hr
      intro c hc
      rcases List.mem_append.1 hc with h | h
      · exact hpre c h
      · exact hpost c h
    rw [h1]
    obtain ⟨n, rfl⟩ : ∃ n, fuel = n + 1 := ⟨fuel - 1, by omega⟩
    rcases hrest with rfl | ⟨t, rfl⟩
    · simp [takeRUAsLoop]
    · simp [takeRUAsLoop]
  | cons x more ih =>
    intro fuel pre post rest acc hmore hpre hpost hrest hfuel
    obtain ⟨a, u, b⟩ := x
    have hx := hmore (a, u, b) (List.mem_cons_self _ _)
    obtain ⟨n, rfl⟩ : ∃ n, fuel = n + 1 := ⟨fuel - 1, by omega⟩
    have h1 : wsp (pre ++ (renderMore ((a, u, b) :: more) ++ (post ++ rest))) =
        ',' :: (a ++ (u ++ (b ++ (renderMore more ++ (post ++ rest))))) := by
      simp only [renderMore, List.cons_append, List.append_assoc]
      rw [wsp_append pre _ hpre]
      intro c hc
      simp at hc
      subst hc
      decide
    obtain ⟨c0, u0, hu0⟩ : ∃ c0 u0, u = c0 :: u0 := by
      cases hu : u with
      | nil => exact absurd hu hx.2.1.1
      | cons c0 u0 => exact ⟨c0, u0, rfl⟩
    have h2 : wsp (a ++ (u ++ (b ++ (renderMore more ++ (post ++ rest))))) =
        u ++ (b ++ (renderMore more ++ (post ++ rest))) := by
      apply wsp_append a _ hx.1
      intro c hc
      rw [hu0] at hc
      simp at hc
      subst hc
      exact isURIChar_not_wsp _ (hx.2.1.2.1 _ (by rw [hu0]; exact List.mem_cons_self _ _))
    have h3 := takeURI_render uriOK u (b ++ (renderMore more ++ (post ++ rest))) hx.2.1
      (renderMore_stop more post rest hpost hrest b hx.2.2)
    rw [h1]
    simp only [takeRUAsLoop, h2, h3]
    rw [ih n b post rest (acc ++ [String.mk u])
      (fun y hy => hmore y (List.mem_cons_of_mem _ hy)) hx.2.2 hpost hrest
      (by simp only [List.length_cons] at hfuel; omega)]
    simp

theorem renderMore_length (more : List (List Char × List Char × List Char)) :
    more.length ≤ (renderMore more).length := by
  induction more with
  | nil => simp
  | cons x more ih =>
    obtain ⟨a, u, b⟩ := x
    simp only [renderMore, List.length_cons, List.length_append]
    omega

/-- The value of a `rua` field that is there, followed by white space and then a
semicolon or the end. -/
theorem takeRUAs_render (uriOK : String → Bool) (first after : List Char)
    (more : List (List Char × List Char × List Char)) (post rest : List Char)
    (hf : (FieldSyn.rua first after more).WF uriOK) (hpost : allWSP post)
    (hrest : rest = [] ∨ ∃ t, rest = ';' :: t) :
    takeRUAs uriOK (first ++ (after ++ (renderMore more ++ (post ++ rest)))) =
      some (String.mk first :: more.map (fun x => String.mk x.2.1), rest) := by
  obtain ⟨hfirst, hafter, hmore⟩ := hf
  have h1 := takeURI_render uriOK first (after ++ (renderMore more ++ (post ++ rest))) hfirst
    (renderMore_stop more post rest hpost hrest after hafter)
  simp only [takeRUAs, h1]
  rw [takeRUAsLoop_render uriOK more _ after post rest [String.mk first] hmore hafter hpost
    hrest]
  · simp
  · have := renderMore_length more
    simp only [List.length_append]
    omega

/-! ## Package `tlsrpt`: `ParseRecord` accepts the well-formed record texts -/

theorem addField_RUAs (rec : Record) (f : FieldSyn) :
    (addField rec f).RUAs ≠ [] ↔ (rec.RUAs ≠ [] ∨ f.isRUA = true) := by
  cases f with
  | rua first after more => simp [addField, FieldSyn.isRUA]
  | ext key value => simp [addField, FieldSyn.isRUA]

/-- A record has a list of URIs exactly when one of its fields is a `rua` field. -/
theorem foldl_addField_RUAs (fields : List FieldSyn) :
    ∀ rec : Record, (fields.foldl addField rec).RUAs ≠ [] ↔
      (rec.RUAs ≠ [] ∨ ∃ f ∈ fields, f.isRUA = true) := by
  induction fields with
  | nil => intro rec; simp
  | cons f fields ih =>
    intro rec
    rw [List.foldl_cons, ih, addField_RUAs]
    simp only [List.mem_cons, exists_eq_or_imp]
    tauto

theorem foldl_addField_Version (fields : List FieldSyn) :
    ∀ rec : Record, (fields.foldl addField rec).Version = rec.Version := by
  induction fields with
  | nil => intro rec; rfl
  | cons f fields ih =>
    intro rec
    rw [List.foldl_cons, ih]
    cases f <;> rfl

/-- One step of `parseFields` on an extension that is there. -/
theorem parseFields_ext (uriOK : String → Bool) (n : Nat) (key value tl : List Char)
    (rec : Record) (hk : validKey key) (hv : validValue value)
    (htl : ∀ c ∈ tl.head?, isValueChar c = false) :
    parseFields uriOK (n + 1) (renderField (FieldSyn.ext key value) ++ tl) rec =
      match delim tl with
      | some l4 =>
        if l4 = [] then finish (addField rec (FieldSyn.ext key value)) l4
        else parseFields uriOK n l4 (addField rec (FieldSyn.ext key value))
      | none => finish (addField rec (FieldSyn.ext key value)) tl := by
  obtain ⟨⟨c, body, hkey, hc, hbody⟩, hlen, hnr⟩ := hk
  have h1 : renderField (FieldSyn.ext key value) ++ tl = (c :: body) ++ '=' :: (value ++ tl) := by
    simp [renderField, hkey]
  have h2 := takeKey_render c body (value ++ tl) hc hbody (hkey ▸ hlen)
  have h3 := takeValue_render value tl hv htl
  have hnr2 : ¬ (c :: body = "rua".data) := hkey ▸ hnr
  rw [h1, parseFields, h2]
  simp only []
  rw [if_neg hnr2, h3]
  subst hkey
  rfl

/-- One step of `parseFields` on a `rua` field that is there. -/
theorem parseFields_rua (uriOK : String → Bool) (n : Nat) (first after : List Char)
    (more : List (List Char × List Char × List Char)) (post tl : List Char) (rec : Record)
    (hf : (FieldSyn.rua first after more).WF uriOK) (hpost : allWSP post)
    (htl : tl = [] ∨ ∃ t, tl = ';' :: t) :
    parseFields uriOK (n + 1) (renderField (FieldSyn.rua first after more) ++ (post ++ tl)) rec =
      match delim tl with
      | some l4 =>
        if l4 = [] then finish (addField rec (FieldSyn.rua first after more)) l4
        else parseFields uriOK n l4 (addField rec (FieldSyn.rua first after more))
      | none => finish (addField rec (FieldSyn.rua first after more)) tl := by
  have h1 : renderField (FieldSyn.rua first after more) ++ (post ++ tl) =
      ('r' :: ['u', 'a']) ++ '=' :: (first ++ (after ++ (renderMore more ++ (post ++ tl)))) := by
    simp [renderField]
  have h2 := takeKey_render 'r' ['u', 'a']
    (first ++ (after ++ (renderMore more ++ (post ++ tl)))) (by decide) (by decide) (by decide)
  have h3 := takeRUAs_render uriOK first after more post tl hf hpost htl
  have hr : ('r' :: ['u', 'a']) = "rua".data := rfl
  rw [h1, parseFields, h2]
  simp only [if_true, h3]
  rfl

theorem renderTail_length (rest : List (List Char × List Char × FieldSyn))
    (trailer : Option (List Char × List Char)) :
    rest.length ≤ (renderTail rest trailer).length := by
  induction rest with
  | nil => simp
  | cons x rest ih =>
    obtain ⟨a, b, f⟩ := x
    simp only [renderTail, List.length_cons, List.length_append]
    omega

theorem allWSP_not_value (w tl : List Char) (hw : allWSP w) (c : Char)
    (hc : c ∈ (w ++ ';' :: tl).head?) : isValueChar c = false := by
  cases w with
  | nil =>
    simp at hc
    subst hc
    decide
  | cons x w =>
    simp only [List.cons_append, List.head?_cons, Option.mem_def, Option.some.injEq] at hc
    subst hc
    exact isWSP_not_value _ (hw _ (List.mem_cons_self _ _))

theorem wsp_all (w : List Char) (hw : allWSP w) : wsp w = [] := by
  have := wsp_append w [] hw (by simp)
  simpa using this

theorem delim_trailer (a b : List Char) (ha : allWSP a) (hb : allWSP b) :
    delim (a ++ ';' :: b) = some [] := by
  have := delim_render a b [] ha hb (by simp)
  simpa using this

/-- The fields of a well-formed record text are parsed one after the other. -/
theorem parseFields_render (uriOK : String → Bool) (trailer : Option (List Char × List Char))
    (htr : ∀ x ∈ trailer, allWSP x.1 ∧ allWSP x.2)
    (rest : List (List Char × List Char × FieldSyn)) :
    ∀ (fuel : Nat) (f : FieldSyn) (rec : Record), f.WF uriOK →
      (∀ x ∈ rest, allWSP x.1 ∧ allWSP x.2.1 ∧ x.2.2.WF uriOK) →
      rest.length < fuel →
      parseFields uriOK fuel (renderField f ++ renderTail rest trailer) rec =
        finish ((rest.map (fun x => x.2.2)).foldl addField (addField rec f)) [] := by
  induction rest with
  | nil =>
    intro fuel f rec hf _ hfuel
    obtain ⟨n, rfl⟩ : ∃ n, fuel = n + 1 := ⟨fuel - 1, by omega⟩
    cases trailer with
    | none =>
      cases f with
      | ext key value =>
        rw [parseFields_ext uriOK n key value _ rec hf.1 hf.2 (by simp [renderTail])]
        simp [renderTail, delim_nil]
      | rua first after more =>
        have := parseFields_rua uriOK n first after more [] [] rec hf (by simp [allWSP])
          (Or.inl rfl)
        simp only [List.append_nil] at this
        simp only [renderTail, List.append_nil, this, delim_nil, List.map_nil, List.foldl_nil]
    | some ab =>
      obtain ⟨a, b⟩ := ab
      obtain ⟨ha, hb⟩ := htr (a, b) rfl
      cases f with
      | ext key value =>
        simp only [renderTail]
        rw [parseFields_ext uriOK n key value _ rec hf.1 hf.2
          (fun c hc => allWSP_not_value a b ha c hc)]
        simp [delim_trailer a b ha hb]
      | rua first after more =>
        have := parseFields_rua uriOK n first after more a (';' :: b) rec hf ha
          (Or.inr ⟨b, rfl⟩)
        have hd : delim (';' :: b) = some [] := delim_trailer [] b (by simp [allWSP]) hb
        simp only [renderTail, this, hd, if_true, List.map_nil, List.foldl_nil]
  | cons x rest ih =>
    intro fuel f rec hf hrest hfuel
    obtain ⟨a, b, g⟩ := x
    obtain ⟨ha, hb, hg⟩ := hrest (a, b, g) (List.mem_cons_self _ _)
    obtain ⟨n, rfl⟩ : ∃ n, fuel = n + 1 := ⟨fuel - 1, by omega⟩
    obtain ⟨c, t, hct, hc⟩ := renderField_head uriOK g hg (renderTail rest trailer)
    have hhead : ∀ y ∈ (renderField g ++ renderTail rest trailer).head?, isWSP y = false := by
      intro y hy
      rw [hct] at hy
      simp at hy
      subst hy
      exact isAlnum_not_wsp _ hc
    have hne : renderField g ++ renderTail rest trailer ≠ [] := by
      rw [hct]; simp
    have ih' := ih n g (addField rec f) hg
      (fun y hy => hrest y (List.mem_cons_of_mem _ hy))
      (by simp only [List.length_cons] at hfuel; omega)
    cases f with
    | ext key value =>
      simp only [renderTail]
      rw [parseFields_ext uriOK n key value _ rec hf.1 hf.2
        (fun c hc => allWSP_not_value a _ ha c hc)]
      have hd := delim_render a b (renderField g ++ renderTail rest trailer) ha hb hhead
      simp only [List.append_assoc] at hd ⊢
      simp only [hd]
      rw [if_neg hne, ih']
      rfl
    | rua first after more =>
      have := parseFields_rua uriOK n first after more a
        (';' :: (b ++ (renderField g ++ renderTail rest trailer))) rec hf ha (Or.inr ⟨_, rfl⟩)
      have hd := delim_render [] b (renderField g ++ renderTail rest trailer)
        (by simp [allWSP]) hb hhead
      simp only [List.nil_append] at hd
      simp only [renderTail, List.append_assoc] at this ⊢
      rw [this]
      simp only [hd]
      rw [if_neg hne, ih']
      rfl

/-- `ParseRecord` accepts every well-formed record text and returns the record it
stands for. -/
theorem ParseRecord_render (uriOK : String → Bool) (s : Syn) (hs : s.WF uriOK) :
    ParseRecord uriOK (String.mk s.render) = Except.ok s.record := by
  obtain ⟨hw0, hw1, hfirst, hrest, htr, hrua⟩ := hs
  obtain ⟨c, t, hct, hc⟩ := renderField_head uriOK s.first hfirst (renderTail s.rest s.trailer)
  have hhead : ∀ y ∈ (renderField s.first ++ renderTail s.rest s.trailer).head?,
      isWSP y = false := by
    intro y hy
    rw [hct] at hy
    simp at hy
    subst hy
    exact isAlnum_not_wsp _ hc
  have h1 : takePrefix "v=TLSRPTv1".data (String.mk s.render).data =
      some (s.w0 ++ ';' :: (s.w1 ++ (renderField s.first ++ renderTail s.rest s.trailer))) := by
    simp only [Syn.render, List.append_assoc]
    exact takePrefix_append _ _
  have h2 := delim_render s.w0 s.w1 (renderField s.first ++ renderTail s.rest s.trailer)
    hw0 hw1 hhead
  have h3 := parseFields_render uriOK s.trailer htr s.rest
    ((renderField s.first ++ renderTail s.rest s.trailer).length + 1) s.first
    ⟨"TLSRPTv1", [], []⟩ hfirst hrest
    (by
      have := renderTail_length s.rest s.trailer
      simp only [List.length_append]
      omega)
  have h4 : ((s.rest.map (fun x => x.2.2)).foldl addField
      (addField ⟨"TLSRPTv1", [], []⟩ s.first)).RUAs ≠ [] := by
    rw [foldl_addField_RUAs, addField_RUAs]
    rcases hrua with h | ⟨x, hx, h⟩
    · exact Or.inl (Or.inr h)
    · exact Or.inr ⟨x.2.2, List.mem_map.2 ⟨x, hx, rfl⟩, h⟩
  simp only [ParseRecord, h1, h2, h3]
  simp only [finish, ne_eq, not_true_eq_false, if_false]
  rw [if_neg h4]
  rfl

/-! ## Package `tlsrpt`: `ParseRecord` accepts only well-formed record texts -/

theorem takeRUAsLoop_some (uriOK : String → Bool) :
    ∀ (fuel : Nat) (l : List Char) (acc res : List String) (l1 : List Char),
      takeRUAsLoop uriOK fuel l acc = some (res, l1) →
      ∃ more : List (List Char × List Char × List Char),
        (∀ x ∈ more, allWSP x.1 ∧ validURI uriOK x.2.1 ∧ allWSP x.2.2) ∧
          l = renderMore more ++ l1 ∧ res = acc ++ more.map (fun x => String.mk x.2.1) := by
  intro fuel
  induction fuel with
  | zero => intro l acc res l1 h; simp [takeRUAsLoop] at h
  | succ n ih =>
    intro l acc res l1 h
    unfold takeRUAsLoop at h
    split at h
    · rename_i r
      cases hu : takeURI uriOK (wsp r) with
      | none => rw [hu] at h; simp at h
      | some ul =>
        obtain ⟨u, l2⟩ := ul
        rw [hu] at h
        simp only at h
        obtain ⟨more, hmore, hl2, hres⟩ := ih _ _ _ _ h
        obtain ⟨hsplit, hvalid⟩ := takeURI_some uriOK _ _ _ hu
        obtain ⟨a, ha, hr, _⟩ := wsp_split r
        obtain ⟨b, hb, hl2', _⟩ := wsp_split l2
        refine ⟨(a, u, b) :: more, ?_, ?_, ?_⟩
        · intro x hx
          rcases List.mem_cons.1 hx with rfl | hx
          · exact ⟨ha, hvalid, hb⟩
          · exact hmore x hx
        · simp only [renderMore, List.cons_append, List.append_assoc]
          congr 1
          rw [← hl2, ← hl2', ← hsplit, ← hr]
        · rw [hres]
          simp
    · simp only [Option.some.injEq, Prod.mk.injEq] at h
      refine ⟨[], by simp, ?_, ?_⟩
      · simp [renderMore, h.2]
      · simp [h.1]

theorem takeRUAs_some (uriOK : String → Bool) (l : List Char) (res : List String)
    (l1 : List Char) (h : takeRUAs uriOK l = some (res, l1)) :
    ∃ first after more, (FieldSyn.rua first after more).WF uriOK ∧
      l = first ++ (after ++ (renderMore more ++ l1)) ∧
      res = String.mk first :: more.map (fun x => String.mk x.2.1) := by
  unfold takeRUAs at h
  cases hu : takeURI uriOK l with
  | none => rw [hu] at h; simp at h
  | some ul =>
    obtain ⟨u, l2⟩ := ul
    rw [hu] at h
    simp only at h
    obtain ⟨more, hmore, hl2, hres⟩ := takeRUAsLoop_some uriOK _ _ _ _ _ h
    obtain ⟨hsplit, hvalid⟩ := takeURI_some uriOK _ _ _ hu
    obtain ⟨a, ha, hl2', _⟩ := wsp_split l2
    refine ⟨u, a, more, ⟨hvalid, ha, hmore⟩, ?_, ?_⟩
    · rw [← hl2, ← hl2', ← hsplit]
    · rw [hres]
      simp

theorem finish_ok (rec r : Record) (l : List Char) (h : finish rec l = Except.ok r) :
    l = [] ∧ r = rec ∧ rec.RUAs ≠ [] := by
  unfold finish at h
  split_ifs at h with h1 h2
  · simp only [Except.ok.injEq] at h
    exact ⟨by simpa using h1, h.symm, h2⟩

/-- What follows a field that `parseFields` has taken: the end, a last semicolon, or
a semicolon and the further fields. -/
theorem parseFields_some (uriOK : String → Bool) :
    ∀ (fuel : Nat) (l : List Char) (rec r : Record),
      parseFields uriOK fuel l rec = Except.ok r →
      ∃ (f : FieldSyn) (rest : List (List Char × List Char × FieldSyn))
        (trailer : Option (List Char × List Char)),
        f.WF uriOK ∧ (∀ x ∈ rest, allWSP x.1 ∧ allWSP x.2.1 ∧ x.2.2.WF uriOK) ∧
          (∀ x ∈ trailer, allWSP x.1 ∧ allWSP x.2) ∧
          l = renderField f ++ renderTail rest trailer ∧
          r = (rest.map (fun x => x.2.2)).foldl addField (addField rec f) ∧
          r.RUAs ≠ [] := by
  intro fuel
  induction fuel with
  | zero => intro l rec r h; simp [parseFields] at h
  | succ n ih =>
    intro l rec r h
    -- the field and what is left after it
    have key : ∃ (f : FieldSyn) (l3 : List Char), f.WF uriOK ∧ l = renderField f ++ l3 ∧
        (match delim l3 with
          | some l4 =>
            if l4 = [] then finish (addField rec f) l4
            else parseFields uriOK n l4 (addField rec f)
          | none => finish (addField rec f) l3) = Except.ok r := by
      rw [parseFields] at h
      cases hk : takeKey l with
      | none => rw [hk] at h; simp at h
      | some kl =>
        obtain ⟨k, l1⟩ := kl
        rw [hk] at h
        simp only at h
        obtain ⟨hl, hkey, hlen⟩ := takeKey_some l k l1 hk
        split at h
        · rename_i l2
          by_cases hr : k = "rua".data
          · simp only [hr, if_true] at h
            cases ht : takeRUAs uriOK l2 with
            | none => rw [ht] at h; simp at h
            | some x =>
              obtain ⟨res, l3⟩ := x
              rw [ht] at h
              simp only [Option.map_some'] at h
              obtain ⟨first, after, more, hwf, hl2, hres⟩ := takeRUAs_some uriOK l2 res l3 ht
              refine ⟨FieldSyn.rua first after more, l3, hwf, ?_, ?_⟩
              · rw [hl, hr, hl2]
                simp [renderField]
              · rw [← h]
                simp only [addField, hres]
          · simp only [hr, if_false] at h
            cases ht : takeValue l2 with
            | none => rw [ht] at h; simp at h
            | some x =>
              obtain ⟨v, l3⟩ := x
              rw [ht] at h
              simp only [Option.map_some'] at h
              obtain ⟨hl2, hv⟩ := takeValue_some l2 v l3 ht
              refine ⟨FieldSyn.ext k v, l3, ⟨⟨hkey, hlen, hr⟩, hv⟩, ?_, ?_⟩
              · rw [hl, hl2]
                simp [renderField]
              · rw [← h]
                simp only [addField]
        · simp at h
    obtain ⟨f, l3, hf, hl, hcont⟩ := key
    cases hd : delim l3 with
    | none =>
      rw [hd] at hcont
      obtain ⟨h1, h2, h3⟩ := finish_ok _ _ _ hcont
      refine ⟨f, [], none, hf, by simp, by simp, ?_, ?_, ?_⟩
      · rw [hl, h1]; rfl
      · rw [h2]; rfl
      · rw [h2]; exact h3
    | some l4 =>
      rw [hd] at hcont
      obtain ⟨a, b, ha, hb, hl3, _⟩ := delim_some l3 l4 hd
      simp only at hcont
      by_cases h4 : l4 = []
      · rw [if_pos h4] at hcont
        obtain ⟨_, h2, h3⟩ := finish_ok _ _ _ hcont
        refine ⟨f, [], some (a, b), hf, by simp, ?_, ?_, ?_, ?_⟩
        · intro x hx
          simp only [Option.mem_def, Option.some.injEq] at hx
          subst hx
          exact ⟨ha, hb⟩
        · rw [hl, hl3, h4]
          simp [renderTail]
        · rw [h2]; rfl
        · rw [h2]; exact h3
      · rw [if_neg h4] at hcont
        obtain ⟨g, rest, trailer, hg, hrest, htr, hl4, hr, hrua⟩ := ih _ _ _ hcont
        refine ⟨f, (a, b, g) :: rest, trailer, hf, ?_, htr, ?_, ?_, hrua⟩
        · intro x hx
          rcases List.mem_cons.1 hx with rfl | hx
          · exact ⟨ha, hb, hg⟩
          · exact hrest x hx
        · rw [hl, hl3, hl4]
          simp [renderTail]
        · rw [hr]
          rfl

/-- `ParseRecord` accepts only well-formed record texts, and returns the record the
text stands for. -/
theorem ParseRecord_some (uriOK : String → Bool) (txt : String) (r : Record)
    (h : ParseRecord uriOK txt = Except.ok r) :
    ∃ s : Syn, s.WF uriOK ∧ s.render = txt.data ∧ s.record = r := by
  unfold ParseRecord at h
  cases hp : takePrefix "v=TLSRPTv1".data txt.data with
  | none => rw [hp] at h; simp at h
  | some l =>
    rw [hp] at h
    simp only at h
    have hl := takePrefix_some _ _ _ hp
    cases hd : delim l with
    | none => rw [hd] at h; simp at h
    | some l1 =>
      rw [hd] at h
      simp only at h
      obtain ⟨w0, w1, hw0, hw1, hl1, _⟩ := delim_some l l1 hd
      obtain ⟨f, rest, trailer, hf, hrest, htr, hfields, hr, hrua⟩ :=
        parseFields_some uriOK _ _ _ _ h
      refine ⟨⟨w0, w1, f, rest, trailer⟩, ⟨hw0, hw1, hf, hrest, htr, ?_⟩, ?_, hr.symm⟩
      · rw [hr, foldl_addField_RUAs, addField_RUAs] at hrua
        rcases hrua with (h0 | h0) | ⟨g, hg, hg2⟩
        · exact absurd rfl h0
        · exact Or.inl h0
        · obtain ⟨x, hx, rfl⟩ := List.mem_map.1 hg
          exact Or.inr ⟨x, hx, hg2⟩
      · rw [hl, hl1, hfields]
        simp [Syn.render]

/-! ## Package `tlsrpt`: the records that are returned, and their printed form -/

theorem addField_WF (uriOK : String → Bool) (rec : Record) (f : FieldSyn) (hf : f.WF uriOK)
    (h : (∀ ruas ∈ rec.RUAs, ruas ≠ [] ∧ ∀ u ∈ ruas, validURI uriOK u.data) ∧
      (∀ e ∈ rec.Extensions, validKey e.Key.data ∧ validValue e.Value.data)) :
    (∀ ruas ∈ (addField rec f).RUAs, ruas ≠ [] ∧ ∀ u ∈ ruas, validURI uriOK u.data) ∧
      (∀ e ∈ (addField rec f).Extensions, validKey e.Key.data ∧ validValue e.Value.data) := by
  cases f with
  | rua first after more =>
    obtain ⟨hfirst, _, hmore⟩ := hf
    refine ⟨?_, h.2⟩
    intro ruas hr
    simp only [addField, List.mem_append, List.mem_singleton] at hr
    rcases hr with hr | rfl
    · exact h.1 ruas hr
    · refine ⟨by simp, ?_⟩
      intro u hu
      rcases List.mem_cons.1 hu with rfl | hu
      · exact hfirst
      · obtain ⟨x, hx, rfl⟩ := List.mem_map.1 hu
        exact (hmore x hx).2.1
  | ext key value =>
    refine ⟨h.1, ?_⟩
    intro e he
    simp only [addField, List.mem_append, List.mem_singleton] at he
    rcases he with he | rfl
    · exact h.2 e he
    · exact hf

theorem foldl_addField_WF (uriOK : String → Bool) (fields : List FieldSyn) :
    ∀ rec : Record, (∀ f ∈ fields, f.WF uriOK) →
      ((∀ ruas ∈ rec.RUAs, ruas ≠ [] ∧ ∀ u ∈ ruas, validURI uriOK u.data) ∧
        (∀ e ∈ rec.Extensions, validKey e.Key.data ∧ validValue e.Value.data)) →
      (∀ ruas ∈ (fields.foldl addField rec).RUAs,
          ruas ≠ [] ∧ ∀ u ∈ ruas, validURI uriOK u.data) ∧
        (∀ e ∈ (fields.foldl addField rec).Extensions,
          validKey e.Key.data ∧ validValue e.Value.data) := by
  induction fields with
  | nil => intro rec _ h; exact h
  | cons f fields ih =>
    intro rec hf h
    rw [List.foldl_cons]
    exact ih _ (fun g hg => hf g (List.mem_cons_of_mem _ hg))
      (addField_WF uriOK rec f (hf f (List.mem_cons_self _ _)) h)

/-- The record of a well-formed record text is a well-formed record. -/
theorem Syn.record_WF (uriOK : String → Bool) (s : Syn) (hs : s.WF uriOK) :
    recordWF uriOK s.record := by
  obtain ⟨_, _, hfirst, hrest, _, hrua⟩ := hs
  have hw := foldl_addField_WF uriOK (s.first :: s.rest.map (fun x => x.2.2))
    ⟨"TLSRPTv1", [], []⟩
    (by
      intro f hf
      rcases List.mem_cons.1 hf with rfl | hf
      · exact hfirst
      · obtain ⟨x, hx, rfl⟩ := List.mem_map.1 hf
        exact (hrest x hx).2.2)
    (by simp)
  refine ⟨?_, ?_, hw.1, hw.2⟩
  · unfold Syn.record
    rw [foldl_addField_Version]
    cases s.first <;> rfl
  · unfold Syn.record
    rw [foldl_addField_RUAs, addField_RUAs]
    rcases hrua with h | ⟨x, hx, h⟩
    · exact Or.inl (Or.inr h)
    · exact Or.inr ⟨x.2.2, List.mem_map.2 ⟨x, hx, rfl⟩, h⟩

/-- Every record that `ParseRecord` returns is well-formed. -/
theorem ParseRecord_WF (uriOK : String → Bool) (txt : String) (r : Record)
    (h : ParseRecord uriOK txt = Except.ok r) : recordWF uriOK r := by
  obtain ⟨s, hs, _, hr⟩ := ParseRecord_some uriOK txt r h
  rw [← hr]
  exact Syn.record_WF uriOK s hs

theorem canonRUA_WF (uriOK : String → Bool) (ruas : List String)
    (h : ruas ≠ [] ∧ ∀ u ∈ ruas, validURI uriOK u.data) : (canonRUA ruas).WF uriOK := by
  cases ruas with
  | nil => exact absurd rfl h.1
  | cons u rest =>
    refine ⟨h.2 u (List.mem_cons_self _ _), by simp [allWSP], ?_⟩
    intro x hx
    simp only [List.tail_cons, List.mem_map] at hx
    obtain ⟨v, hv, rfl⟩ := hx
    exact ⟨by simp [allWSP], h.2 v (List.mem_cons_of_mem _ hv), by simp [allWSP]⟩

theorem canonFields_WF (uriOK : String → Bool) (r : Record) (hr : recordWF uriOK r) :
    ∀ f ∈ canonFields r, f.WF uriOK := by
  intro f hf
  unfold canonFields at hf
  rcases List.mem_append.1 hf with hf | hf
  · obtain ⟨ruas, hruas, rfl⟩ := List.mem_map.1 hf
    exact canonRUA_WF uriOK ruas (hr.2.2.1 ruas hruas)
  · obtain ⟨e, he, rfl⟩ := List.mem_map.1 hf
    exact hr.2.2.2 e he

theorem printURIs_cons (u : String) (rest : List String) :
    printURIs (u :: rest) = u.data ++ renderMore (rest.map (fun v => ([], v.data, []))) := by
  induction rest generalizing u with
  | nil => simp [printURIs, renderMore]
  | cons v rest ih =>
    rw [printURIs, ih v]
    · simp [renderMore]
    · simp

theorem renderField_canonRUA (ruas : List String) (h : ruas ≠ []) :
    renderField (canonRUA ruas) = "rua=".data ++ printURIs ruas := by
  cases ruas with
  | nil => exact absurd rfl h
  | cons u rest =>
    rw [printURIs_cons]
    simp [canonRUA, renderField]

theorem renderTail_canonRest_cons (g : FieldSyn) (fields : List FieldSyn) :
    renderTail (canonRest (g :: fields)) none =
      "; ".data ++ (renderField g ++ renderTail (canonRest fields) none) := by
  simp [canonRest, renderTail]

theorem renderTail_canonRest_append (a b : List FieldSyn) :
    renderTail (canonRest (a ++ b)) none =
      renderTail (canonRest a) none ++ renderTail (canonRest b) none := by
  induction a with
  | nil => simp [canonRest, renderTail]
  | cons g a ih =>
    rw [List.cons_append, renderTail_canonRest_cons, renderTail_canonRest_cons, ih]
    simp

theorem renderTail_canonRUAs (l : List (List String)) (h : ∀ ruas ∈ l, ruas ≠ []) :
    renderTail (canonRest (l.map canonRUA)) none = printRUAs l := by
  induction l with
  | nil => simp [canonRest, renderTail, printRUAs]
  | cons ruas l ih =>
    rw [List.map_cons, renderTail_canonRest_cons,
      renderField_canonRUA ruas (h ruas (List.mem_cons_self _ _)),
      ih (fun x hx => h x (List.mem_cons_of_mem _ hx)), printRUAs]
    simp

theorem renderTail_canonExts (l : List Extension) :
    renderTail (canonRest (l.map canonExt)) none = printExtensions l := by
  induction l with
  | nil => simp [canonRest, renderTail, printExtensions]
  | cons e l ih =>
    rw [List.map_cons, renderTail_canonRest_cons, ih, printExtensions]
    simp [canonExt, renderField]

/-- The text of `Record.String` is the text of the fields of the record, each after
a semicolon and a space. -/
theorem recordString_data (uriOK : String → Bool) (r : Record) (hr : recordWF uriOK r) :
    r.String.data = "v=TLSRPTv1".data ++ renderTail (canonRest (canonFields r)) none := by
  unfold Record.String canonFields
  rw [renderTail_canonRest_append, renderTail_canonRUAs r.RUAs (fun x hx => (hr.2.2.1 x hx).1),
    renderTail_canonExts, hr.1]
  simp

theorem foldl_addField_canonRUAs (l : List (List String)) (h : ∀ ruas ∈ l, ruas ≠ []) :
    ∀ rec : Record, (l.map canonRUA).foldl addField rec = { rec with RUAs := rec.RUAs ++ l } := by
  induction l with
  | nil => intro rec; simp
  | cons ruas l ih =>
    intro rec
    rw [List.map_cons, List.foldl_cons, ih (fun x hx => h x (List.mem_cons_of_mem _ hx))]
    cases ruas with
    | nil => exact absurd rfl (h [] (List.mem_cons_self _ _))
    | cons u rest =>
      simp [canonRUA, addField, Function.comp_def]

theorem foldl_addField_canonExts (l : List Extension) :
    ∀ rec : Record,
      (l.map canonExt).foldl addField rec = { rec with Extensions := rec.Extensions ++ l } := by
  induction l with
  | nil => intro rec; simp
  | cons e l ih =>
    intro rec
    rw [List.map_cons, List.foldl_cons, ih]
    simp [canonExt, addField]

/-- The fields that `Record.String` prints stand for the record. -/
theorem foldl_addField_canonFields (uriOK : String → Bool) (r : Record) (hr : recordWF uriOK r) :
    (canonFields r).foldl addField ⟨"TLSRPTv1", [], []⟩ = r := by
  unfold canonFields
  rw [List.foldl_append, foldl_addField_canonRUAs r.RUAs (fun x hx => (hr.2.2.1 x hx).1),
    foldl_addField_canonExts]
  cases r with
  | mk v ruas exts =>
    have hv : v = "TLSRPTv1" := hr.1
    simp [hv]

/-- `ParseRecord` on the printed form of a well-formed record returns the record. -/
theorem ParseRecord_String (uriOK : String → Bool) (r : Record) (hr : recordWF uriOK r) :
    ParseRecord uriOK r.String = Except.ok r := by
  have hfields := canonFields_WF uriOK r hr
  have hdata := recordString_data uriOK r hr
  have hfold := foldl_addField_canonFields uriOK r hr
  cases hc : canonFields r with
  | nil =>
    exfalso
    rw [hc] at hfold
    rw [← hfold] at hr
    exact hr.2.1 rfl
  | cons f fields =>
    rw [hc] at hfields hdata hfold
    have hs : (⟨[], [' '], f, canonRest fields, none⟩ : Syn).WF uriOK := by
      refine ⟨by simp [allWSP], ?_, hfields f (List.mem_cons_self _ _), ?_, by simp, ?_⟩
      · intro c hc
        simp only [List.mem_singleton] at hc
        subst hc
        decide
      · intro x hx
        simp only [canonRest, List.mem_map] at hx
        obtain ⟨g, hg, rfl⟩ := hx
        refine ⟨by simp [allWSP], ?_, hfields g (List.mem_cons_of_mem _ hg)⟩
        intro c hc
        simp only [List.mem_singleton] at hc
        subst hc
        decide
      · have hne : r.RUAs ≠ [] := hr.2.1
        rw [← hfold, List.foldl_cons, foldl_addField_RUAs, addField_RUAs] at hne
        rcases hne with (h0 | h0) | ⟨g, hg, hg2⟩
        · exact absurd rfl h0
        · exact Or.inl h0
        · exact Or.inr ⟨([], [' '], g), by simp [canonRest, hg], hg2⟩
    have hparse := ParseRecord_render uriOK ⟨[], [' '], f, canonRest fields, none⟩ hs
    have htxt : String.mk (Syn.render ⟨[], [' '], f, canonRest fields, none⟩) = r.String := by
      have : r.String = String.mk r.String.data := rfl
      rw [this, hdata, renderTail_canonRest_cons]
      simp [Syn.render]
    have hrec : (⟨[], [' '], f, canonRest fields, none⟩ : Syn).record = r := by
      rw [← hfold]
      simp [Syn.record, canonRest, List.map_map, Function.comp_def]
    rw [htxt, hrec] at hparse
    exact hparse

/-- The model of `ParseRecord` passes the cases of `TestRecord`. -/
theorem ParseRecord_tests :
    (∀ txt ∈ testBad, okRecord (ParseRecord exampleURIOK txt) = none) ∧
      (∀ p ∈ testGood, okRecord (ParseRecord exampleURIOK p.1) = some p.2) := by
  constructor <;> decide

/-- C17: TLSRPT records round-trip: for every record `r` that `ParseRecord` returns
(for some text), `ParseRecord` on `r.String` succeeds and gives `r` again; and
`String` prints the version, then each list of URIs as a `rua` field, then each
extension as `name=value`, separated by `; `: the record of the test prints as
`v=TLSRPTv1; rua=mailto:x@beacon.example; more=a; ext=2`. -/
theorem C17_ParseRecord_roundtrip (uriOK : String → Bool) (txt : String) (r : Record) :
    (ParseRecord uriOK txt = Except.ok r → ParseRecord uriOK r.String = Except.ok r) ∧
      (Record.mk "TLSRPTv1" [["mailto:x@beacon.example"]] [⟨"more", "a"⟩, ⟨"ext", "2"⟩]).String =
        "v=TLSRPTv1; rua=mailto:x@beacon.example; more=a; ext=2" := by
  refine ⟨fun h => ?_, by decide⟩
  exact ParseRecord_String uriOK r (ParseRecord_WF uriOK txt r h)

/-- Witness of C17: the record of a text with white space before the separator and
two `rua` fields is parsed again from its printed form. -/
theorem C17_ParseRecord_roundtrip_witness :
    ParseRecord exampleURIOK
        (Record.mk "TLSRPTv1" [["mailto:x@x.example"], ["mailto:y@x.example"]] []).String =
      Except.ok ⟨"TLSRPTv1", [["mailto:x@x.example"], ["mailto:y@x.example"]], []⟩ :=
  (C17_ParseRecord_roundtrip exampleURIOK
    "v=TLSRPTv1 ; rua=mailto:x@x.example; rua=mailto:y@x.example"
    ⟨"TLSRPTv1", [["mailto:x@x.example"], ["mailto:y@x.example"]], []⟩).1 (by rfl)

/-- C18: `ParseRecord` accepts exactly the well-formed record texts: the version
`v=TLSRPTv1`, a semicolon, and fields separated by semicolons, with optional white
space around the semicolons and the commas and at most one semicolon after the last
field, where a `rua` field has one or more URIs that are not empty and that `uriOK`
accepts (they parse and have a scheme), an extension has a valid name of at most 32
characters and a value that is not empty, and there is at least one `rua` field.  For
every other text it returns an error; every record it returns is well-formed; and it
passes the cases of `TestRecord`. -/
theorem C18_ParseRecord_accepts_exactly (uriOK : String → Bool) (txt : String) (r : Record) :
    (ParseRecord uriOK txt = Except.ok r ↔
      ∃ s : Syn, s.WF uriOK ∧ s.render = txt.data ∧ s.record = r) ∧
    (ParseRecord uriOK txt = Except.ok r →
      List.IsPrefix "v=TLSRPTv1".data txt.data ∧ recordWF uriOK r) ∧
    (∀ bad ∈ testBad, okRecord (ParseRecord exampleURIOK bad) = none) ∧
    (∀ good ∈ testGood, okRecord (ParseRecord exampleURIOK good.1) = some good.2) := by
  refine ⟨⟨ParseRecord_some uriOK txt r, ?_⟩, fun h => ⟨?_, ParseRecord_WF uriOK txt r h⟩,
    ParseRecord_tests.1, ParseRecord_tests.2⟩
  · rintro ⟨s, hs, hrender, hrec⟩
    have h := ParseRecord_render uriOK s hs
    have htxt : String.mk s.render = txt := by
      rw [hrender]
    rw [htxt, hrec] at h
    exact h
  · obtain ⟨s, _, hrender, _⟩ := ParseRecord_some uriOK txt r h
    rw [← hrender]
    exact ⟨_, rfl⟩

/-- Witness of C18: a text with white space around the separators, two URIs, an
extension and a last semicolon is accepted, and it is a well-formed record text. -/
theorem C18_ParseRecord_accepts_exactly_witness :
    ParseRecord exampleURIOK
        "v=TLSRPTv1 \t;  rua=mailto:a@x.example , https://x.example/r ;ext=1 ; " =
      Except.ok ⟨"TLSRPTv1", [["mailto:a@x.example", "https://x.example/r"]], [⟨"ext", "1"⟩]⟩ ∧
    ∃ s : Syn, s.WF exampleURIOK ∧
      s.render =
        ("v=TLSRPTv1 \t;  rua=mailto:a@x.example , https://x.example/r ;ext=1 ; " : String).data ∧
      s.record =
        ⟨"TLSRPTv1", [["mailto:a@x.example", "https://x.example/r"]], [⟨"ext", "1"⟩]⟩ :=
  ⟨by rfl,
    (C18_ParseRecord_accepts_exactly exampleURIOK
      "v=TLSRPTv1 \t;  rua=mailto:a@x.example , https://x.example/r ;ext=1 ; "
      ⟨"TLSRPTv1", [["mailto:a@x.example", "https://x.example/r"]], [⟨"ext", "1"⟩]⟩).1.1
      (by rfl)⟩

end tlsrpt

/-! ## `metrics`: the result classification of `httpClientObserve` -/

namespace metrics

/-- Go integer division by 100 yields a positive quotient `q` exactly on the hundred
`100 * q .. 100 * q + 99`. -/
theorem tdiv_hundred_eq (s q : Int) (hq : 0 < q) :
    Int.tdiv s 100 = q ↔ 100 * q ≤ s ∧ s ≤ 100 * q + 99 := by
  rcases Int.lt_or_le s 0 with hneg | hpos
  · have h0 : Int.tdiv s 100 ≤ 0 := by
      have h1 : Int.tdiv s 100 = -(Int.tdiv (-s) 100) := by
        rw [Int.neg_tdiv, neg_neg]
      have h2 : 0 ≤ Int.tdiv (-s) 100 := Int.tdiv_nonneg (by omega) (by decide)
      omega
    constructor
    · intro h; omega
    · intro h; omega
  · rw [Int.tdiv_eq_ediv hpos (by decide)]
    constructor
    · intro h; omega
    · intro h; omega

/-- The classification under a non-nil error does not read the status code. -/
theorem httpClientResult_err_indep (s t : Int) (e : ObserveError) :
    httpClientResult s (some e) = httpClientResult t (some e) := by
  rfl

/-- Status codes outside the hundreds 2xx, 4xx and 5xx are classified `other`:
zero, 1xx, 3xx, 6xx and negative codes, where Go division truncates toward zero. -/
theorem httpClientResult_other_examples :
    httpClientResult 0 none = "other" ∧ httpClientResult 100 none = "other" ∧
    httpClientResult 199 none = "other" ∧ httpClientResult 302 none = "other" ∧
    httpClientResult 600 none = "other" ∧ httpClientResult (-1) none = "other" ∧
    httpClientResult (-200) none = "other" ∧ httpClientResult (-450) none = "other" := by
  decide

/-- C21: with a nil error the result of `httpClientObserve` is `ok` exactly for status
codes 200 to 299, `usererror` exactly for 400 to 499, `servererror` exactly for 500 to
599 and `other` exactly for all remaining codes; with a non-nil error it is `timeout`
exactly when the error is a deadline-exceeded error, `canceled` exactly when it is not
and the error is `context.Canceled`, `error` exactly when it is neither, and the
result is the same for every status code. -/
theorem C21_httpClientResult_classification (statusCode other : Int) (e : ObserveError) :
    (httpClientResult statusCode none = "ok" ↔ 200 ≤ statusCode ∧ statusCode ≤ 299) ∧
    (httpClientResult statusCode none = "usererror" ↔
      400 ≤ statusCode ∧ statusCode ≤ 499) ∧
    (httpClientResult statusCode none = "servererror" ↔
      500 ≤ statusCode ∧ statusCode ≤ 599) ∧
    (httpClientResult statusCode none = "other" ↔
      ¬ (200 ≤ statusCode ∧ statusCode ≤ 299) ∧ ¬ (400 ≤ statusCode ∧ statusCode ≤ 499) ∧
        ¬ (500 ≤ statusCode ∧ statusCode ≤ 599)) ∧
    (httpClientResult statusCode (some e) = "timeout" ↔
      (e.IsOSDeadlineExceeded = true ∨ e.IsContextDeadlineExceeded = true)) ∧
    (httpClientResult statusCode (some e) = "canceled" ↔
      ¬ (e.IsOSDeadlineExceeded = true ∨ e.IsContextDeadlineExceeded = true) ∧
        e.IsCanceled = true) ∧
    (httpClientResult statusCode (some e) = "error" ↔
      ¬ (e.IsOSDeadlineExceeded = true ∨ e.IsContextDeadlineExceeded = true) ∧
        e.IsCanceled = false) ∧
    httpClientResult statusCode (some e) = httpClientResult other (some e) := by
  have h2 := tdiv_hundred_eq statusCode 2 (by decide)
  have h4 := tdiv_hundred_eq statusCode 4 (by decide)
  have h5 := tdiv_hundred_eq statusCode 5 (by decide)
  have hnone : httpClientResult statusCode none =
      if Int.tdiv statusCode 100 = 2 then "ok"
      else if Int.tdiv statusCode 100 = 4 then "usererror"
      else if Int.tdiv statusCode 100 = 5 then "servererror"
      else "other" := rfl
  refine ⟨?_, ?_, ?_, ?_, ?_, ?_, ?_, rfl⟩
  · rw [hnone]
    split_ifs with a b c <;> simp <;> omega
  · rw [hnone]
    split_ifs with a b c <;> simp <;> omega
  · rw [hnone]
    split_ifs with a b c <;> simp <;> omega
  · rw [hnone]
    split_ifs with a b c <;> simp <;> omega
  · rw [httpClientResult_err_indep statusCode 0 e]
    rcases e with ⟨a, b, c⟩
    cases a <;> cases b <;> cases c <;> decide
  · rw [httpClientResult_err_indep statusCode 0 e]
    rcases e with ⟨a, b, c⟩
    cases a <;> cases b <;> cases c <;> decide
  · rw [httpClientResult_err_indep statusCode 0 e]
    rcases e with ⟨a, b, c⟩
    cases a <;> cases b <;> cases c <;> decide
end metrics

end Beacon
